import Mathlib

/-!
# Verification of the go-exml handler-tree dispatcher

This file gives a shallow embedding, in Lean 4, of the handler-tree
dispatcher and run loop of the `go-exml` package (`src/exml.go`, the v3
implementation) together with the older v2 variant
(`src/unnamed/part_003`) that still had the reserved `$text`
pseudo-segment, and proves or refutes the frozen specification claims
about them.

Modelling choices:

* Go's pointer-linked `handler` tree is represented as an arena: a
  `List Handler` of nodes addressed by index, with index `0` playing the
  role of the `topHandler` sentinel allocated by `NewDecoder`.  Pointer
  mutation (`h.parentHandler = d.currentHandler`,
  `h.subHandlers[ev] = sub`) becomes functional update of the arena.
* A Go `map[string]*handler` becomes an association list
  `List (String × Nat)`; the code never iterates over these maps, so
  ordering is irrelevant and key lookup/replacement models them exactly.
* User callbacks are modelled as data: a tag callback carries an
  optional observation label (recorded in the trace together with the
  element's attributes when the callback is invoked, exactly where
  `h.tagCallback(t.Attr)` runs) and a list of registration actions which
  are performed against the decoder state exactly where the Go callback
  body would call `On` / `OnTextOf` / `OnText`.  Text and error
  callbacks are pure observers and carry just a label.
* `[]byte` text buffers become `String`s; `bytes.TrimSpace` becomes
  `String.trim`.
* The `xml.Decoder` token source is an abstract list of tokens followed
  by a terminal error value, matching the spec's external-interface
  description: `decoder.Token()` returning `nil, err` is the terminal
  condition.
-/

set_option maxHeartbeats 1000000

namespace Exml

/-- Attributes of a start tag: an ordered list of (name, value) pairs,
modelling `[]xml.Attr` restricted to local names. -/
abbrev Attrs := List (String × String)

mutual
/-- A registration action performed inside a running tag callback,
modelling the Go calls `d.On(path, cb)`, `d.OnTextOf(path, cb)` and
`d.OnText(cb)`. -/
inductive Reg where
  | onTag : String → Cb → Reg
  | onTextOf : String → Nat → Reg
  | onText : Nat → Reg

/-- A tag callback: an optional observation label (an invocation with
label `ℓ` and attributes `a` is recorded as `Event.tag ℓ a`) and the
registration calls the callback body performs. -/
inductive Cb where
  | mk : Option Nat → List Reg → Cb
end

/-- Observable events produced during a run: tag-callback invocations,
text-callback invocations, and the terminal error-callback invocation. -/
inductive Event where
  | tag : Nat → Attrs → Event
  | text : Nat → String → Event
  | err : Nat → String → Event
deriving DecidableEq, Repr

/-- Tokens delivered by the underlying `xml.Decoder`:
`xml.StartElement` (local name and attributes), `xml.CharData`, and
`xml.EndElement`. -/
inductive Token where
  | start : String → Attrs → Token
  | chardata : String → Token
  | endElem : Token

/-- One handler-tree node, modelling the Go `handler` struct of
`src/exml.go`: optional tag callback, optional text callback (a label),
name-keyed children, mutable parent back-reference, and the pending
text buffer. -/
structure Handler where
  tagCallback : Option Cb := none
  textCallback : Option Nat := none
  subHandlers : List (String × Nat) := []
  parentHandler : Nat := 0
  text : String := ""

/-- The decoder state, modelling the Go `Decoder` struct: the handler
arena (index 0 is `topHandler`), the current handler, the optional
error callback (a label), and the trace of observable callback
invocations so far. -/
structure DState where
  nodes : List Handler
  currentHandler : Nat
  errorCallback : Option Nat := none
  trace : List Event := []

/-- Arena read: node at index `i` (out-of-range yields the default
node; well-formedness keeps all used indices in range). -/
def getN (l : List Handler) (i : Nat) : Handler :=
  l.getD i {}

/-- Arena write: replace the node at index `i` (no-op out of range). -/
def setN : List Handler → Nat → Handler → List Handler
  | [], _, _ => []
  | _ :: xs, 0, h => h :: xs
  | x :: xs, i + 1, h => x :: setN xs i h

/-- Association-list lookup, modelling `m[k]` on a Go map (returns
`none` for a missing key, as the Go map returns the nil pointer). -/
def lookupSub : List (String × Nat) → String → Option Nat
  | [], _ => none
  | (k, v) :: rest, key => if k = key then some v else lookupSub rest key

/-- Association-list update, modelling `m[k] = v` on a Go map. -/
def setSub : List (String × Nat) → String → Nat → List (String × Nat)
  | [], key, v => [(key, v)]
  | (k, w) :: rest, key, v =>
      if k = key then (k, v) :: rest else (k, w) :: setSub rest key v

/-- Helper for `splitPath`: split a character list on `'/'`,
accumulating the current segment in reverse. -/
def splitAux : List Char → List Char → List String
  | [], acc => [String.mk acc.reverse]
  | c :: cs, acc =>
      if c = '/' then String.mk acc.reverse :: splitAux cs []
      else splitAux cs (c :: acc)

/-- `strings.Split(path, "/")`, as used by `installHandlers`: the list
of `'/'`-separated segments (an empty path yields one empty segment,
as in Go). -/
def splitPath (p : String) : List String := splitAux p.data []

/-- ASCII whitespace, the fragment of `unicode.IsSpace` relevant to
XML character data. -/
def isSpace (c : Char) : Bool := c = ' ' || c = '\t' || c = '\n' || c = '\r'

/-- `bytes.TrimSpace` on the modelled text buffers: drop leading and
trailing whitespace. -/
def trimStr (s : String) : String :=
  String.mk (((s.data.dropWhile isSpace).reverse.dropWhile isSpace).reverse)

/-- Store `v` under key `ev` in the children map of node `h`,
modelling `h.subHandlers[ev] = sub` (the lazy map allocation of the Go
code is invisible here: a nil map and an empty map behave alike). -/
def withSub (nodes : List Handler) (h : Nat) (ev : String) (v : Nat) : List Handler :=
  setN nodes h ({ getN nodes h with subHandlers := setSub (getN nodes h).subHandlers ev v })

/-- The loop body of `Decoder.installHandlers` (src/exml.go lines
75-100): walk the path segments from node `h`; a non-terminal segment
(`i < depth`) reuses an existing child of that name and otherwise
creates a fresh one; the terminal segment always creates a fresh node;
each step stores the child in the parent's map and descends.  Returns
the updated arena and the terminal node's index. -/
def installLoop (nodes : List Handler) (evs : List String) (i depth h : Nat) :
    List Handler × Nat :=
  match evs with
  | [] => (nodes, h)
  | ev :: rest =>
      let subOpt : Option Nat :=
        if i < depth then lookupSub (getN nodes h).subHandlers ev else none
      match subOpt with
      | some s => installLoop (withSub nodes h ev s) rest (i + 1) depth s
      | none =>
          let idx := nodes.length
          let nodes := nodes ++ [{ parentHandler := h }]
          installLoop (withSub nodes h ev idx) rest (i + 1) depth idx

/-- `Decoder.installHandlers`: split the path, then run the loop from
the current handler. -/
def installHandlers (st : DState) (path : String) : DState × Nat :=
  let evs := splitPath path
  let r := installLoop st.nodes evs 0 (evs.length - 1) st.currentHandler
  ({ st with nodes := r.1 }, r.2)

/-- Perform one registration call against the decoder state:
`Reg.onTag` is `Decoder.On` (install, then set `tagCallback` on the
terminal node), `Reg.onTextOf` is `Decoder.OnTextOf`, and `Reg.onText`
is `Decoder.OnText` (set `textCallback` on the current handler). -/
def applyReg (st : DState) : Reg → DState
  | .onTag path cb =>
      let r := installHandlers st path
      { r.1 with nodes := setN r.1.nodes r.2 ({ getN r.1.nodes r.2 with tagCallback := some cb }) }
  | .onTextOf path ℓ =>
      let r := installHandlers st path
      { r.1 with nodes := setN r.1.nodes r.2 ({ getN r.1.nodes r.2 with textCallback := some ℓ }) }
  | .onText ℓ =>
      let cur := getN st.nodes st.currentHandler
      { st with nodes := setN st.nodes st.currentHandler ({ cur with textCallback := some ℓ }) }

/-- Run a list of registration calls in order (the body of a Go
callback, or the caller's top-level setup before `Run`). -/
def runRegs (st : DState) (regs : List Reg) : DState :=
  regs.foldl applyReg st

/-- `Decoder.handleText` (src/exml.go lines 149-155): trim the current
handler's pending text, clear the buffer, and invoke the current
handler's text callback when one is present and the trimmed text is
non-empty. -/
def handleText (st : DState) : DState :=
  let cur := getN st.nodes st.currentHandler
  let text := trimStr cur.text
  let st' := { st with nodes := setN st.nodes st.currentHandler ({ cur with text := "" }) }
  match cur.textCallback with
  | some ℓ => if text ≠ "" then { st' with trace := st'.trace ++ [.text ℓ text] } else st'
  | none => st'

/-- The two-tier lookup of `Decoder.handleTag` (src/exml.go lines
135-138): the top-level (global) children map is consulted first; only
when it has no entry and the current handler is not the top sentinel is
the current handler's own children map consulted. -/
def resolve (st : DState) (name : String) : Option Nat :=
  match lookupSub (getN st.nodes 0).subHandlers name with
  | some h => some h
  | none =>
      if st.currentHandler ≠ 0 then
        lookupSub (getN st.nodes st.currentHandler).subHandlers name
      else none

/-- Invoke an optional tag callback (`if h.tagCallback != nil {
h.tagCallback(t.Attr) }` in `handleTag`): record the observation label
with the element's attributes, then perform the callback body's
registration calls. -/
def invokeCb (st : DState) (c : Option Cb) (attrs : Attrs) : DState :=
  match c with
  | none => st
  | some (.mk lab regs) =>
      let st₂ := match lab with
        | some ℓ => { st with trace := st.trace ++ [.tag ℓ attrs] }
        | none => st
      runRegs st₂ regs

/-- The found-a-handler branch of `Decoder.handleTag`: reassign the
resolved node's parent pointer to the current handler, make it the new
current handler, and invoke its tag callback. -/
def pushAndInvoke (st : DState) (h : Nat) (attrs : Attrs) : DState :=
  let st₁ : DState := { st with
    nodes := setN st.nodes h ({ getN st.nodes h with parentHandler := st.currentHandler }),
    currentHandler := h }
  invokeCb st₁ (getN st₁.nodes h).tagCallback attrs

/-- `Decoder.handleTag` (src/exml.go lines 134-147): resolve the tag
name; when a node is found, reassign its parent pointer to the current
handler, make it current, and invoke its tag callback; when nothing is
found the state is unchanged. -/
def handleTag (st : DState) (name : String) (attrs : Attrs) : DState :=
  match resolve st name with
  | none => st
  | some h => pushAndInvoke st h attrs

/-- One iteration of the `Decoder.Run` token switch (src/exml.go lines
119-130): a start element flushes pending text then dispatches the tag;
character data is appended verbatim to the current handler's buffer; an
end element flushes pending text and pops to the recorded parent unless
the current handler is the top sentinel. -/
def step (st : DState) : Token → DState
  | .start name attrs => handleTag (handleText st) name attrs
  | .chardata s =>
      let cur := getN st.nodes st.currentHandler
      { st with nodes := setN st.nodes st.currentHandler ({ cur with text := cur.text ++ s }) }
  | .endElem =>
      let st' := handleText st
      if st'.currentHandler ≠ 0 then
        { st' with currentHandler := (getN st'.nodes st'.currentHandler).parentHandler }
      else st'

/-- Process a token list in order (the body of the `Run` loop until the
source reports its terminal condition). -/
def runTokens (st : DState) (ts : List Token) : DState :=
  ts.foldl step st

/-- `Decoder.Run` (src/exml.go lines 109-132): consume every token;
when the source reports the terminal condition (`token == nil`), invoke
the registered error callback with the terminal error value if there is
one, then stop.  Termination is by construction: the model consumes a
finite token list. -/
def Run (st : DState) (ts : List Token) (e : String) : DState :=
  let st' := runTokens st ts
  match st'.errorCallback with
  | some ℓ => { st' with trace := st'.trace ++ [.err ℓ e] }
  | none => st'

/-- `NewDecoder`: a fresh decoder whose arena holds only the callback-free
top sentinel, which is also current. -/
def NewDecoder : DState :=
  { nodes := [{}], currentHandler := 0 }

/-! ## Arena and association-list lemmas -/

theorem length_setN (l : List Handler) (i : Nat) (h : Handler) :
    (setN l i h).length = l.length := by
  induction l generalizing i with
  | nil => rfl
  | cons x xs ih =>
      cases i with
      | zero => rfl
      | succ n => simp [setN, ih]

theorem setN_ge (l : List Handler) (i : Nat) (h : Handler) (hi : l.length ≤ i) :
    setN l i h = l := by
  induction l generalizing i with
  | nil => rfl
  | cons x xs ih =>
      cases i with
      | zero => simp at hi
      | succ n =>
          simp only [List.length_cons] at hi
          simp only [setN]
          rw [ih n (by omega)]

theorem getN_nil (i : Nat) : getN [] i = {} := by cases i <;> rfl

theorem getN_cons_zero (x : Handler) (xs : List Handler) : getN (x :: xs) 0 = x := rfl

theorem getN_cons_succ (x : Handler) (xs : List Handler) (n : Nat) :
    getN (x :: xs) (n + 1) = getN xs n := rfl

theorem getN_setN_self {l : List Handler} {i : Nat} (h : Handler) (hi : i < l.length) :
    getN (setN l i h) i = h := by
  induction l generalizing i with
  | nil => simp at hi
  | cons x xs ih =>
      cases i with
      | zero => rfl
      | succ n =>
          rw [setN, getN_cons_succ]
          exact ih (by simpa using hi)

theorem getN_setN_ne {l : List Handler} {i j : Nat} (h : Handler) (hij : i ≠ j) :
    getN (setN l i h) j = getN l j := by
  induction l generalizing i j with
  | nil => rfl
  | cons x xs ih =>
      cases i with
      | zero => cases j with
        | zero => exact absurd rfl hij
        | succ m => rfl
      | succ n =>
          cases j with
          | zero => rfl
          | succ m =>
              rw [setN, getN_cons_succ, getN_cons_succ]
              exact ih (by omega)

theorem getN_append_lt {l l' : List Handler} {i : Nat} (hi : i < l.length) :
    getN (l ++ l') i = getN l i := by
  induction l generalizing i with
  | nil => simp at hi
  | cons x xs ih =>
      cases i with
      | zero => rfl
      | succ n =>
          rw [List.cons_append, getN_cons_succ, getN_cons_succ]
          exact ih (by simpa using hi)

theorem getN_append_len (l : List Handler) (h : Handler) :
    getN (l ++ [h]) l.length = h := by
  induction l with
  | nil => rfl
  | cons x xs ih => simpa [getN_cons_succ] using ih

theorem lookupSub_mem {m : List (String × Nat)} {k : String} {v : Nat}
    (hl : lookupSub m k = some v) : (k, v) ∈ m := by
  induction m with
  | nil => simp [lookupSub] at hl
  | cons p rest ih =>
      obtain ⟨pk, pv⟩ := p
      by_cases hk : pk = k
      · subst hk
        simp [lookupSub] at hl
        simp [hl]
      · simp [lookupSub, hk] at hl
        exact List.mem_cons_of_mem _ (ih hl)

theorem lookupSub_setSub_self (m : List (String × Nat)) (k : String) (v : Nat) :
    lookupSub (setSub m k v) k = some v := by
  induction m with
  | nil => simp [setSub, lookupSub]
  | cons p rest ih =>
      obtain ⟨pk, pv⟩ := p
      by_cases hk : pk = k
      · subst hk; simp [setSub, lookupSub]
      · simp [setSub, lookupSub, hk, ih]

theorem lookupSub_setSub_ne (m : List (String × Nat)) {k k' : String} (v : Nat)
    (hk : k ≠ k') : lookupSub (setSub m k v) k' = lookupSub m k' := by
  induction m with
  | nil => simp [setSub, lookupSub, hk]
  | cons p rest ih =>
      obtain ⟨pk, pv⟩ := p
      by_cases hpk : pk = k
      · subst hpk; simp [setSub, lookupSub, hk]
      · simp [setSub, lookupSub, hpk, ih]

theorem mem_setSub {m : List (String × Nat)} {k : String} {v : Nat} {p : String × Nat}
    (hp : p ∈ setSub m k v) : p = (k, v) ∨ p ∈ m := by
  induction m with
  | nil => simpa [setSub] using hp
  | cons q rest ih =>
      obtain ⟨qk, qv⟩ := q
      by_cases hqk : qk = k
      · subst hqk
        rcases (by simpa [setSub] using hp : p = (qk, v) ∨ p ∈ rest) with h | h
        · exact Or.inl (by simpa using h)
        · exact Or.inr (List.mem_cons_of_mem _ h)
      · rcases (by simpa [setSub, hqk] using hp : p = (qk, qv) ∨ p ∈ setSub rest k v) with h | h
        · exact Or.inr (by simp [h])
        · rcases ih h with h' | h'
          · exact Or.inl h'
          · exact Or.inr (List.mem_cons_of_mem _ h')

/-! ## Well-formedness of decoder states -/

/-- A node is well formed relative to arena size `len`: every child
index is a non-sentinel in-range index, and the parent index is in
range.  (`installHandlers` only ever stores fresh or previously stored
nodes, never the sentinel, so this is an invariant of all reachable
states.) -/
def nodeWF (len : Nat) (h : Handler) : Prop :=
  (∀ p ∈ h.subHandlers, p.2 ≠ 0 ∧ p.2 < len) ∧ h.parentHandler < len

/-- Well-formedness of a decoder state: a non-empty arena, an in-range
current handler, and well-formed nodes. -/
def WF (st : DState) : Prop :=
  0 < st.nodes.length ∧ st.currentHandler < st.nodes.length ∧
    ∀ i < st.nodes.length, nodeWF st.nodes.length (getN st.nodes i)

instance (len : Nat) (h : Handler) : Decidable (nodeWF len h) := by
  unfold nodeWF; infer_instance

instance (st : DState) : Decidable (WF st) := by
  unfold WF; infer_instance

theorem nodeWF_mono {len len' : Nat} {h : Handler} (hw : nodeWF len h) (hl : len ≤ len') :
    nodeWF len' h :=
  ⟨fun p hp => ⟨(hw.1 p hp).1, lt_of_lt_of_le (hw.1 p hp).2 hl⟩, lt_of_lt_of_le hw.2 hl⟩

theorem resolve_range {st : DState} {name : String} {h : Nat} (hwf : WF st)
    (hr : resolve st name = some h) : h ≠ 0 ∧ h < st.nodes.length := by
  obtain ⟨hpos, hcur, hnodes⟩ := hwf
  unfold resolve at hr
  rcases hg : lookupSub (getN st.nodes 0).subHandlers name with _ | g
  · rw [hg] at hr
    by_cases hc : st.currentHandler ≠ 0
    · rw [if_pos hc] at hr
      exact (hnodes st.currentHandler hcur).1 _ (lookupSub_mem hr)
    · rw [if_neg hc] at hr
      simp at hr
  · rw [hg] at hr
    simp only [Option.some.injEq] at hr
    subst hr
    exact (hnodes 0 hpos).1 _ (lookupSub_mem hg)

/-! ## Registration preservation lemmas -/

/-- All child indices stored anywhere in the arena are non-sentinel and
in range (unbounded index form of the `WF` map conditions; out-of-range
reads give the default node with an empty map). -/
def mapsOK (nodes : List Handler) : Prop :=
  ∀ j, ∀ p ∈ (getN nodes j).subHandlers, p.2 ≠ 0 ∧ p.2 < nodes.length

/-- All parent indices in the arena are in range. -/
def parentsOK (nodes : List Handler) : Prop :=
  ∀ j, (getN nodes j).parentHandler < nodes.length

theorem getN_default {nodes : List Handler} {j : Nat} (hj : nodes.length ≤ j) :
    getN nodes j = {} := by
  unfold getN
  rw [List.getD_eq_default]
  simpa using hj

theorem WF_mapsOK {st : DState} (hwf : WF st) : mapsOK st.nodes := by
  intro j p hp
  by_cases hj : j < st.nodes.length
  · exact (hwf.2.2 j hj).1 p hp
  · rw [getN_default (by omega)] at hp; simp at hp

theorem WF_parentsOK {st : DState} (hwf : WF st) : parentsOK st.nodes := by
  intro j
  by_cases hj : j < st.nodes.length
  · exact (hwf.2.2 j hj).2
  · rw [getN_default (by omega)]; simpa using hwf.1

theorem length_withSub (nodes : List Handler) (a : Nat) (ev : String) (v : Nat) :
    (withSub nodes a ev v).length = nodes.length := by
  simp [withSub, length_setN]

theorem getN_withSub_self {nodes : List Handler} {a : Nat} (ev : String) (v : Nat)
    (ha : a < nodes.length) :
    getN (withSub nodes a ev v) a =
      { getN nodes a with subHandlers := setSub (getN nodes a).subHandlers ev v } := by
  simp [withSub, getN_setN_self _ ha]

theorem getN_withSub_ne {nodes : List Handler} {a j : Nat} (ev : String) (v : Nat)
    (hj : a ≠ j) : getN (withSub nodes a ev v) j = getN nodes j := by
  simp [withSub, getN_setN_ne _ hj]

theorem installLoop_length_le (evs : List String) :
    ∀ (nodes : List Handler) (i depth h : Nat),
      nodes.length ≤ (installLoop nodes evs i depth h).1.length := by
  induction evs with
  | nil => intro nodes i depth h; exact le_refl _
  | cons ev rest ih =>
      intro nodes i depth h
      show nodes.length ≤ (installLoop nodes (ev :: rest) i depth h).1.length
      rw [installLoop]
      rcases hs : (if i < depth then lookupSub (getN nodes h).subHandlers ev else none)
        with _ | s
      · refine le_trans ?_ (ih _ _ _ _)
        simp [length_withSub]
      · refine le_trans ?_ (ih _ _ _ _)
        simp [length_withSub]

/-- Two handler nodes agreeing on every field except possibly the
children map. -/
def sameCore (a b : Handler) : Prop :=
  a.tagCallback = b.tagCallback ∧ a.textCallback = b.textCallback ∧
    a.parentHandler = b.parentHandler ∧ a.text = b.text

theorem sameCore_refl (a : Handler) : sameCore a a := ⟨rfl, rfl, rfl, rfl⟩

theorem sameCore_trans {a b c : Handler} (h₁ : sameCore a b) (h₂ : sameCore b c) :
    sameCore a c :=
  ⟨h₁.1.trans h₂.1, h₁.2.1.trans h₂.2.1, h₁.2.2.1.trans h₂.2.2.1, h₁.2.2.2.trans h₂.2.2.2⟩

theorem withSub_ge (nodes : List Handler) (a : Nat) (ev : String) (v : Nat)
    (ha : nodes.length ≤ a) : withSub nodes a ev v = nodes :=
  setN_ge _ _ _ ha

theorem sameCore_withSub (nodes : List Handler) (a : Nat) (ev : String) (v : Nat) (j : Nat) :
    sameCore (getN (withSub nodes a ev v) j) (getN nodes j) := by
  by_cases hj : a = j
  · by_cases ha : a < nodes.length
    · rw [← hj, getN_withSub_self _ _ ha]
      exact ⟨rfl, rfl, rfl, rfl⟩
    · rw [withSub_ge _ _ _ _ (by omega)]
      exact sameCore_refl _
  · rw [getN_withSub_ne _ _ hj]
    exact sameCore_refl _

theorem installLoop_cons_some {nodes : List Handler} {i depth h : Nat} {ev : String} {s : Nat}
    (hs : (if i < depth then lookupSub (getN nodes h).subHandlers ev else none) = some s)
    (rest : List String) :
    installLoop nodes (ev :: rest) i depth h =
      installLoop (withSub nodes h ev s) rest (i + 1) depth s := by
  conv_lhs => rw [installLoop]
  rw [hs]

theorem installLoop_cons_none {nodes : List Handler} {i depth h : Nat} {ev : String}
    (hs : (if i < depth then lookupSub (getN nodes h).subHandlers ev else none) = none)
    (rest : List String) :
    installLoop nodes (ev :: rest) i depth h =
      installLoop (withSub (nodes ++ [{ parentHandler := h }]) h ev nodes.length)
        rest (i + 1) depth nodes.length := by
  conv_lhs => rw [installLoop]
  rw [hs]

/-- Main specification of the `installHandlers` loop: lengths grow,
existing nodes keep every field except (possibly) their children map,
the sentinel node is untouched, map/parent well-formedness is
preserved, the returned index is a valid non-sentinel node, freshly
created nodes carry no callbacks and empty buffers, children-map
entries are either pre-existing or point at fresh nodes, and — when
the segment list reaches its terminal position — the returned node is
fresh. -/
theorem installLoop_spec (evs : List String) :
    ∀ (nodes : List Handler) (i depth h : Nat),
      0 < nodes.length → h ≠ 0 → h < nodes.length → mapsOK nodes → parentsOK nodes →
      nodes.length ≤ (installLoop nodes evs i depth h).1.length ∧
      (∀ j, j < nodes.length →
        sameCore (getN (installLoop nodes evs i depth h).1 j) (getN nodes j)) ∧
      getN (installLoop nodes evs i depth h).1 0 = getN nodes 0 ∧
      mapsOK (installLoop nodes evs i depth h).1 ∧
      parentsOK (installLoop nodes evs i depth h).1 ∧
      (installLoop nodes evs i depth h).2 ≠ 0 ∧
      (installLoop nodes evs i depth h).2 < (installLoop nodes evs i depth h).1.length ∧
      (∀ j, nodes.length ≤ j →
        (getN (installLoop nodes evs i depth h).1 j).tagCallback = none ∧
        (getN (installLoop nodes evs i depth h).1 j).textCallback = none ∧
        (getN (installLoop nodes evs i depth h).1 j).text = "") ∧
      (∀ j, ∀ p ∈ (getN (installLoop nodes evs i depth h).1 j).subHandlers,
        p ∈ (getN nodes j).subHandlers ∨ nodes.length ≤ p.2) ∧
      (evs ≠ [] → depth + 1 ≤ i + evs.length →
        nodes.length ≤ (installLoop nodes evs i depth h).2) := by
  induction evs with
  | nil =>
      intro nodes i depth h hpos hne hlt hm hp
      refine ⟨le_refl _, fun j _ => sameCore_refl _, rfl, hm, hp, hne, hlt, ?_, ?_, ?_⟩
      · intro j hj
        have hd : getN (installLoop nodes [] i depth h).1 j = {} := getN_default hj
        rw [hd]
        exact ⟨rfl, rfl, rfl⟩
      · intro j p hp'; exact Or.inl hp'
      · intro hcon; exact absurd rfl hcon
  | cons ev rest ih =>
      intro nodes i depth h hpos hne hlt hm hp
      rcases hs : (if i < depth then lookupSub (getN nodes h).subHandlers ev else none)
        with _ | s
      · -- terminal segment or missing intermediate: a fresh node is created
        rw [installLoop_cons_none hs rest]
        have hg1 : getN (nodes ++ [({ parentHandler := h } : Handler)]) nodes.length =
            { parentHandler := h } := getN_append_len nodes _
        have hg1lt : ∀ j, j < nodes.length →
            getN (nodes ++ [({ parentHandler := h } : Handler)]) j = getN nodes j :=
          fun j hj => getN_append_lt hj
        have hlen1 : (nodes ++ [({ parentHandler := h } : Handler)]).length
            = nodes.length + 1 := by simp
        have hm1 : mapsOK (nodes ++ [({ parentHandler := h } : Handler)]) := by
          intro j p hp'
          rw [hlen1]
          by_cases hj : j < nodes.length
          · rw [hg1lt j hj] at hp'
            have := hm j p hp'
            omega
          · by_cases hj' : j = nodes.length
            · rw [hj'] at hp'; rw [hg1] at hp'; simp at hp'
            · rw [getN_default (by omega)] at hp'; simp at hp'
        have hp1 : parentsOK (nodes ++ [({ parentHandler := h } : Handler)]) := by
          intro j
          rw [hlen1]
          by_cases hj : j < nodes.length
          · rw [hg1lt j hj]; have := hp j; omega
          · by_cases hj' : j = nodes.length
            · rw [hj', hg1]; show h < nodes.length + 1; omega
            · rw [getN_default (by omega)]; show 0 < nodes.length + 1; omega
        have hlen2 :
            (withSub (nodes ++ [({ parentHandler := h } : Handler)]) h ev nodes.length).length
              = nodes.length + 1 := by rw [length_withSub, hlen1]
        have hg2ne : ∀ j, j ≠ h →
            getN (withSub (nodes ++ [({ parentHandler := h } : Handler)]) h ev nodes.length) j
              = getN (nodes ++ [({ parentHandler := h } : Handler)]) j :=
          fun j hj => getN_withSub_ne _ _ (fun hc => hj hc.symm)
        have hg2h :
            getN (withSub (nodes ++ [({ parentHandler := h } : Handler)]) h ev nodes.length) h
              = { getN (nodes ++ [({ parentHandler := h } : Handler)]) h with
                  subHandlers :=
                    setSub (getN (nodes ++ [({ parentHandler := h } : Handler)]) h).subHandlers
                      ev nodes.length } :=
          getN_withSub_self _ _ (by omega)
        have hm2 : mapsOK (withSub (nodes ++ [({ parentHandler := h } : Handler)]) h
            ev nodes.length) := by
          intro j p hp'
          rw [hlen2]
          by_cases hj : j = h
          · rw [hj, hg2h] at hp'
            rcases mem_setSub hp' with h' | h'
            · rw [h']; exact ⟨by omega, by omega⟩
            · have := hm1 j p (by rw [hj]; exact h')
              omega
          · rw [hg2ne j hj] at hp'
            have := hm1 j p hp'
            omega
        have hp2 : parentsOK (withSub (nodes ++ [({ parentHandler := h } : Handler)]) h
            ev nodes.length) := by
          intro j
          rw [hlen2]
          by_cases hj : j = h
          · rw [hj, hg2h]
            show (getN (nodes ++ [({ parentHandler := h } : Handler)]) h).parentHandler
              < nodes.length + 1
            have := hp1 h
            omega
          · rw [hg2ne j hj]
            have := hp1 j
            omega
        obtain ⟨i1, i2, i3, i4, i5, i6, i7, i8, i9, i10⟩ :=
          ih (withSub (nodes ++ [({ parentHandler := h } : Handler)]) h ev nodes.length)
            (i + 1) depth nodes.length (by omega) (by omega) (by omega) hm2 hp2
        refine ⟨by omega, ?_, ?_, i4, i5, i6, i7, ?_, ?_, ?_⟩
        · intro j hj
          refine sameCore_trans (i2 j (by omega)) ?_
          refine sameCore_trans (sameCore_withSub _ _ _ _ _) ?_
          rw [hg1lt j hj]
          exact sameCore_refl _
        · rw [i3, hg2ne 0 (fun hc => hne hc.symm), hg1lt 0 hpos]
        · intro j hj
          by_cases hj₂ : j = nodes.length
          · have hsc := i2 j (by omega)
            have hgj : getN (withSub (nodes ++ [({ parentHandler := h } : Handler)]) h
                ev nodes.length) j = ({ parentHandler := h } : Handler) := by
              rw [hg2ne j (by omega), hj₂, hg1]
            rw [hgj] at hsc
            exact ⟨hsc.1, hsc.2.1, hsc.2.2.2⟩
          · exact i8 j (by omega)
        · intro j p hp'
          rcases i9 j p hp' with h' | h'
          · by_cases hjh : j = h
            · rw [hjh] at h' ⊢
              rw [hg2h] at h'
              rcases mem_setSub h' with h'' | h''
              · rw [h'']; exact Or.inr (by simp)
              · rw [hg1lt h hlt] at h''; exact Or.inl h''
            · rw [hg2ne j hjh] at h'
              by_cases hj : j < nodes.length
              · rw [hg1lt j hj] at h'; exact Or.inl h'
              · by_cases hj' : j = nodes.length
                · rw [hj', hg1] at h'; simp at h'
                · rw [getN_default (by omega)] at h'; simp at h'
          · exact Or.inr (by omega)
        · intro hne' hdep
          rcases rest with _ | ⟨r0, rest'⟩
          · show nodes.length ≤ nodes.length
            exact le_refl _
          · refine le_trans (by omega) (i10 (by simp) ?_)
            simp only [List.length_cons] at hdep ⊢
            omega
      · -- reuse an existing intermediate node
        rw [installLoop_cons_some hs rest]
        have hidepth : i < depth := by
          by_contra hc
          rw [if_neg hc] at hs
          exact Option.noConfusion hs
        rw [if_pos hidepth] at hs
        have hsmem := lookupSub_mem hs
        have hs0 := hm h _ hsmem
        have hlen2 : (withSub nodes h ev s).length = nodes.length := length_withSub _ _ _ _
        have hg2ne : ∀ j, j ≠ h → getN (withSub nodes h ev s) j = getN nodes j :=
          fun j hj => getN_withSub_ne _ _ (fun hc => hj hc.symm)
        have hg2h : getN (withSub nodes h ev s) h =
            { getN nodes h with subHandlers := setSub (getN nodes h).subHandlers ev s } :=
          getN_withSub_self _ _ hlt
        have hm2 : mapsOK (withSub nodes h ev s) := by
          intro j p hp'
          rw [hlen2]
          by_cases hj : j = h
          · rw [hj, hg2h] at hp'
            rcases mem_setSub hp' with h' | h'
            · rw [h']; exact hs0
            · exact hm h p h'
          · rw [hg2ne j hj] at hp'
            exact hm j p hp'
        have hp2 : parentsOK (withSub nodes h ev s) := by
          intro j
          rw [hlen2]
          by_cases hj : j = h
          · rw [hj, hg2h]
            show (getN nodes h).parentHandler < nodes.length
            exact hp h
          · rw [hg2ne j hj]
            exact hp j
        obtain ⟨i1, i2, i3, i4, i5, i6, i7, i8, i9, i10⟩ :=
          ih (withSub nodes h ev s) (i + 1) depth s (by omega) hs0.1 (by omega) hm2 hp2
        refine ⟨by omega, ?_, ?_, i4, i5, i6, i7, ?_, ?_, ?_⟩
        · intro j hj
          refine sameCore_trans (i2 j (by omega)) (sameCore_withSub _ _ _ _ _)
        · rw [i3, hg2ne 0 (fun hc => hne hc.symm)]
        · intro j hj
          exact i8 j (by omega)
        · intro j p hp'
          rcases i9 j p hp' with h' | h'
          · by_cases hjh : j = h
            · rw [hjh] at h' ⊢
              rw [hg2h] at h'
              rcases mem_setSub h' with h'' | h''
              · rw [h'']; exact Or.inl hsmem
              · exact Or.inl h''
            · rw [hg2ne j hjh] at h'; exact Or.inl h'
          · exact Or.inr (by omega)
        · intro hne' hdep
          rcases rest with _ | ⟨r0, rest'⟩
          · simp only [List.length_cons, List.length_nil] at hdep
            omega
          · refine le_trans (by omega) (i10 (by simp) ?_)
            simp only [List.length_cons] at hdep ⊢
            omega
theorem splitAux_ne_nil (cs : List Char) : ∀ acc, splitAux cs acc ≠ [] := by
  induction cs with
  | nil => intro acc; simp [splitAux]
  | cons c cs ih =>
      intro acc
      by_cases hc : c = '/'
      · simp [splitAux, hc]
      · simpa [splitAux, hc] using ih (c :: acc)

theorem splitPath_ne_nil (p : String) : splitPath p ≠ [] := splitAux_ne_nil _ _

/-- What an installed node's tag callback can be: the value `r` itself
assigns, for the `onTag` registration form. -/
def regAssigns (r : Reg) (c : Cb) : Prop :=
  ∃ p, r = .onTag p c

/-- One registration call: trace, current handler, error callback and
all pre-existing nodes' parent pointers, tag callbacks and buffers are
preserved; the sentinel node is untouched (registrations made from
inside a callback always resolve against a non-sentinel current node);
well-formedness is preserved; fresh nodes have empty buffers and carry
either no tag callback or exactly the registered one; and children-map
entries are pre-existing or point at fresh nodes. -/
theorem applyReg_spec (st : DState) (r : Reg) (hpos : 0 < st.nodes.length)
    (hcur : st.currentHandler ≠ 0) (hclt : st.currentHandler < st.nodes.length)
    (hm : mapsOK st.nodes) (hp : parentsOK st.nodes) :
    (applyReg st r).trace = st.trace ∧
    (applyReg st r).currentHandler = st.currentHandler ∧
    (applyReg st r).errorCallback = st.errorCallback ∧
    st.nodes.length ≤ (applyReg st r).nodes.length ∧
    getN (applyReg st r).nodes 0 = getN st.nodes 0 ∧
    mapsOK (applyReg st r).nodes ∧
    parentsOK (applyReg st r).nodes ∧
    (∀ j, j < st.nodes.length →
      (getN (applyReg st r).nodes j).parentHandler = (getN st.nodes j).parentHandler ∧
      (getN (applyReg st r).nodes j).tagCallback = (getN st.nodes j).tagCallback ∧
      (getN (applyReg st r).nodes j).text = (getN st.nodes j).text) ∧
    (∀ j, st.nodes.length ≤ j →
      (getN (applyReg st r).nodes j).text = "" ∧
      ((getN (applyReg st r).nodes j).tagCallback = none ∨
        ∃ c, regAssigns r c ∧ (getN (applyReg st r).nodes j).tagCallback = some c)) ∧
    (∀ j, ∀ q ∈ (getN (applyReg st r).nodes j).subHandlers,
      q ∈ (getN st.nodes j).subHandlers ∨ st.nodes.length ≤ q.2) := by
  cases r with
  | onTag path cb =>
      obtain ⟨i1, i2, i3, i4, i5, i6, i7, i8, i9, i10⟩ :=
        installLoop_spec (splitPath path) st.nodes 0 ((splitPath path).length - 1)
          st.currentHandler hpos hcur hclt hm hp
      have hterm := i10 (splitPath_ne_nil path)
        (by have := List.length_pos.mpr (splitPath_ne_nil path); omega)
      set L := installLoop st.nodes (splitPath path) 0 ((splitPath path).length - 1)
        st.currentHandler with hL
      have hnn : (applyReg st (.onTag path cb)).nodes = setN L.1 L.2 ({ getN L.1 L.2 with tagCallback := some cb }) := rfl
      have hlen : (setN L.1 L.2 ({ getN L.1 L.2 with tagCallback := some cb })).length = L.1.length := length_setN _ _ _
      have hgset : ∀ j, j ≠ L.2 → getN (setN L.1 L.2 ({ getN L.1 L.2 with tagCallback := some cb })) j = getN L.1 j :=
        fun j hj => getN_setN_ne _ (fun hc => hj hc.symm)
      have hgsetT : getN (setN L.1 L.2 ({ getN L.1 L.2 with tagCallback := some cb })) L.2 = { getN L.1 L.2 with tagCallback := some cb } := getN_setN_self _ i7
      refine ⟨rfl, rfl, rfl, ?_, ?_, ?_, ?_, ?_, ?_, ?_⟩
      · rw [hnn, hlen]; omega
      · rw [hnn, hgset 0 (fun hc => i6 hc.symm), i3]
      · intro j q hq
        rw [hnn] at hq
        rw [hnn, hlen]
        by_cases hj : j = L.2
        · rw [hj, hgsetT] at hq
          have := i4 j q (by rw [hj]; exact hq)
          omega
        · rw [hgset j hj] at hq
          have := i4 j q hq
          omega
      · intro j
        rw [hnn, hlen]
        by_cases hj : j = L.2
        · rw [hj, hgsetT]
          show (getN L.1 L.2).parentHandler < _
          have := i5 L.2
          omega
        · rw [hgset j hj]
          have := i5 j
          omega
      · intro j hj
        have hjne : j ≠ L.2 := by omega
        rw [hnn, hgset j hjne]
        have hsc := i2 j hj
        exact ⟨hsc.2.2.1, hsc.1, hsc.2.2.2⟩
      · intro j hj
        rw [hnn]
        by_cases hjt : j = L.2
        · rw [hjt, hgsetT]
          refine ⟨(i8 L.2 (by omega)).2.2, Or.inr ⟨cb, ⟨path, rfl⟩, rfl⟩⟩
        · rw [hgset j hjt]
          exact ⟨(i8 j hj).2.2, Or.inl (i8 j hj).1⟩
      · intro j q hq
        rw [hnn] at hq
        by_cases hj : j = L.2
        · rw [hj, hgsetT] at hq
          exact i9 j q (by rw [hj]; exact hq)
        · rw [hgset j hj] at hq
          exact i9 j q hq
  | onTextOf path ℓ =>
      obtain ⟨i1, i2, i3, i4, i5, i6, i7, i8, i9, i10⟩ :=
        installLoop_spec (splitPath path) st.nodes 0 ((splitPath path).length - 1)
          st.currentHandler hpos hcur hclt hm hp
      have hterm := i10 (splitPath_ne_nil path)
        (by have := List.length_pos.mpr (splitPath_ne_nil path); omega)
      set L := installLoop st.nodes (splitPath path) 0 ((splitPath path).length - 1)
        st.currentHandler with hL
      have hnn : (applyReg st (.onTextOf path ℓ)).nodes = setN L.1 L.2 ({ getN L.1 L.2 with textCallback := some ℓ }) := rfl
      have hlen : (setN L.1 L.2 ({ getN L.1 L.2 with textCallback := some ℓ })).length = L.1.length := length_setN _ _ _
      have hgset : ∀ j, j ≠ L.2 → getN (setN L.1 L.2 ({ getN L.1 L.2 with textCallback := some ℓ })) j = getN L.1 j :=
        fun j hj => getN_setN_ne _ (fun hc => hj hc.symm)
      have hgsetT : getN (setN L.1 L.2 ({ getN L.1 L.2 with textCallback := some ℓ })) L.2 = { getN L.1 L.2 with textCallback := some ℓ } := getN_setN_self _ i7
      refine ⟨rfl, rfl, rfl, ?_, ?_, ?_, ?_, ?_, ?_, ?_⟩
      · rw [hnn, hlen]; omega
      · rw [hnn, hgset 0 (fun hc => i6 hc.symm), i3]
      · intro j q hq
        rw [hnn] at hq
        rw [hnn, hlen]
        by_cases hj : j = L.2
        · rw [hj, hgsetT] at hq
          have := i4 j q (by rw [hj]; exact hq)
          omega
        · rw [hgset j hj] at hq
          have := i4 j q hq
          omega
      · intro j
        rw [hnn, hlen]
        by_cases hj : j = L.2
        · rw [hj, hgsetT]
          show (getN L.1 L.2).parentHandler < _
          have := i5 L.2
          omega
        · rw [hgset j hj]
          have := i5 j
          omega
      · intro j hj
        have hjne : j ≠ L.2 := by omega
        rw [hnn, hgset j hjne]
        have hsc := i2 j hj
        exact ⟨hsc.2.2.1, hsc.1, hsc.2.2.2⟩
      · intro j hj
        rw [hnn]
        by_cases hjt : j = L.2
        · rw [hjt, hgsetT]
          exact ⟨(i8 L.2 (by omega)).2.2, Or.inl (i8 L.2 (by omega)).1⟩
        · rw [hgset j hjt]
          exact ⟨(i8 j hj).2.2, Or.inl (i8 j hj).1⟩
      · intro j q hq
        rw [hnn] at hq
        by_cases hj : j = L.2
        · rw [hj, hgsetT] at hq
          exact i9 j q (by rw [hj]; exact hq)
        · rw [hgset j hj] at hq
          exact i9 j q hq
  | onText ℓ =>
      have hnn : (applyReg st (.onText ℓ)).nodes = setN st.nodes st.currentHandler ({ getN st.nodes st.currentHandler with textCallback := some ℓ }) := rfl
      have hgset : ∀ j, j ≠ st.currentHandler → getN (setN st.nodes st.currentHandler ({ getN st.nodes st.currentHandler with textCallback := some ℓ })) j = getN st.nodes j :=
        fun j hj => getN_setN_ne _ (fun hc => hj hc.symm)
      have hgsetT : getN (setN st.nodes st.currentHandler ({ getN st.nodes st.currentHandler with textCallback := some ℓ })) st.currentHandler = { getN st.nodes st.currentHandler with textCallback := some ℓ } := getN_setN_self _ hclt
      have hlen : (setN st.nodes st.currentHandler ({ getN st.nodes st.currentHandler with textCallback := some ℓ })).length = st.nodes.length := length_setN _ _ _
      refine ⟨rfl, rfl, rfl, ?_, ?_, ?_, ?_, ?_, ?_, ?_⟩
      · rw [hnn, hlen]
      · rw [hnn, hgset 0 (fun hc => hcur hc.symm)]
      · intro j q hq
        rw [hnn] at hq
        rw [hnn, hlen]
        by_cases hj : j = st.currentHandler
        · rw [hj, hgsetT] at hq
          exact hm st.currentHandler q hq
        · rw [hgset j hj] at hq
          exact hm j q hq
      · intro j
        rw [hnn, hlen]
        by_cases hj : j = st.currentHandler
        · rw [hj, hgsetT]
          show (getN st.nodes st.currentHandler).parentHandler < _
          exact hp st.currentHandler
        · rw [hgset j hj]
          exact hp j
      · intro j hj
        rw [hnn]
        by_cases hjc : j = st.currentHandler
        · rw [hjc, hgsetT]
          exact ⟨rfl, rfl, rfl⟩
        · rw [hgset j hjc]
          exact ⟨rfl, rfl, rfl⟩
      · intro j hj
        have hjne : j ≠ st.currentHandler := by omega
        rw [hnn, hgset j hjne, getN_default (by omega)]
        exact ⟨rfl, Or.inl rfl⟩
      · intro j q hq
        rw [hnn] at hq
        by_cases hj : j = st.currentHandler
        · rw [hj, hgsetT] at hq
          exact Or.inl (by rw [hj]; exact hq)
        · rw [hgset j hj] at hq
          exact Or.inl hq

/-- A callback body's whole registration list: same preservation
guarantees as a single registration, with fresh nodes carrying either
no tag callback or one registered by some `onTag` action in the list. -/
theorem runRegs_spec (regs : List Reg) :
    ∀ (st : DState), 0 < st.nodes.length →
    st.currentHandler ≠ 0 → st.currentHandler < st.nodes.length →
    mapsOK st.nodes → parentsOK st.nodes →
    (runRegs st regs).trace = st.trace ∧
    (runRegs st regs).currentHandler = st.currentHandler ∧
    (runRegs st regs).errorCallback = st.errorCallback ∧
    st.nodes.length ≤ (runRegs st regs).nodes.length ∧
    getN (runRegs st regs).nodes 0 = getN st.nodes 0 ∧
    mapsOK (runRegs st regs).nodes ∧
    parentsOK (runRegs st regs).nodes ∧
    (∀ j, j < st.nodes.length →
      (getN (runRegs st regs).nodes j).parentHandler = (getN st.nodes j).parentHandler ∧
      (getN (runRegs st regs).nodes j).tagCallback = (getN st.nodes j).tagCallback ∧
      (getN (runRegs st regs).nodes j).text = (getN st.nodes j).text) ∧
    (∀ j, st.nodes.length ≤ j →
      (getN (runRegs st regs).nodes j).text = "" ∧
      ((getN (runRegs st regs).nodes j).tagCallback = none ∨
        ∃ c, (∃ r ∈ regs, regAssigns r c) ∧
          (getN (runRegs st regs).nodes j).tagCallback = some c)) ∧
    (∀ j, ∀ q ∈ (getN (runRegs st regs).nodes j).subHandlers,
      q ∈ (getN st.nodes j).subHandlers ∨ st.nodes.length ≤ q.2) := by
  induction regs with
  | nil =>
      intro st hpos hcur hclt hm hp
      refine ⟨rfl, rfl, rfl, le_refl _, rfl, hm, hp,
        fun j _ => ⟨rfl, rfl, rfl⟩, ?_, fun j q hq => Or.inl hq⟩
      intro j hj
      have hd : getN (runRegs st []).nodes j = ({} : Handler) := getN_default hj
      rw [hd]
      exact ⟨rfl, Or.inl rfl⟩
  | cons r rs ih =>
      intro st hpos hcur hclt hm hp
      obtain ⟨a1, a2, a3, a4, a5, a6, a7, a8, a9, a10⟩ := applyReg_spec st r hpos hcur hclt hm hp
      have hrun : runRegs st (r :: rs) = runRegs (applyReg st r) rs := rfl
      rw [hrun]
      obtain ⟨b1, b2, b3, b4, b5, b6, b7, b8, b9, b10⟩ :=
        ih (applyReg st r) (by omega) (by rw [a2]; exact hcur) (by rw [a2]; omega) a6 a7
      refine ⟨b1.trans a1, b2.trans a2, b3.trans a3, by omega, b5.trans a5, b6, b7, ?_, ?_, ?_⟩
      · intro j hj
        obtain ⟨c1, c2, c3⟩ := b8 j (by omega)
        obtain ⟨d1, d2, d3⟩ := a8 j hj
        exact ⟨c1.trans d1, c2.trans d2, c3.trans d3⟩
      · intro j hj
        by_cases hj₂ : j < (applyReg st r).nodes.length
        · obtain ⟨c1, c2, c3⟩ := b8 j hj₂
          obtain ⟨d1, d2⟩ := a9 j hj
          refine ⟨c3.trans d1, ?_⟩
          rcases d2 with h' | ⟨c, hc, hc'⟩
          · exact Or.inl (c2.trans h')
          · exact Or.inr ⟨c, ⟨r, List.mem_cons_self r rs, hc⟩, c2.trans hc'⟩
        · obtain ⟨c1, c2⟩ := b9 j (by omega)
          refine ⟨c1, ?_⟩
          rcases c2 with h' | ⟨c, ⟨r', hr', hrc⟩, hc'⟩
          · exact Or.inl h'
          · exact Or.inr ⟨c, ⟨r', List.mem_cons_of_mem _ hr', hrc⟩, hc'⟩
      · intro j q hq
        rcases b10 j q hq with h' | h'
        · rcases a10 j q h' with h'' | h''
          · exact Or.inl h''
          · exact Or.inr h''
        · exact Or.inr (by omega)

/-! ## Dispatch lemmas -/

/-- The trace events produced by invoking an optional tag callback with
the given attributes: one `Event.tag` when the callback carries an
observation label, nothing otherwise. -/
def cbEvents (c : Option Cb) (attrs : Attrs) : List Event :=
  match c with
  | some (.mk (some ℓ) _) => [.tag ℓ attrs]
  | _ => []

/-- The registration actions performed by an optional tag callback. -/
def cbRegs : Option Cb → List Reg
  | some (.mk _ regs) => regs
  | none => []

theorem invokeCb_spec (st : DState) (c : Option Cb) (attrs : Attrs)
    (hpos : 0 < st.nodes.length) (hcur : st.currentHandler ≠ 0)
    (hclt : st.currentHandler < st.nodes.length)
    (hm : mapsOK st.nodes) (hp : parentsOK st.nodes) :
    (invokeCb st c attrs).trace = st.trace ++ cbEvents c attrs ∧
    (invokeCb st c attrs).currentHandler = st.currentHandler ∧
    (invokeCb st c attrs).errorCallback = st.errorCallback ∧
    st.nodes.length ≤ (invokeCb st c attrs).nodes.length ∧
    getN (invokeCb st c attrs).nodes 0 = getN st.nodes 0 ∧
    mapsOK (invokeCb st c attrs).nodes ∧
    parentsOK (invokeCb st c attrs).nodes ∧
    (∀ j, j < st.nodes.length →
      (getN (invokeCb st c attrs).nodes j).parentHandler = (getN st.nodes j).parentHandler ∧
      (getN (invokeCb st c attrs).nodes j).tagCallback = (getN st.nodes j).tagCallback ∧
      (getN (invokeCb st c attrs).nodes j).text = (getN st.nodes j).text) ∧
    (∀ j, st.nodes.length ≤ j →
      (getN (invokeCb st c attrs).nodes j).text = "" ∧
      ((getN (invokeCb st c attrs).nodes j).tagCallback = none ∨
        ∃ c', (∃ r ∈ cbRegs c, regAssigns r c') ∧
          (getN (invokeCb st c attrs).nodes j).tagCallback = some c')) ∧
    (∀ j, ∀ q ∈ (getN (invokeCb st c attrs).nodes j).subHandlers,
      q ∈ (getN st.nodes j).subHandlers ∨ st.nodes.length ≤ q.2) := by
  cases c with
  | none =>
      refine ⟨by simp [invokeCb, cbEvents], rfl, rfl, le_refl _, rfl, hm, hp,
        fun j _ => ⟨rfl, rfl, rfl⟩, ?_, fun j q hq => Or.inl hq⟩
      intro j hj
      have hd : getN (invokeCb st none attrs).nodes j = ({} : Handler) := getN_default hj
      rw [hd]
      exact ⟨rfl, Or.inl rfl⟩
  | some cc =>
      obtain ⟨lab, regs⟩ := cc
      cases lab with
      | none =>
          have he : invokeCb st (some (.mk none regs)) attrs = runRegs st regs := rfl
          rw [he]
          obtain ⟨b1, b2, b3, b4, b5, b6, b7, b8, b9, b10⟩ :=
            runRegs_spec regs st hpos hcur hclt hm hp
          exact ⟨by rw [b1]; simp [cbEvents], b2, b3, b4, b5, b6, b7, b8, b9, b10⟩
      | some ℓ =>
          have he : invokeCb st (some (.mk (some ℓ) regs)) attrs =
              runRegs ({ st with trace := st.trace ++ [.tag ℓ attrs] }) regs := rfl
          rw [he]
          obtain ⟨b1, b2, b3, b4, b5, b6, b7, b8, b9, b10⟩ :=
            runRegs_spec regs ({ st with trace := st.trace ++ [.tag ℓ attrs] })
              hpos hcur hclt hm hp
          exact ⟨by rw [b1]; simp [cbEvents], b2, b3, b4, b5, b6, b7, b8, b9, b10⟩

/-- Specification of the found-a-handler branch of `handleTag`: the
resolved node `h` becomes current with its parent pointer reassigned to
the previous current handler; the trace grows by exactly the callback's
observation; all other pre-existing nodes keep their parent pointers;
all pre-existing nodes keep their tag callbacks and buffers; the
sentinel is untouched and well-formedness is preserved. -/
theorem pushAndInvoke_spec (st : DState) (h : Nat) (attrs : Attrs)
    (hpos : 0 < st.nodes.length) (hne : h ≠ 0) (hlt : h < st.nodes.length)
    (hcurlt : st.currentHandler < st.nodes.length)
    (hm : mapsOK st.nodes) (hp : parentsOK st.nodes) :
    (pushAndInvoke st h attrs).currentHandler = h ∧
    (pushAndInvoke st h attrs).trace =
      st.trace ++ cbEvents (getN st.nodes h).tagCallback attrs ∧
    (pushAndInvoke st h attrs).errorCallback = st.errorCallback ∧
    st.nodes.length ≤ (pushAndInvoke st h attrs).nodes.length ∧
    getN (pushAndInvoke st h attrs).nodes 0 = getN st.nodes 0 ∧
    mapsOK (pushAndInvoke st h attrs).nodes ∧
    parentsOK (pushAndInvoke st h attrs).nodes ∧
    (getN (pushAndInvoke st h attrs).nodes h).parentHandler = st.currentHandler ∧
    (∀ j, j < st.nodes.length → j ≠ h →
      (getN (pushAndInvoke st h attrs).nodes j).parentHandler
        = (getN st.nodes j).parentHandler) ∧
    (∀ j, j < st.nodes.length →
      (getN (pushAndInvoke st h attrs).nodes j).tagCallback = (getN st.nodes j).tagCallback ∧
      (getN (pushAndInvoke st h attrs).nodes j).text = (getN st.nodes j).text) ∧
    (∀ j, st.nodes.length ≤ j →
      (getN (pushAndInvoke st h attrs).nodes j).text = "" ∧
      ((getN (pushAndInvoke st h attrs).nodes j).tagCallback = none ∨
        ∃ c', (∃ r ∈ cbRegs (getN st.nodes h).tagCallback, regAssigns r c') ∧
          (getN (pushAndInvoke st h attrs).nodes j).tagCallback = some c')) ∧
    (∀ j, ∀ q ∈ (getN (pushAndInvoke st h attrs).nodes j).subHandlers,
      q ∈ (getN st.nodes j).subHandlers ∨ st.nodes.length ≤ q.2) := by
  have hnn : pushAndInvoke st h attrs =
      invokeCb ({ st with
        nodes := setN st.nodes h ({ getN st.nodes h with parentHandler := st.currentHandler }),
        currentHandler := h })
        (getN (setN st.nodes h
          ({ getN st.nodes h with parentHandler := st.currentHandler })) h).tagCallback
        attrs := rfl
  have hlen₁ : (setN st.nodes h
      ({ getN st.nodes h with parentHandler := st.currentHandler })).length
      = st.nodes.length := length_setN _ _ _
  have hg₁h : getN (setN st.nodes h
      ({ getN st.nodes h with parentHandler := st.currentHandler })) h
      = { getN st.nodes h with parentHandler := st.currentHandler } := getN_setN_self _ hlt
  have hg₁ne : ∀ j, j ≠ h →
      getN (setN st.nodes h
        ({ getN st.nodes h with parentHandler := st.currentHandler })) j = getN st.nodes j :=
    fun j hj => getN_setN_ne _ (fun hc => hj hc.symm)
  have htagh : (getN (setN st.nodes h
      ({ getN st.nodes h with parentHandler := st.currentHandler })) h).tagCallback
      = (getN st.nodes h).tagCallback := by rw [hg₁h]
  have hm₁ : mapsOK (setN st.nodes h
      ({ getN st.nodes h with parentHandler := st.currentHandler })) := by
    intro j q hq
    rw [hlen₁]
    by_cases hj : j = h
    · rw [hj, hg₁h] at hq
      exact hm h q hq
    · rw [hg₁ne j hj] at hq
      exact hm j q hq
  have hp₁ : parentsOK (setN st.nodes h
      ({ getN st.nodes h with parentHandler := st.currentHandler })) := by
    intro j
    rw [hlen₁]
    by_cases hj : j = h
    · rw [hj, hg₁h]
      show st.currentHandler < st.nodes.length
      exact hcurlt
    · rw [hg₁ne j hj]
      exact hp j
  obtain ⟨b1, b2, b3, b4, b5, b6, b7, b8, b9, b10⟩ :=
    invokeCb_spec ({ st with
        nodes := setN st.nodes h ({ getN st.nodes h with parentHandler := st.currentHandler }),
        currentHandler := h })
      (getN (setN st.nodes h
        ({ getN st.nodes h with parentHandler := st.currentHandler })) h).tagCallback
      attrs (by show 0 < (setN _ _ _).length; omega) hne
      (by show h < (setN _ _ _).length; omega) hm₁ hp₁
  rw [hnn]
  refine ⟨b2, ?_, b3, by rw [hlen₁] at b4; exact b4, ?_, b6, b7, ?_, ?_, ?_, ?_, ?_⟩
  · rw [b1, htagh]
  · rw [b5, hg₁ne 0 (fun hc => hne hc.symm)]
  · obtain ⟨c1, c2, c3⟩ := b8 h (by rw [hlen₁]; omega)
    rw [c1, hg₁h]
  · intro j hj hjh
    obtain ⟨c1, c2, c3⟩ := b8 j (by rw [hlen₁]; omega)
    rw [c1, hg₁ne j hjh]
  · intro j hj
    obtain ⟨c1, c2, c3⟩ := b8 j (by rw [hlen₁]; omega)
    by_cases hjh : j = h
    · rw [c2, c3, hjh, hg₁h]
      exact ⟨rfl, rfl⟩
    · rw [c2, c3, hg₁ne j hjh]
      exact ⟨rfl, rfl⟩
  · intro j hj
    obtain ⟨c1, c2⟩ := b9 j (by rw [hlen₁]; omega)
    refine ⟨c1, ?_⟩
    rcases c2 with h' | ⟨c', hc', hc''⟩
    · exact Or.inl h'
    · rw [htagh] at hc'
      exact Or.inr ⟨c', hc', hc''⟩
  · intro j q hq
    rcases b10 j q hq with h' | h'
    · by_cases hjh : j = h
      · rw [hjh, hg₁h] at h'
        exact Or.inl (by rw [hjh]; exact h')
      · rw [hg₁ne j hjh] at h'
        exact Or.inl h'
    · rw [hlen₁] at h'
      exact Or.inr h'

theorem handleTag_eq_none {st : DState} {name : String} (attrs : Attrs)
    (hr : resolve st name = none) : handleTag st name attrs = st := by
  unfold handleTag
  rw [hr]

theorem handleTag_eq_some {st : DState} {name : String} {h : Nat} (attrs : Attrs)
    (hr : resolve st name = some h) : handleTag st name attrs = pushAndInvoke st h attrs := by
  unfold handleTag
  rw [hr]

/-- The text events a call to `handleText` produces: one `Event.text`
with the trimmed pending buffer when the current handler has a text
callback and the trimmed buffer is non-empty, nothing otherwise. -/
def flushEvents (st : DState) : List Event :=
  match (getN st.nodes st.currentHandler).textCallback with
  | some ℓ =>
      if trimStr (getN st.nodes st.currentHandler).text ≠ "" then
        [.text ℓ (trimStr (getN st.nodes st.currentHandler).text)]
      else []
  | none => []

theorem handleText_eq_none {st : DState}
    (hcb : (getN st.nodes st.currentHandler).textCallback = none) :
    handleText st = { st with nodes := setN st.nodes st.currentHandler ({ getN st.nodes st.currentHandler with text := "" }) } := by
  simp only [handleText]
  rw [hcb]

theorem handleText_eq_some {st : DState} {ℓ : Nat}
    (hcb : (getN st.nodes st.currentHandler).textCallback = some ℓ) :
    handleText st =
      (if trimStr (getN st.nodes st.currentHandler).text ≠ "" then
        { st with nodes := setN st.nodes st.currentHandler ({ getN st.nodes st.currentHandler with text := "" }), trace := st.trace ++ [.text ℓ (trimStr (getN st.nodes st.currentHandler).text)] }
      else
        { st with nodes := setN st.nodes st.currentHandler ({ getN st.nodes st.currentHandler with text := "" }) }) := by
  simp only [handleText]
  rw [hcb]

/-- Specification of `handleText`: the trace grows by exactly the flush
events, the current handler and error callback are unchanged, the arena
keeps its size, the current handler's buffer is cleared and nothing
else about it changes, and every other node is untouched. -/
theorem handleText_spec (st : DState) :
    (handleText st).trace = st.trace ++ flushEvents st ∧
    (handleText st).currentHandler = st.currentHandler ∧
    (handleText st).errorCallback = st.errorCallback ∧
    (handleText st).nodes.length = st.nodes.length ∧
    getN (handleText st).nodes st.currentHandler
      = { getN st.nodes st.currentHandler with text := "" } ∧
    (∀ j, j ≠ st.currentHandler → getN (handleText st).nodes j = getN st.nodes j) := by
  have hcurN : ∀ nodes', nodes' = setN st.nodes st.currentHandler
      ({ getN st.nodes st.currentHandler with text := "" }) →
      getN nodes' st.currentHandler
        = { getN st.nodes st.currentHandler with text := "" } := by
    intro nodes' hn
    subst hn
    by_cases hclt : st.currentHandler < st.nodes.length
    · exact getN_setN_self _ hclt
    · rw [setN_ge _ _ _ (by omega), getN_default (by omega)]
  rcases hcb : (getN st.nodes st.currentHandler).textCallback with _ | ℓ
  · rw [handleText_eq_none hcb]
    refine ⟨?_, rfl, rfl, length_setN _ _ _, hcurN _ rfl, ?_⟩
    · show st.trace = st.trace ++ flushEvents st
      simp [flushEvents, hcb]
    · intro j hj
      exact getN_setN_ne _ (fun hc => hj hc.symm)
  · rw [handleText_eq_some hcb]
    by_cases ht : trimStr (getN st.nodes st.currentHandler).text ≠ ""
    · rw [if_pos ht]
      refine ⟨?_, rfl, rfl, length_setN _ _ _, hcurN _ rfl, ?_⟩
      · show st.trace ++ _ = st.trace ++ flushEvents st
        simp [flushEvents, hcb, if_pos ht]
      · intro j hj
        exact getN_setN_ne _ (fun hc => hj hc.symm)
    · rw [if_neg ht]
      refine ⟨?_, rfl, rfl, length_setN _ _ _, hcurN _ rfl, ?_⟩
      · show st.trace = st.trace ++ flushEvents st
        simp [flushEvents, hcb, if_neg ht]
      · intro j hj
        exact getN_setN_ne _ (fun hc => hj hc.symm)

theorem step_start_eq (st : DState) (name : String) (attrs : Attrs) :
    step st (.start name attrs) = handleTag (handleText st) name attrs := rfl

theorem step_chardata_eq (st : DState) (s : String) :
    step st (.chardata s) = { st with nodes := setN st.nodes st.currentHandler ({ getN st.nodes st.currentHandler with text := (getN st.nodes st.currentHandler).text ++ s }) } := rfl

theorem step_end_eq (st : DState) :
    step st .endElem =
      (if (handleText st).currentHandler ≠ 0 then
        { handleText st with currentHandler :=
            (getN (handleText st).nodes (handleText st).currentHandler).parentHandler }
      else handleText st) := rfl

/-! ## Claim C1 -/

/-- The property asserted by claim C1 about one start-tag dispatch:
the handler is resolved by consulting the global (top-level) children
map first and the current node's own map only when the global map has
no entry and the current node is not the sentinel; a found node becomes
current with its parent pointer reassigned to the previous current
node, and its element callback (when present) is invoked with the
element's attributes; when nothing is found the state is unchanged. -/
def C1Prop (st : DState) (name : String) (attrs : Attrs) : Prop :=
  resolve st name =
    (match lookupSub (getN st.nodes 0).subHandlers name with
     | some g => some g
     | none =>
         if st.currentHandler ≠ 0 then
           lookupSub (getN st.nodes st.currentHandler).subHandlers name
         else none) ∧
  (∀ h, resolve st name = some h →
    (handleTag st name attrs).currentHandler = h ∧
    (getN (handleTag st name attrs).nodes h).parentHandler = st.currentHandler ∧
    (handleTag st name attrs).trace =
      st.trace ++ cbEvents (getN st.nodes h).tagCallback attrs) ∧
  (resolve st name = none → handleTag st name attrs = st)

/-- C1: for every start tag processed by the run loop, the handler is
resolved global-map-first (the current node's map is consulted only
when no global entry exists and the current node is not the top-level
sentinel); a found node is reparented onto the current node, becomes
current, and has its element callback (if present) invoked with the
element's attributes; when nothing is found no frame is pushed and the
state — in particular the current node — is unchanged. -/
theorem c1_start_tag_dispatch (st : DState) (name : String) (attrs : Attrs) (hwf : WF st) :
    C1Prop st name attrs := by
  refine ⟨rfl, ?_, fun hr => handleTag_eq_none attrs hr⟩
  intro h hr
  obtain ⟨hne, hlt⟩ := resolve_range hwf hr
  rw [handleTag_eq_some attrs hr]
  obtain ⟨b1, b2, b3, b4, b5, b6, b7, b8, b9, b10, b11, b12⟩ :=
    pushAndInvoke_spec st h attrs hwf.1 hne hlt hwf.2.1 (WF_mapsOK hwf) (WF_parentsOK hwf)
  exact ⟨b1, b8, b2⟩

/-- Witness for C1: a concrete decoder with a global `"root"` handler,
dispatching `<root k="v">`. -/
theorem c1_start_tag_dispatch_witness :
    WF (runRegs NewDecoder [.onTag "root" (.mk (some 1) [])]) ∧
      C1Prop (runRegs NewDecoder [.onTag "root" (.mk (some 1) [])]) "root" [("k", "v")] :=
  ⟨by decide, c1_start_tag_dispatch _ _ _ (by decide)⟩

/-! ## Hypothesis-free trace bookkeeping -/

theorem applyReg_trace (st : DState) (r : Reg) : (applyReg st r).trace = st.trace := by
  cases r <;> rfl

theorem applyReg_err (st : DState) (r : Reg) :
    (applyReg st r).errorCallback = st.errorCallback := by
  cases r <;> rfl

theorem applyReg_cur (st : DState) (r : Reg) :
    (applyReg st r).currentHandler = st.currentHandler := by
  cases r <;> rfl

theorem runRegs_trace (regs : List Reg) : ∀ st, (runRegs st regs).trace = st.trace := by
  induction regs with
  | nil => intro st; rfl
  | cons r rs ih =>
      intro st
      have : runRegs st (r :: rs) = runRegs (applyReg st r) rs := rfl
      rw [this, ih, applyReg_trace]

theorem runRegs_err (regs : List Reg) :
    ∀ st, (runRegs st regs).errorCallback = st.errorCallback := by
  induction regs with
  | nil => intro st; rfl
  | cons r rs ih =>
      intro st
      have : runRegs st (r :: rs) = runRegs (applyReg st r) rs := rfl
      rw [this, ih, applyReg_err]

theorem runRegs_cur (regs : List Reg) :
    ∀ st, (runRegs st regs).currentHandler = st.currentHandler := by
  induction regs with
  | nil => intro st; rfl
  | cons r rs ih =>
      intro st
      have : runRegs st (r :: rs) = runRegs (applyReg st r) rs := rfl
      rw [this, ih, applyReg_cur]

theorem invokeCb_trace (st : DState) (c : Option Cb) (attrs : Attrs) :
    (invokeCb st c attrs).trace = st.trace ++ cbEvents c attrs := by
  cases c with
  | none => simp [invokeCb, cbEvents]
  | some cc =>
      obtain ⟨lab, regs⟩ := cc
      cases lab with
      | none =>
          have he : invokeCb st (some (.mk none regs)) attrs = runRegs st regs := rfl
          rw [he, runRegs_trace]
          simp [cbEvents]
      | some ℓ =>
          have he : invokeCb st (some (.mk (some ℓ) regs)) attrs =
              runRegs ({ st with trace := st.trace ++ [.tag ℓ attrs] }) regs := rfl
          rw [he, runRegs_trace]
          rfl

theorem invokeCb_err (st : DState) (c : Option Cb) (attrs : Attrs) :
    (invokeCb st c attrs).errorCallback = st.errorCallback := by
  cases c with
  | none => rfl
  | some cc =>
      obtain ⟨lab, regs⟩ := cc
      cases lab <;> exact runRegs_err _ _

theorem handleTag_trace (st : DState) (name : String) (attrs : Attrs) :
    (handleTag st name attrs).trace = st.trace ++
      (match resolve st name with
       | some h => cbEvents (getN st.nodes h).tagCallback attrs
       | none => []) := by
  rcases hr : resolve st name with _ | h
  · rw [handleTag_eq_none attrs hr]
    simp
  · rw [handleTag_eq_some attrs hr]
    have he : pushAndInvoke st h attrs =
        invokeCb ({ st with
          nodes := setN st.nodes h ({ getN st.nodes h with parentHandler := st.currentHandler }),
          currentHandler := h })
          (getN (setN st.nodes h
            ({ getN st.nodes h with parentHandler := st.currentHandler })) h).tagCallback
          attrs := rfl
    rw [he, invokeCb_trace]
    by_cases hlt : h < st.nodes.length
    · rw [getN_setN_self _ hlt]
    · rw [setN_ge _ _ _ (by omega)]

theorem handleTag_err (st : DState) (name : String) (attrs : Attrs) :
    (handleTag st name attrs).errorCallback = st.errorCallback := by
  rcases hr : resolve st name with _ | h
  · rw [handleTag_eq_none attrs hr]
  · rw [handleTag_eq_some attrs hr]
    exact invokeCb_err _ _ _

theorem step_err (st : DState) (t : Token) : (step st t).errorCallback = st.errorCallback := by
  cases t with
  | start name attrs =>
      rw [step_start_eq, handleTag_err]
      exact (handleText_spec st).2.2.1
  | chardata s => rfl
  | endElem =>
      rw [step_end_eq]
      by_cases hc : (handleText st).currentHandler ≠ 0
      · rw [if_pos hc]
        exact (handleText_spec st).2.2.1
      · rw [if_neg hc]
        exact (handleText_spec st).2.2.1

theorem runTokens_err (ts : List Token) :
    ∀ st, (runTokens st ts).errorCallback = st.errorCallback := by
  induction ts with
  | nil => intro st; rfl
  | cons t ts ih =>
      intro st
      have : runTokens st (t :: ts) = runTokens (step st t) ts := rfl
      rw [this, ih, step_err]

/-! ## Claim C6: termination and the error callback -/

/-- Number of error-callback invocations recorded in a trace. -/
def countErr (tr : List Event) : Nat :=
  tr.countP (fun e => match e with | .err _ _ => true | _ => false)

theorem countErr_append (a b : List Event) : countErr (a ++ b) = countErr a + countErr b :=
  List.countP_append _ _ _

theorem countErr_cbEvents (c : Option Cb) (attrs : Attrs) : countErr (cbEvents c attrs) = 0 := by
  rcases c with _ | ⟨lab, regs⟩
  · rfl
  · cases lab <;> rfl

theorem countErr_flushEvents (st : DState) : countErr (flushEvents st) = 0 := by
  unfold flushEvents
  rcases (getN st.nodes st.currentHandler).textCallback with _ | ℓ
  · rfl
  · show countErr (if trimStr (getN st.nodes st.currentHandler).text ≠ "" then
      [Event.text ℓ (trimStr (getN st.nodes st.currentHandler).text)] else []) = 0
    split <;> rfl

theorem step_countErr (st : DState) (t : Token) :
    countErr (step st t).trace = countErr st.trace := by
  cases t with
  | start name attrs =>
      rw [step_start_eq, handleTag_trace, countErr_append, (handleText_spec st).1,
        countErr_append, countErr_flushEvents]
      rcases resolve (handleText st) name with _ | h
      · simp [countErr]
      · simp [countErr_cbEvents]
  | chardata s => rfl
  | endElem =>
      rw [step_end_eq]
      by_cases hc : (handleText st).currentHandler ≠ 0
      · rw [if_pos hc]
        show countErr (handleText st).trace = countErr st.trace
        rw [(handleText_spec st).1, countErr_append, countErr_flushEvents]
        omega
      · rw [if_neg hc]
        rw [(handleText_spec st).1, countErr_append, countErr_flushEvents]
        omega



theorem runTokens_countErr (ts : List Token) :
    ∀ st, countErr (runTokens st ts).trace = countErr st.trace := by
  induction ts with
  | nil => intro st; rfl
  | cons t ts ih =>
      intro st
      have : runTokens st (t :: ts) = runTokens (step st t) ts := rfl
      rw [this, ih, step_countErr]

/-- The property asserted by claim C6: for every token sequence and
terminal error value, `Run` (a total function, so the model terminates
by construction) invokes a registered error callback exactly once with
the terminal error value and then stops, and with no registered error
callback it is exactly the token-processing fold — no further callback
fires and nothing propagates. -/
def C6Prop (st : DState) (ts : List Token) (e : String) : Prop :=
  countErr (runTokens st ts).trace = countErr st.trace ∧
  (∀ ℓ, st.errorCallback = some ℓ →
    Run st ts e = { runTokens st ts with trace := (runTokens st ts).trace ++ [.err ℓ e] } ∧
    countErr (Run st ts e).trace = countErr st.trace + 1) ∧
  (st.errorCallback = none → Run st ts e = runTokens st ts)

/-- C6: the run loop processes every token and then handles the
terminal condition exactly once: a registered error callback receives
the terminal error value exactly once (the token-processing phase emits
no error events), and without a registered callback the run ends
silently with no extra callback invocation. -/
theorem c6_terminal_error_callback (st : DState) (ts : List Token) (e : String) :
    C6Prop st ts e := by
  refine ⟨runTokens_countErr ts st, ?_, ?_⟩
  · intro ℓ hℓ
    have herr : (runTokens st ts).errorCallback = some ℓ := by rw [runTokens_err, hℓ]
    constructor
    · simp only [Run]
      rw [herr]
    · simp only [Run]
      rw [herr]
      show countErr ((runTokens st ts).trace ++ [.err ℓ e]) = countErr st.trace + 1
      rw [countErr_append, runTokens_countErr]
      rfl
  · intro hnone
    have herr : (runTokens st ts).errorCallback = none := by rw [runTokens_err, hnone]
    simp only [Run]
    rw [herr]

/-- Witness for C6: a malformed-document scenario — the tokenizer
reports a syntax error after one start tag; with a registered error
callback the run ends with exactly one error event. -/
theorem c6_terminal_error_callback_witness :
    C6Prop { NewDecoder with errorCallback := some 9 } [.start "root" []]
      "XML syntax error: unexpected end element" :=
  c6_terminal_error_callback _ _ _

/-! ## Claim C7: path-registration semantics -/

theorem installLoop_single (nodes : List Handler) (s : String) (i depth h : Nat)
    (hnd : ¬ i < depth) :
    installLoop nodes [s] i depth h =
      (withSub (nodes ++ [{ parentHandler := h }]) h s nodes.length, nodes.length) := by
  rw [installLoop_cons_none (by rw [if_neg hnd]) []]
  rfl

/-- The property asserted by claim C7.  First conjunct (single-segment
registration at any parent): the terminal node is always a fresh
allocation at the end of the arena, it carries the supplied callback,
its parent pointer is the registering parent, and the (parent, name)
map slot is overwritten to point at it.  Second conjunct (two-segment
registration whose first segment already has a child of that name
under the parent): the existing intermediate node is reused — the
(parent, first-segment) slot still points at it — and the fresh
terminal is installed under that shared intermediate.  Third and
fourth conjuncts (concrete): two leaf paths sharing a prefix share the
intermediate node, and re-registering the same single-segment path
leaves the slot pointing at the node of the last registration, which
is the one the dispatcher resolves; no registration ever fails (every
registration operation in the model is a total function). -/
def C7Prop : Prop :=
  (∀ (st : DState) (path : String) (cb : Cb) (s : String),
    st.currentHandler < st.nodes.length → splitPath path = [s] →
    (applyReg st (.onTag path cb)).nodes.length = st.nodes.length + 1 ∧
    lookupSub (getN (applyReg st (.onTag path cb)).nodes st.currentHandler).subHandlers s
      = some st.nodes.length ∧
    (getN (applyReg st (.onTag path cb)).nodes st.nodes.length).tagCallback = some cb ∧
    (getN (applyReg st (.onTag path cb)).nodes st.nodes.length).textCallback = none ∧
    (getN (applyReg st (.onTag path cb)).nodes st.nodes.length).parentHandler
      = st.currentHandler) ∧
  (∀ (st : DState) (path : String) (cb : Cb) (s₁ s₂ : String) (x : Nat),
    st.currentHandler < st.nodes.length → splitPath path = [s₁, s₂] → s₁ ≠ s₂ →
    x < st.nodes.length →
    lookupSub (getN st.nodes st.currentHandler).subHandlers s₁ = some x →
    lookupSub (getN (applyReg st (.onTag path cb)).nodes st.currentHandler).subHandlers s₁
      = some x ∧
    lookupSub (getN (applyReg st (.onTag path cb)).nodes x).subHandlers s₂
      = some st.nodes.length ∧
    (getN (applyReg st (.onTag path cb)).nodes st.nodes.length).tagCallback = some cb ∧
    (getN (applyReg st (.onTag path cb)).nodes st.nodes.length).parentHandler = x) ∧
  ((getN (runRegs NewDecoder [.onTag "a/b" (.mk (some 2) []), .onTag "a/c" (.mk (some 3) [])]).nodes 2).parentHandler =
   (getN (runRegs NewDecoder [.onTag "a/b" (.mk (some 2) []), .onTag "a/c" (.mk (some 3) [])]).nodes 3).parentHandler ∧
   lookupSub (getN (runRegs NewDecoder [.onTag "a/b" (.mk (some 2) []), .onTag "a/c" (.mk (some 3) [])]).nodes 0).subHandlers "a" = some 1) ∧
  (lookupSub (getN (runRegs NewDecoder [.onTag "n" (.mk (some 1) []), .onTag "n" (.mk (some 2) [])]).nodes 0).subHandlers "n" = some 2 ∧
   cbEvents (getN (runRegs NewDecoder [.onTag "n" (.mk (some 1) []), .onTag "n" (.mk (some 2) [])]).nodes 2).tagCallback [] = [Event.tag 2 []] ∧
   resolve (runRegs NewDecoder [.onTag "n" (.mk (some 1) []), .onTag "n" (.mk (some 2) [])]) "n" = some 2)

/-- C7: non-terminal path segments reuse an existing same-named child
of the parent (so leaf paths sharing a prefix share the intermediate
node), the terminal segment always allocates a fresh node carrying the
supplied callback and overwrites the (parent, name) map slot, duplicate
registrations raise no error, and the last registration for a slot is
the one the dispatcher resolves afterwards. -/
theorem c7_registration_semantics : C7Prop := by
  refine ⟨?_, ?_, by decide, by decide⟩
  · intro st path cb s hcur hsp
    have hL : installLoop st.nodes (splitPath path) 0 ((splitPath path).length - 1)
        st.currentHandler =
        (withSub (st.nodes ++ [{ parentHandler := st.currentHandler }]) st.currentHandler s
          st.nodes.length, st.nodes.length) := by
      rw [hsp]
      exact installLoop_single _ _ _ _ _ (by simp)
    have hnn : (applyReg st (.onTag path cb)).nodes =
        setN (installLoop st.nodes (splitPath path) 0 ((splitPath path).length - 1)
            st.currentHandler).1
          (installLoop st.nodes (splitPath path) 0 ((splitPath path).length - 1)
            st.currentHandler).2
          ({ getN (installLoop st.nodes (splitPath path) 0 ((splitPath path).length - 1)
              st.currentHandler).1
            (installLoop st.nodes (splitPath path) 0 ((splitPath path).length - 1)
              st.currentHandler).2 with tagCallback := some cb }) := rfl
    rw [hL] at hnn
    have hWlen : (st.nodes ++ [({ parentHandler := st.currentHandler } : Handler)]).length
        = st.nodes.length + 1 := by simp
    have hN1len : (withSub (st.nodes ++ [({ parentHandler := st.currentHandler } : Handler)])
        st.currentHandler s st.nodes.length).length = st.nodes.length + 1 := by
      rw [length_withSub, hWlen]
    have hcurne : st.currentHandler ≠ st.nodes.length := by omega
    have hgN1len : getN (withSub (st.nodes ++ [({ parentHandler := st.currentHandler } : Handler)])
        st.currentHandler s st.nodes.length) st.nodes.length
        = { parentHandler := st.currentHandler } := by
      rw [getN_withSub_ne _ _ hcurne, getN_append_len]
    have hgN1cur : getN (withSub (st.nodes ++ [({ parentHandler := st.currentHandler } : Handler)])
        st.currentHandler s st.nodes.length) st.currentHandler
        = { getN st.nodes st.currentHandler with
            subHandlers := setSub (getN st.nodes st.currentHandler).subHandlers s
              st.nodes.length } := by
      rw [getN_withSub_self _ _ (by rw [hWlen]; omega), getN_append_lt hcur]
    refine ⟨?_, ?_, ?_, ?_, ?_⟩
    · rw [hnn, length_setN, hN1len]
    · rw [hnn, getN_setN_ne _ (fun hc => hcurne hc.symm), hgN1cur]
      exact lookupSub_setSub_self _ _ _
    · rw [hnn, getN_setN_self _ (by rw [hN1len]; omega)]
    · rw [hnn, getN_setN_self _ (by rw [hN1len]; omega)]
      show (getN (withSub (st.nodes ++ [({ parentHandler := st.currentHandler } : Handler)])
        st.currentHandler s st.nodes.length) st.nodes.length).textCallback = none
      rw [hgN1len]
    · rw [hnn, getN_setN_self _ (by rw [hN1len]; omega)]
      show (getN (withSub (st.nodes ++ [({ parentHandler := st.currentHandler } : Handler)])
        st.currentHandler s st.nodes.length) st.nodes.length).parentHandler = st.currentHandler
      rw [hgN1len]
  · intro st path cb s₁ s₂ x hcur hsp hss hxlt hx
    have hL1 : installLoop st.nodes (splitPath path) 0 ((splitPath path).length - 1)
        st.currentHandler =
        installLoop (withSub st.nodes st.currentHandler s₁ x) [s₂] 1 1 x := by
      rw [hsp]
      refine installLoop_cons_some ?_ [s₂]
      have hd : (0 : Nat) < [s₁, s₂].length - 1 := by simp
      rw [if_pos hd]
      exact hx
    have hL2 : installLoop (withSub st.nodes st.currentHandler s₁ x) [s₂] 1 1 x =
        (withSub ((withSub st.nodes st.currentHandler s₁ x) ++ [{ parentHandler := x }]) x s₂
          (withSub st.nodes st.currentHandler s₁ x).length,
         (withSub st.nodes st.currentHandler s₁ x).length) :=
      installLoop_single _ _ _ _ _ (by omega)
    have hWlen : (withSub st.nodes st.currentHandler s₁ x).length = st.nodes.length :=
      length_withSub _ _ _ _
    rw [hWlen] at hL2
    have hL := hL1.trans hL2
    have hnn : (applyReg st (.onTag path cb)).nodes =
        setN (installLoop st.nodes (splitPath path) 0 ((splitPath path).length - 1)
            st.currentHandler).1
          (installLoop st.nodes (splitPath path) 0 ((splitPath path).length - 1)
            st.currentHandler).2
          ({ getN (installLoop st.nodes (splitPath path) 0 ((splitPath path).length - 1)
              st.currentHandler).1
            (installLoop st.nodes (splitPath path) 0 ((splitPath path).length - 1)
              st.currentHandler).2 with tagCallback := some cb }) := rfl
    rw [hL] at hnn
    have hxne : x ≠ st.nodes.length := by omega
    have hcurne : st.currentHandler ≠ st.nodes.length := by omega
    have hW1len : ((withSub st.nodes st.currentHandler s₁ x) ++
        [({ parentHandler := x } : Handler)]).length = st.nodes.length + 1 := by
      simp [hWlen]
    have hN1len : (withSub ((withSub st.nodes st.currentHandler s₁ x) ++
        [({ parentHandler := x } : Handler)]) x s₂ st.nodes.length).length
        = st.nodes.length + 1 := by
      rw [length_withSub, hW1len]
    have hgW1x : getN ((withSub st.nodes st.currentHandler s₁ x) ++
        [({ parentHandler := x } : Handler)]) x = getN (withSub st.nodes st.currentHandler s₁ x) x :=
      getN_append_lt (by rw [hWlen]; omega)
    have hgN1len : getN (withSub ((withSub st.nodes st.currentHandler s₁ x) ++
        [({ parentHandler := x } : Handler)]) x s₂ st.nodes.length) st.nodes.length
        = { parentHandler := x } := by
      rw [getN_withSub_ne _ _ hxne]
      have : getN ((withSub st.nodes st.currentHandler s₁ x) ++
          [({ parentHandler := x } : Handler)]) st.nodes.length
          = ({ parentHandler := x } : Handler) := by
        have := getN_append_len (withSub st.nodes st.currentHandler s₁ x)
          ({ parentHandler := x } : Handler)
        rw [hWlen] at this
        exact this
      exact this
    have hgN1x : getN (withSub ((withSub st.nodes st.currentHandler s₁ x) ++
        [({ parentHandler := x } : Handler)]) x s₂ st.nodes.length) x
        = { getN (withSub st.nodes st.currentHandler s₁ x) x with
            subHandlers := setSub
              (getN (withSub st.nodes st.currentHandler s₁ x) x).subHandlers s₂
              st.nodes.length } := by
      rw [getN_withSub_self _ _ (by rw [hW1len]; omega), hgW1x]
    refine ⟨?_, ?_, ?_, ?_⟩
    · rw [hnn, getN_setN_ne _ (fun hc => hcurne hc.symm)]
      by_cases hcx : st.currentHandler = x
      · subst hcx
        rw [hgN1x, lookupSub_setSub_ne _ _ (fun hc => hss hc.symm),
          getN_withSub_self _ _ hcur]
        exact lookupSub_setSub_self _ _ _
      · rw [getN_withSub_ne _ _ (fun hc => hcx hc.symm),
          getN_append_lt (by rw [hWlen]; omega), getN_withSub_self _ _ hcur]
        exact lookupSub_setSub_self _ _ _
    · rw [hnn, getN_setN_ne _ (fun hc => hxne hc.symm), hgN1x]
      exact lookupSub_setSub_self _ _ _
    · rw [hnn, getN_setN_self _ (by rw [hN1len]; omega)]
    · rw [hnn, getN_setN_self _ (by rw [hN1len]; omega)]
      show (getN (withSub ((withSub st.nodes st.currentHandler s₁ x) ++
        [({ parentHandler := x } : Handler)]) x s₂ st.nodes.length)
        st.nodes.length).parentHandler = x
      rw [hgN1len]

/-- Witness for C7: concrete single-segment and reused-intermediate
registrations on a decoder that already has an `"a"` child with a
`"b"` grandchild under the sentinel. -/
theorem c7_registration_semantics_witness :
    ((applyReg (runRegs NewDecoder [.onTag "a/b" (.mk (some 2) [])]) (.onTag "n" (.mk (some 9) []))).nodes.length
       = (runRegs NewDecoder [.onTag "a/b" (.mk (some 2) [])]).nodes.length + 1 ∧
     lookupSub (getN (applyReg (runRegs NewDecoder [.onTag "a/b" (.mk (some 2) [])]) (.onTag "n" (.mk (some 9) []))).nodes 0).subHandlers "n"
       = some (runRegs NewDecoder [.onTag "a/b" (.mk (some 2) [])]).nodes.length ∧
     (getN (applyReg (runRegs NewDecoder [.onTag "a/b" (.mk (some 2) [])]) (.onTag "n" (.mk (some 9) []))).nodes (runRegs NewDecoder [.onTag "a/b" (.mk (some 2) [])]).nodes.length).tagCallback = some (.mk (some 9) []) ∧
     (getN (applyReg (runRegs NewDecoder [.onTag "a/b" (.mk (some 2) [])]) (.onTag "n" (.mk (some 9) []))).nodes (runRegs NewDecoder [.onTag "a/b" (.mk (some 2) [])]).nodes.length).textCallback = none ∧
     (getN (applyReg (runRegs NewDecoder [.onTag "a/b" (.mk (some 2) [])]) (.onTag "n" (.mk (some 9) []))).nodes (runRegs NewDecoder [.onTag "a/b" (.mk (some 2) [])]).nodes.length).parentHandler = 0) ∧
    (lookupSub (getN (applyReg (runRegs NewDecoder [.onTag "a/b" (.mk (some 2) [])]) (.onTag "a/c" (.mk (some 3) []))).nodes 0).subHandlers "a" = some 1 ∧
     lookupSub (getN (applyReg (runRegs NewDecoder [.onTag "a/b" (.mk (some 2) [])]) (.onTag "a/c" (.mk (some 3) []))).nodes 1).subHandlers "c"
       = some (runRegs NewDecoder [.onTag "a/b" (.mk (some 2) [])]).nodes.length ∧
     (getN (applyReg (runRegs NewDecoder [.onTag "a/b" (.mk (some 2) [])]) (.onTag "a/c" (.mk (some 3) []))).nodes (runRegs NewDecoder [.onTag "a/b" (.mk (some 2) [])]).nodes.length).tagCallback = some (.mk (some 3) []) ∧
     (getN (applyReg (runRegs NewDecoder [.onTag "a/b" (.mk (some 2) [])]) (.onTag "a/c" (.mk (some 3) []))).nodes (runRegs NewDecoder [.onTag "a/b" (.mk (some 2) [])]).nodes.length).parentHandler = 1) :=
  ⟨c7_registration_semantics.1 (runRegs NewDecoder [.onTag "a/b" (.mk (some 2) [])])
      "n" (.mk (some 9) []) "n" (by decide) (by decide),
   c7_registration_semantics.2.1 (runRegs NewDecoder [.onTag "a/b" (.mk (some 2) [])])
      "a/c" (.mk (some 3) []) "a" "c" 1 (by decide) (by decide) (by decide) (by decide)
      (by decide)⟩

/-! ## Claim C3: unmatched elements and the context stack -/

/-- Counterexample to C3 as stated: with a global `"root"` handler and
the document fragment `<root><skip/>`, the `<skip>` start tag resolves
to no handler and pushes nothing (current stays at the root node, index
1), but the `</skip>` end tag — the end tag of an unmatched element —
*does* pop: it moves the current node from the root handler back to the
top-level sentinel (index 0), instead of leaving it unchanged as the
claim requires. -/
theorem c3_counterexample :
    resolve (runTokens (runRegs NewDecoder [.onTag "root" (.mk (some 1) [])])
        [.start "root" [], .start "skip" []]) "skip" = none ∧
    (runTokens (runRegs NewDecoder [.onTag "root" (.mk (some 1) [])])
        [.start "root" [], .start "skip" []]).currentHandler = 1 ∧
    (runTokens (runRegs NewDecoder [.onTag "root" (.mk (some 1) [])])
        [.start "root" [], .start "skip" [], .endElem]).currentHandler = 0 := by
  decide

/-- The property of the amended claim C3: an unmatched start tag indeed
pushes no frame (the step is exactly the pending-text flush, so the
current node is unchanged), but an end tag pops unconditionally
whenever the current node is not the top-level sentinel — the end tag
of an unmatched element pops the innermost *matched* frame, so the
current node is not in general the handler node of the innermost open
matched element. -/
def C3Prop (st : DState) (name : String) (attrs : Attrs) : Prop :=
  (resolve (handleText st) name = none → step st (.start name attrs) = handleText st) ∧
  ((step st .endElem).currentHandler =
    if st.currentHandler = 0 then 0 else (getN st.nodes st.currentHandler).parentHandler)

/-- C3 (amended): a start tag that resolves to no handler pushes no
stack frame — beyond the text flush the state is unchanged; every end
tag pops exactly one frame whenever the current node is not the
top-level sentinel, whether or not the element that is ending produced
a pushed frame. -/
theorem c3_amended_pop_behavior (st : DState) (name : String) (attrs : Attrs) :
    C3Prop st name attrs := by
  constructor
  · intro hr
    rw [step_start_eq, handleTag_eq_none attrs hr]
  · rw [step_end_eq]
    by_cases hz : st.currentHandler = 0
    · have hcz : (handleText st).currentHandler = 0 := by rw [(handleText_spec st).2.1, hz]
      rw [if_neg (by rw [hcz]; simp), if_pos hz]
      exact hcz
    · have hcz : (handleText st).currentHandler ≠ 0 := by
        rw [(handleText_spec st).2.1]; exact hz
      rw [if_pos hcz, if_neg hz]
      show (getN (handleText st).nodes (handleText st).currentHandler).parentHandler = _
      rw [(handleText_spec st).2.1, (handleText_spec st).2.2.2.2.1]

/-- Witness for the amended C3: the `<root><skip/>` scenario — the
unmatched `<skip>` start changes nothing beyond the flush, and the
`</skip>` end pops from the root handler to its recorded parent. -/
theorem c3_amended_pop_behavior_witness :
    resolve (handleText (runTokens (runRegs NewDecoder [.onTag "root" (.mk (some 1) [])])
        [.start "root" []])) "skip" = none ∧
    step (runTokens (runRegs NewDecoder [.onTag "root" (.mk (some 1) [])]) [.start "root" []])
        (.start "skip" []) =
      handleText (runTokens (runRegs NewDecoder [.onTag "root" (.mk (some 1) [])])
        [.start "root" []]) ∧
    (step (runTokens (runRegs NewDecoder [.onTag "root" (.mk (some 1) [])]) [.start "root" []])
        .endElem).currentHandler =
      if (runTokens (runRegs NewDecoder [.onTag "root" (.mk (some 1) [])])
          [.start "root" []]).currentHandler = 0 then 0
      else (getN (runTokens (runRegs NewDecoder [.onTag "root" (.mk (some 1) [])])
          [.start "root" []]).nodes
        (runTokens (runRegs NewDecoder [.onTag "root" (.mk (some 1) [])])
          [.start "root" []]).currentHandler).parentHandler :=
  ⟨by decide,
   (c3_amended_pop_behavior (runTokens (runRegs NewDecoder [.onTag "root" (.mk (some 1) [])])
      [.start "root" []]) "skip" []).1 (by decide),
   (c3_amended_pop_behavior (runTokens (runRegs NewDecoder [.onTag "root" (.mk (some 1) [])])
      [.start "root" []]) "skip" []).2⟩

/-! ## Well-formedness is preserved by the run loop -/

theorem WF_mk {st : DState} (h1 : 0 < st.nodes.length)
    (h2 : st.currentHandler < st.nodes.length) (h3 : mapsOK st.nodes)
    (h4 : parentsOK st.nodes) : WF st :=
  ⟨h1, h2, fun i _ => ⟨fun p hp => h3 i p hp, h4 i⟩⟩

theorem handleText_mapsOK (st : DState) (hm : mapsOK st.nodes) :
    mapsOK (handleText st).nodes := by
  intro j p hp
  rw [(handleText_spec st).2.2.2.1]
  by_cases hj : j = st.currentHandler
  · rw [hj, (handleText_spec st).2.2.2.2.1] at hp
    exact hm st.currentHandler p hp
  · rw [(handleText_spec st).2.2.2.2.2 j hj] at hp
    exact hm j p hp

theorem handleText_parentsOK (st : DState) (hp : parentsOK st.nodes) :
    parentsOK (handleText st).nodes := by
  intro j
  rw [(handleText_spec st).2.2.2.1]
  by_cases hj : j = st.currentHandler
  · rw [hj, (handleText_spec st).2.2.2.2.1]
    exact hp st.currentHandler
  · rw [(handleText_spec st).2.2.2.2.2 j hj]
    exact hp j

theorem handleText_WF (st : DState) (hwf : WF st) : WF (handleText st) := by
  refine WF_mk ?_ ?_ (handleText_mapsOK st (WF_mapsOK hwf)) (handleText_parentsOK st (WF_parentsOK hwf))
  · rw [(handleText_spec st).2.2.2.1]; exact hwf.1
  · rw [(handleText_spec st).2.1, (handleText_spec st).2.2.2.1]; exact hwf.2.1

theorem pushAndInvoke_WF (st : DState) (h : Nat) (attrs : Attrs) (hwf : WF st)
    (hne : h ≠ 0) (hlt : h < st.nodes.length) : WF (pushAndInvoke st h attrs) := by
  obtain ⟨b1, b2, b3, b4, b5, b6, b7, b8, b9, b10, b11, b12⟩ :=
    pushAndInvoke_spec st h attrs hwf.1 hne hlt hwf.2.1 (WF_mapsOK hwf) (WF_parentsOK hwf)
  exact WF_mk (by omega) (by rw [b1]; omega) b6 b7

theorem step_WF (st : DState) (t : Token) (hwf : WF st) : WF (step st t) := by
  cases t with
  | start name attrs =>
      rw [step_start_eq]
      have hwf₀ := handleText_WF st hwf
      rcases hr : resolve (handleText st) name with _ | h
      · rw [handleTag_eq_none attrs hr]
        exact hwf₀
      · rw [handleTag_eq_some attrs hr]
        obtain ⟨hne, hlt⟩ := resolve_range hwf₀ hr
        exact pushAndInvoke_WF _ h attrs hwf₀ hne hlt
  | chardata s =>
      rw [step_chardata_eq]
      have hlen : (setN st.nodes st.currentHandler ({ getN st.nodes st.currentHandler with
          text := (getN st.nodes st.currentHandler).text ++ s })).length = st.nodes.length :=
        length_setN _ _ _
      refine WF_mk ?_ ?_ ?_ ?_
      · show 0 < (setN _ _ _).length
        rw [hlen]; exact hwf.1
      · show st.currentHandler < (setN _ _ _).length
        rw [hlen]; exact hwf.2.1
      · intro j p hp
        show _ ∧ p.2 < (setN _ _ _).length
        rw [hlen]
        by_cases hj : j = st.currentHandler
        · rw [hj, getN_setN_self _ hwf.2.1] at hp
          exact WF_mapsOK hwf st.currentHandler p hp
        · rw [getN_setN_ne _ (fun hc => hj hc.symm)] at hp
          exact WF_mapsOK hwf j p hp
      · intro j
        show _ < (setN _ _ _).length
        rw [hlen]
        by_cases hj : j = st.currentHandler
        · rw [hj, getN_setN_self _ hwf.2.1]
          exact WF_parentsOK hwf st.currentHandler
        · rw [getN_setN_ne _ (fun hc => hj hc.symm)]
          exact WF_parentsOK hwf j
  | endElem =>
      rw [step_end_eq]
      have hwf₀ := handleText_WF st hwf
      by_cases hc : (handleText st).currentHandler ≠ 0
      · rw [if_pos hc]
        have hm' : mapsOK (handleText st).nodes := WF_mapsOK hwf₀
        have hp' : parentsOK (handleText st).nodes := WF_parentsOK hwf₀
        exact WF_mk hwf₀.1 (hp' _) hm' hp'
      · rw [if_neg hc]
        exact hwf₀

theorem runTokens_WF (ts : List Token) : ∀ st, WF st → WF (runTokens st ts) := by
  induction ts with
  | nil => intro st hwf; exact hwf
  | cons t ts ih =>
      intro st hwf
      have : runTokens st (t :: ts) = runTokens (step st t) ts := rfl
      rw [this]
      exact ih _ (step_WF st t hwf)

/-! ## Claim C10: the self-parent trap -/

/-- `k`-fold iteration of the parent pointer from node `i`. -/
def parIter (nodes : List Handler) : Nat → Nat → Nat
  | 0, i => i
  | k + 1, i => parIter nodes k ((getN nodes i).parentHandler)

theorem parIter_succ_back (nodes : List Handler) :
    ∀ k i, parIter nodes (k + 1) i = (getN nodes (parIter nodes k i)).parentHandler := by
  intro k
  induction k with
  | zero => intro i; rfl
  | succ k ih =>
      intro i
      show parIter nodes (k + 1) ((getN nodes i).parentHandler) = _
      rw [ih]
      rfl

theorem parIter_congr {n₁ n₂ : List Handler}
    (hpar : ∀ j, (getN n₁ j).parentHandler = (getN n₂ j).parentHandler) :
    ∀ k i, parIter n₁ k i = parIter n₂ k i := by
  intro k
  induction k with
  | zero => intro i; rfl
  | succ k ih =>
      intro i
      show parIter n₁ k ((getN n₁ i).parentHandler) = parIter n₂ k ((getN n₂ i).parentHandler)
      rw [hpar i, ih]

theorem parIter_lt {nodes : List Handler} (hp : parentsOK nodes) :
    ∀ k i, i < nodes.length → parIter nodes k i < nodes.length := by
  intro k
  induction k with
  | zero => intro i hi; exact hi
  | succ k ih =>
      intro i hi
      exact ih _ (hp i)

/-- The parent chain from the current handler never reaches the
top-level sentinel. -/
def NoTop (st : DState) : Prop :=
  ∀ k, parIter st.nodes k st.currentHandler ≠ 0

theorem handleText_parEq (st : DState) :
    ∀ j, (getN (handleText st).nodes j).parentHandler = (getN st.nodes j).parentHandler := by
  intro j
  by_cases hj : j = st.currentHandler
  · rw [hj, (handleText_spec st).2.2.2.2.1]
  · rw [(handleText_spec st).2.2.2.2.2 j hj]

theorem handleText_NoTop (st : DState) (hnt : NoTop st) : NoTop (handleText st) := by
  intro k
  rw [parIter_congr (handleText_parEq st) k, (handleText_spec st).2.1]
  exact hnt k

theorem step_NoTop (st : DState) (t : Token) (hwf : WF st) (hnt : NoTop st) :
    NoTop (step st t) := by
  cases t with
  | chardata s =>
      rw [step_chardata_eq]
      intro k
      have hpar : ∀ j, (getN (setN st.nodes st.currentHandler ({ getN st.nodes st.currentHandler with text := (getN st.nodes st.currentHandler).text ++ s })) j).parentHandler = (getN st.nodes j).parentHandler := by
        intro j
        by_cases hj : j = st.currentHandler
        · rw [hj, getN_setN_self _ hwf.2.1]
        · rw [getN_setN_ne _ (fun hc => hj hc.symm)]
      show parIter (setN st.nodes st.currentHandler ({ getN st.nodes st.currentHandler with text := (getN st.nodes st.currentHandler).text ++ s })) k st.currentHandler ≠ 0
      rw [parIter_congr hpar k]
      exact hnt k
  | endElem =>
      have hnt₀ := handleText_NoTop st hnt
      rw [step_end_eq]
      have hc : (handleText st).currentHandler ≠ 0 := hnt₀ 0
      rw [if_pos hc]
      intro k
      show parIter (handleText st).nodes k
        ((getN (handleText st).nodes (handleText st).currentHandler).parentHandler) ≠ 0
      exact hnt₀ (k + 1)
  | start name attrs =>
      rw [step_start_eq]
      have hnt₀ := handleText_NoTop st hnt
      have hwf₀ := handleText_WF st hwf
      rcases hr : resolve (handleText st) name with _ | h
      · rw [handleTag_eq_none attrs hr]
        exact hnt₀
      · rw [handleTag_eq_some attrs hr]
        obtain ⟨hne, hlt⟩ := resolve_range hwf₀ hr
        obtain ⟨b1, b2, b3, b4, b5, b6, b7, b8, b9, b10, b11, b12⟩ :=
          pushAndInvoke_spec (handleText st) h attrs hwf₀.1 hne hlt hwf₀.2.1
            (WF_mapsOK hwf₀) (WF_parentsOK hwf₀)
        have hclt₀ : (handleText st).currentHandler < (handleText st).nodes.length := hwf₀.2.1
        have hQ : ∀ k, parIter (pushAndInvoke (handleText st) h attrs).nodes k h = h ∨
            ∃ j, parIter (pushAndInvoke (handleText st) h attrs).nodes k h =
              parIter (handleText st).nodes j (handleText st).currentHandler := by
          intro k
          induction k with
          | zero => exact Or.inl rfl
          | succ k ih =>
              rw [parIter_succ_back]
              rcases ih with hy | ⟨j, hy⟩
              · rw [hy, b8]
                exact Or.inr ⟨0, rfl⟩
              · by_cases hyh : parIter (pushAndInvoke (handleText st) h attrs).nodes k h = h
                · rw [hyh, b8]
                  exact Or.inr ⟨0, rfl⟩
                · have hylt : parIter (pushAndInvoke (handleText st) h attrs).nodes k h
                      < (handleText st).nodes.length := by
                    rw [hy]
                    exact parIter_lt (WF_parentsOK hwf₀) j _ hclt₀
                  rw [b9 _ hylt hyh]
                  refine Or.inr ⟨j + 1, ?_⟩
                  rw [parIter_succ_back, ← hy]

        intro k
        show parIter (pushAndInvoke (handleText st) h attrs).nodes k
          (pushAndInvoke (handleText st) h attrs).currentHandler ≠ 0
        rw [b1]
        rcases hQ k with hk | ⟨j, hk⟩
        · rw [hk]; exact hne
        · rw [hk]; exact hnt₀ j

theorem runTokens_NoTop (ts : List Token) :
    ∀ st, WF st → NoTop st → (runTokens st ts).currentHandler ≠ 0 := by
  induction ts with
  | nil => intro st _ hnt; exact hnt 0
  | cons t ts ih =>
      intro st hwf hnt
      have : runTokens st (t :: ts) = runTokens (step st t) ts := rfl
      rw [this]
      exact ih _ (step_WF st t hwf) (step_NoTop st t hwf hnt)

/-- The property asserted by claim C10: (1) when a start tag resolves
to the node that is already current, that node's parent pointer is
reassigned to the node itself; (2) with such a self-loop in place, an
end tag leaves the current node unchanged; (3) once the current node's
parent chain cannot reach the sentinel — as after the self-loop — no
continuation of the run whatsoever brings the current node back to the
top-level sentinel; (4) concretely, on `<a><a/></a>` with a global
`"a"` handler the current node ends at the `a` handler with a
self-parent, not back at the sentinel. -/
def C10Prop : Prop :=
  (∀ (st : DState) (name : String) (attrs : Attrs), WF st →
    resolve st name = some st.currentHandler →
    (handleTag st name attrs).currentHandler = st.currentHandler ∧
    (getN (handleTag st name attrs).nodes st.currentHandler).parentHandler
      = st.currentHandler) ∧
  (∀ st : DState, st.currentHandler ≠ 0 →
    (getN st.nodes st.currentHandler).parentHandler = st.currentHandler →
    (step st .endElem).currentHandler = st.currentHandler) ∧
  (∀ (st : DState) (ts : List Token), WF st → st.currentHandler ≠ 0 →
    (getN st.nodes st.currentHandler).parentHandler = st.currentHandler →
    (runTokens st ts).currentHandler ≠ 0) ∧
  ((runTokens (runRegs NewDecoder [.onTag "a" (.mk (some 1) [])])
      [.start "a" [], .start "a" []]).currentHandler = 1 ∧
   (getN (runTokens (runRegs NewDecoder [.onTag "a" (.mk (some 1) [])])
      [.start "a" [], .start "a" []]).nodes 1).parentHandler = 1 ∧
   (runTokens (runRegs NewDecoder [.onTag "a" (.mk (some 1) [])])
      [.start "a" [], .start "a" [], .endElem, .endElem]).currentHandler = 1)

/-- C10: a start tag resolving to the node that is already current
assigns that node's parent pointer to itself; from then on end-tag pops
leave the current node unchanged and the dispatcher can never return
the current node to the top-level sentinel for the remainder of the
run. -/
theorem c10_self_parent_trap : C10Prop := by
  refine ⟨?_, ?_, ?_, by decide⟩
  · intro st name attrs hwf hr
    obtain ⟨hne, hlt⟩ := resolve_range hwf hr
    rw [handleTag_eq_some attrs hr]
    obtain ⟨b1, b2, b3, b4, b5, b6, b7, b8, b9, b10, b11, b12⟩ :=
      pushAndInvoke_spec st st.currentHandler attrs hwf.1 hne hlt hwf.2.1
        (WF_mapsOK hwf) (WF_parentsOK hwf)
    exact ⟨b1, b8⟩
  · intro st hc hself
    rw [step_end_eq]
    have hc₀ : (handleText st).currentHandler ≠ 0 := by
      rw [(handleText_spec st).2.1]; exact hc
    rw [if_pos hc₀]
    show (getN (handleText st).nodes (handleText st).currentHandler).parentHandler
      = st.currentHandler
    rw [(handleText_spec st).2.1, handleText_parEq st, hself]
  · intro st ts hwf hc hself
    refine runTokens_NoTop ts st hwf ?_
    intro k
    have hfix : parIter st.nodes k st.currentHandler = st.currentHandler := by
      induction k with
      | zero => rfl
      | succ k ih => rw [parIter_succ_back, ih, hself]
    rw [hfix]
    exact hc

/-- Witness for C10: after `<a><a>` with a global `"a"` handler the
`a` node (index 1) is current with a self-parent, and no continuation —
here two extra end tags and an unmatched sibling — returns the current
node to the sentinel. -/
theorem c10_self_parent_trap_witness :
    (runTokens (runTokens (runRegs NewDecoder [.onTag "a" (.mk (some 1) [])])
        [.start "a" [], .start "a" []])
      [.endElem, .start "b" [], .endElem, .endElem]).currentHandler ≠ 0 :=
  c10_self_parent_trap.2.2.1
    (runTokens (runRegs NewDecoder [.onTag "a" (.mk (some 1) [])])
      [.start "a" [], .start "a" []])
    [.endElem, .start "b" [], .endElem, .endElem]
    (by decide) (by decide) (by decide)

/-! ## Claim C4: the text accumulation and flush protocol -/

/-- The property asserted by claim C4: character data is appended
verbatim to the current node's buffer with no callback invocation;
pending text is flushed at exactly two points — at a start tag
(immediately before the tag is dispatched, as the trace order shows)
and at an end tag; a flush delivers the whitespace-trimmed buffer and
delivers nothing when the buffer trims to empty; buffers of non-current
nodes stay empty across any step, so a delivered value is precisely the
concatenation of the character data received while its node was current
since that node's previous flush; and mixed content
`prefix<child/>suffix` under a parent with a text callback and a child
handler yields two separate text invocations, never one concatenated
string. -/
def C4Prop (st : DState) (s : String) (name : String) (attrs : Attrs) : Prop :=
  ((step st (.chardata s)).trace = st.trace ∧
   (step st (.chardata s)).currentHandler = st.currentHandler ∧
   (getN (step st (.chardata s)).nodes st.currentHandler).text
     = (getN st.nodes st.currentHandler).text ++ s ∧
   (∀ j, j ≠ st.currentHandler → getN (step st (.chardata s)).nodes j = getN st.nodes j)) ∧
  ((step st (.start name attrs)).trace = st.trace ++ flushEvents st ++
    (match resolve (handleText st) name with
     | some h => cbEvents (getN (handleText st).nodes h).tagCallback attrs
     | none => [])) ∧
  ((step st .endElem).trace = st.trace ++ flushEvents st) ∧
  (trimStr (getN st.nodes st.currentHandler).text = "" → flushEvents st = []) ∧
  (∀ ℓ, (getN st.nodes st.currentHandler).textCallback = some ℓ →
    trimStr (getN st.nodes st.currentHandler).text ≠ "" →
    flushEvents st = [.text ℓ (trimStr (getN st.nodes st.currentHandler).text)]) ∧
  (∀ t : Token, (∀ j, j ≠ st.currentHandler → (getN st.nodes j).text = "") →
    ∀ j, j ≠ (step st t).currentHandler → (getN (step st t).nodes j).text = "") ∧
  ((runTokens (runRegs NewDecoder [.onTag "p" (.mk none [.onText 5, .onTag "c" (.mk (some 6) [])])])
      [.start "p" [], .chardata "prefix", .start "c" [], .endElem, .chardata "suffix",
        .endElem]).trace
    = [.text 5 "prefix", .tag 6 [], .text 5 "suffix"])

/-- C4: the delivered text values are the whitespace-trimmed
concatenations of the character data received while the node was
current since its previous flush, flushed exactly at child start tags
and at the node's own end tag; an all-whitespace buffer produces no
invocation; mixed content produces two separate invocations. -/
theorem c4_text_flush_protocol (st : DState) (s : String) (name : String) (attrs : Attrs)
    (hwf : WF st) : C4Prop st s name attrs := by
  refine ⟨⟨rfl, rfl, ?_, ?_⟩, ?_, ?_, ?_, ?_, ?_, by decide⟩
  · rw [step_chardata_eq, getN_setN_self _ hwf.2.1]
  · intro j hj
    rw [step_chardata_eq]
    exact getN_setN_ne _ (fun hc => hj hc.symm)
  · rw [step_start_eq, handleTag_trace, (handleText_spec st).1, List.append_assoc]
  · rw [step_end_eq]
    by_cases hc : (handleText st).currentHandler ≠ 0
    · rw [if_pos hc]
      exact (handleText_spec st).1
    · rw [if_neg hc]
      exact (handleText_spec st).1
  · intro ht
    unfold flushEvents
    rcases hcb : (getN st.nodes st.currentHandler).textCallback with _ | ℓ
    · rfl
    · show (if trimStr (getN st.nodes st.currentHandler).text ≠ "" then
        [Event.text ℓ (trimStr (getN st.nodes st.currentHandler).text)] else []) = []
      rw [if_neg (by rw [ht]; simp)]
  · intro ℓ hcb ht
    unfold flushEvents
    rw [hcb]
    show (if trimStr (getN st.nodes st.currentHandler).text ≠ "" then
      [Event.text ℓ (trimStr (getN st.nodes st.currentHandler).text)] else [])
      = [Event.text ℓ (trimStr (getN st.nodes st.currentHandler).text)]
    rw [if_pos ht]
  · intro t hemp j hj
    have hall : ∀ j', (getN (handleText st).nodes j').text = "" := by
      intro j'
      by_cases hj' : j' = st.currentHandler
      · rw [hj', (handleText_spec st).2.2.2.2.1]
      · rw [(handleText_spec st).2.2.2.2.2 j' hj']
        exact hemp j' hj'
    cases t with
    | chardata s' =>
        rw [step_chardata_eq] at hj ⊢
        rw [getN_setN_ne _ (fun hc => hj hc.symm)]
        exact hemp j hj
    | endElem =>
        rw [step_end_eq]
        by_cases hc : (handleText st).currentHandler ≠ 0
        · rw [if_pos hc]
          exact hall j
        · rw [if_neg hc]
          exact hall j
    | start name' attrs' =>
        rw [step_start_eq]
        have hwf₀ := handleText_WF st hwf
        rcases hr : resolve (handleText st) name' with _ | h
        · rw [handleTag_eq_none attrs' hr]
          exact hall j
        · rw [handleTag_eq_some attrs' hr]
          obtain ⟨hne, hlt⟩ := resolve_range hwf₀ hr
          obtain ⟨b1, b2, b3, b4, b5, b6, b7, b8, b9, b10, b11, b12⟩ :=
            pushAndInvoke_spec (handleText st) h attrs' hwf₀.1 hne hlt hwf₀.2.1
              (WF_mapsOK hwf₀) (WF_parentsOK hwf₀)
          by_cases hjlen : j < (handleText st).nodes.length
          · rw [(b10 j hjlen).2]
            exact hall j
          · exact (b11 j (by omega)).1

/-- Witness for C4: the mixed-content decoder state, with which all
hypotheses of the flush-protocol theorem are discharged concretely. -/
theorem c4_text_flush_protocol_witness :
    WF (runRegs NewDecoder [.onTag "p" (.mk none [.onText 5, .onTag "c" (.mk (some 6) [])])]) ∧
      C4Prop (runRegs NewDecoder [.onTag "p" (.mk none [.onText 5, .onTag "c" (.mk (some 6) [])])])
        " hi " "p" [("k", "v")] :=
  ⟨by decide, c4_text_flush_protocol _ _ _ _ (by decide)⟩

/-! ## Claim C2: global handlers fire once per occurrence -/

/-- Number of tag-callback events carrying the observation label `ℓ`. -/
def countTagLabel (ℓ : Nat) (tr : List Event) : Nat :=
  tr.countP (fun e => match e with | .tag ℓ' _ => ℓ' == ℓ | _ => false)

/-- Number of start tokens with the given local name. -/
def countStarts (name : String) (ts : List Token) : Nat :=
  ts.countP (fun t => match t with | .start n _ => n == name | _ => false)

mutual
/-- Whether a tag callback observes label `ℓ`, either directly or in a
callback it registers (at any nesting depth). -/
def cbUses (ℓ : Nat) : Cb → Bool
  | .mk lab regs => lab == some ℓ || regsUse ℓ regs

/-- Whether any registration in the list installs a callback observing
label `ℓ`. -/
def regsUse (ℓ : Nat) : List Reg → Bool
  | [] => false
  | r :: rs => regUse ℓ r || regsUse ℓ rs

/-- Whether one registration installs a callback observing label `ℓ`. -/
def regUse (ℓ : Nat) : Reg → Bool
  | .onTag _ c => cbUses ℓ c
  | .onTextOf _ _ => false
  | .onText _ => false
end

/-- Whether an optional tag callback observes label `ℓ`. -/
def optUses (ℓ : Nat) : Option Cb → Bool
  | none => false
  | some c => cbUses ℓ c

/-- The observation label carried directly by an optional tag callback. -/
def cbLabel : Option Cb → Option Nat
  | some (.mk lab _) => lab
  | none => none

theorem countTagLabel_append (ℓ : Nat) (a b : List Event) :
    countTagLabel ℓ (a ++ b) = countTagLabel ℓ a + countTagLabel ℓ b :=
  List.countP_append _ _ _

theorem countTagLabel_cbEvents (ℓ : Nat) (c : Option Cb) (attrs : Attrs) :
    countTagLabel ℓ (cbEvents c attrs) = if cbLabel c = some ℓ then 1 else 0 := by
  rcases c with _ | ⟨lab, regs⟩
  · rfl
  · rcases lab with _ | ℓ'
    · rfl
    · show countTagLabel ℓ [.tag ℓ' attrs] = if some ℓ' = some ℓ then 1 else 0
      by_cases h : ℓ' = ℓ
      · rw [if_pos (by rw [h])]
        simp [countTagLabel, h]
      · rw [if_neg (by simpa using h)]
        simp [countTagLabel, h]

theorem countTagLabel_flushEvents (ℓ : Nat) (st : DState) :
    countTagLabel ℓ (flushEvents st) = 0 := by
  unfold flushEvents
  rcases (getN st.nodes st.currentHandler).textCallback with _ | ℓ'
  · rfl
  · show countTagLabel ℓ (if trimStr (getN st.nodes st.currentHandler).text ≠ "" then
      [Event.text ℓ' (trimStr (getN st.nodes st.currentHandler).text)] else []) = 0
    split <;> rfl

theorem optUses_false {ℓ : Nat} {c : Option Cb} (h : optUses ℓ c = false) :
    cbLabel c ≠ some ℓ ∧ regsUse ℓ (cbRegs c) = false := by
  rcases c with _ | ⟨lab, regs⟩
  · exact ⟨by simp [cbLabel], rfl⟩
  · rw [show optUses ℓ (some (.mk lab regs)) = (lab == some ℓ || regsUse ℓ regs) from rfl] at h
    simp only [Bool.or_eq_false_iff] at h
    constructor
    · show lab ≠ some ℓ
      intro hc
      rw [hc] at h
      simp at h
    · exact h.2

theorem regsUse_false_mem {ℓ : Nat} {regs : List Reg} (h : regsUse ℓ regs = false) :
    ∀ r ∈ regs, regUse ℓ r = false := by
  induction regs with
  | nil => intro r hr; simp at hr
  | cons r₀ rs ih =>
      intro r hr
      rw [show regsUse ℓ (r₀ :: rs) = (regUse ℓ r₀ || regsUse ℓ rs) from rfl] at h
      simp only [Bool.or_eq_false_iff] at h
      rcases List.mem_cons.mp hr with hr' | hr'
      · rw [hr']; exact h.1
      · exact ih h.2 r hr'

/-- The invariant for claim C2: the decoder is well formed; the
top-level (global) children map maps `name` to node `g`; node `g`
carries a tag callback labelled `ℓ` whose registrations never observe
`ℓ`; no other node's callback observes `ℓ` (directly or through its
registrations); and `g` appears in no children-map slot other than the
global slot for `name`. -/
def C2Inv (name : String) (g ℓ : Nat) (st : DState) : Prop :=
  WF st ∧ g ≠ 0 ∧ g < st.nodes.length ∧
  lookupSub (getN st.nodes 0).subHandlers name = some g ∧
  cbLabel (getN st.nodes g).tagCallback = some ℓ ∧
  regsUse ℓ (cbRegs (getN st.nodes g).tagCallback) = false ∧
  (∀ j, j < st.nodes.length → j ≠ g → optUses ℓ (getN st.nodes j).tagCallback = false) ∧
  (∀ j, j < st.nodes.length → ∀ p ∈ (getN st.nodes j).subHandlers,
    p.2 = g → j = 0 ∧ p.1 = name)

instance (name : String) (g ℓ : Nat) (st : DState) : Decidable (C2Inv name g ℓ st) := by
  unfold C2Inv; infer_instance

theorem C2Inv_congr (name : String) (g ℓ : Nat) {st st' : DState}
    (hinv : C2Inv name g ℓ st) (hwf' : WF st')
    (hlen : st'.nodes.length = st.nodes.length)
    (htag : ∀ j, (getN st'.nodes j).tagCallback = (getN st.nodes j).tagCallback)
    (hsubs : ∀ j, (getN st'.nodes j).subHandlers = (getN st.nodes j).subHandlers) :
    C2Inv name g ℓ st' := by
  obtain ⟨hwf, hg0, hglt, htop, hlab, hregs, huniq, halias⟩ := hinv
  refine ⟨hwf', hg0, by omega, ?_, ?_, ?_, ?_, ?_⟩
  · rw [hsubs 0]; exact htop
  · rw [htag g]; exact hlab
  · rw [htag g]; exact hregs
  · intro j hj hjg
    rw [htag j]
    exact huniq j (by omega) hjg
  · intro j hj p hp hpg
    rw [hsubs j] at hp
    exact halias j (by omega) p hp hpg

theorem c2_handleText (name : String) (g ℓ : Nat) (st : DState)
    (hinv : C2Inv name g ℓ st) : C2Inv name g ℓ (handleText st) := by
  refine C2Inv_congr name g ℓ hinv (handleText_WF st hinv.1)
    ((handleText_spec st).2.2.2.1) ?_ ?_
  · intro j
    by_cases hj : j = st.currentHandler
    · rw [hj, (handleText_spec st).2.2.2.2.1]
    · rw [(handleText_spec st).2.2.2.2.2 j hj]
  · intro j
    by_cases hj : j = st.currentHandler
    · rw [hj, (handleText_spec st).2.2.2.2.1]
    · rw [(handleText_spec st).2.2.2.2.2 j hj]

theorem c2_resolve_g {name : String} {g ℓ : Nat} {st : DState}
    (hinv : C2Inv name g ℓ st) :
    resolve st name = some g ∧
    (∀ n h, resolve st n = some h → h = g → n = name) := by
  obtain ⟨hwf, hg0, hglt, htop, hlab, hregs, huniq, halias⟩ := hinv
  constructor
  · unfold resolve
    rw [htop]
  · intro n h hr hg
    unfold resolve at hr
    rcases hl : lookupSub (getN st.nodes 0).subHandlers n with _ | x
    · rw [hl] at hr
      by_cases hc : st.currentHandler ≠ 0
      · rw [if_pos hc] at hr
        have hmem := lookupSub_mem hr
        have := halias st.currentHandler hwf.2.1 _ hmem (by rw [hg])
        exact absurd this.1 hc
      · rw [if_neg hc] at hr
        exact Option.noConfusion hr
    · rw [hl] at hr
      have hx : x = h := by
        simpa using hr
      have hmem := lookupSub_mem hl
      have := halias 0 hwf.1 _ hmem (by show x = g; rw [hx, hg])
      exact this.2

theorem c2_push (name : String) (g ℓ : Nat) (st : DState) (h : Nat) (attrs : Attrs)
    (hinv : C2Inv name g ℓ st) (hne : h ≠ 0) (hlt : h < st.nodes.length) :
    C2Inv name g ℓ (pushAndInvoke st h attrs) ∧
    countTagLabel ℓ (pushAndInvoke st h attrs).trace
      = countTagLabel ℓ st.trace + (if h = g then 1 else 0) := by
  obtain ⟨hwf, hg0, hglt, htop, hlab, hregs, huniq, halias⟩ := hinv
  obtain ⟨b1, b2, b3, b4, b5, b6, b7, b8, b9, b10, b11, b12⟩ :=
    pushAndInvoke_spec st h attrs hwf.1 hne hlt hwf.2.1 (WF_mapsOK hwf) (WF_parentsOK hwf)
  have hregsH : regsUse ℓ (cbRegs (getN st.nodes h).tagCallback) = false := by
    by_cases hg : h = g
    · rw [hg]; exact hregs
    · exact (optUses_false (huniq h hlt hg)).2
  constructor
  · refine ⟨pushAndInvoke_WF st h attrs hwf hne hlt, hg0, by omega, ?_, ?_, ?_, ?_, ?_⟩
    · rw [b5]; exact htop
    · rw [(b10 g hglt).1]; exact hlab
    · rw [(b10 g hglt).1]; exact hregs
    · intro j hj hjg
      by_cases hjold : j < st.nodes.length
      · rw [(b10 j hjold).1]
        exact huniq j hjold hjg
      · rcases (b11 j (by omega)).2 with hnone | ⟨c', ⟨r, hrmem, hra⟩, hsome⟩
        · rw [hnone]; rfl
        · rw [hsome]
          show cbUses ℓ c' = false
          obtain ⟨p, hrp⟩ := hra
          have := regsUse_false_mem hregsH r hrmem
          rw [hrp] at this
          exact this
    · intro j hj p hp hpg
      rcases b12 j p hp with hold | hfresh
      · by_cases hjold : j < st.nodes.length
        · exact halias j hjold p hold hpg
        · rw [getN_default (by omega)] at hold
          simp at hold
      · omega
  · rw [b2, countTagLabel_append, countTagLabel_cbEvents]
    by_cases hg : h = g
    · rw [if_pos hg, if_pos (by rw [hg]; exact hlab)]
    · rw [if_neg hg, if_neg (optUses_false (huniq h hlt hg)).1]

/-- The contribution of one token to the count of start tags named
`name`. -/
def startDelta (name : String) : Token → Nat
  | .start n _ => if n = name then 1 else 0
  | _ => 0

theorem c2_step (name : String) (g ℓ : Nat) (st : DState) (t : Token)
    (hinv : C2Inv name g ℓ st) :
    C2Inv name g ℓ (step st t) ∧
    countTagLabel ℓ (step st t).trace = countTagLabel ℓ st.trace + startDelta name t := by
  cases t with
  | chardata s =>
      constructor
      · rw [step_chardata_eq]
        refine C2Inv_congr name g ℓ hinv
          (by rw [← step_chardata_eq]; exact step_WF st (.chardata s) hinv.1)
          (length_setN _ _ _) ?_ ?_
        · intro j
          by_cases hj : j = st.currentHandler
          · rw [hj]
            by_cases hc : st.currentHandler < st.nodes.length
            · rw [getN_setN_self _ hc]
            · rw [setN_ge _ _ _ (by omega)]
          · rw [getN_setN_ne _ (fun hc => hj hc.symm)]
        · intro j
          by_cases hj : j = st.currentHandler
          · rw [hj]
            by_cases hc : st.currentHandler < st.nodes.length
            · rw [getN_setN_self _ hc]
            · rw [setN_ge _ _ _ (by omega)]
          · rw [getN_setN_ne _ (fun hc => hj hc.symm)]
      · show countTagLabel ℓ st.trace = countTagLabel ℓ st.trace + 0
        omega
  | endElem =>
      have hinv₀ := c2_handleText name g ℓ st hinv
      constructor
      · rw [step_end_eq]
        by_cases hc : (handleText st).currentHandler ≠ 0
        · rw [if_pos hc]
          have heq : step st .endElem = { handleText st with currentHandler :=
              (getN (handleText st).nodes (handleText st).currentHandler).parentHandler } := by
            rw [step_end_eq, if_pos hc]
          exact C2Inv_congr name g ℓ hinv₀ (heq ▸ step_WF st .endElem hinv.1)
            rfl (fun j => rfl) (fun j => rfl)
        · rw [if_neg hc]
          exact hinv₀
      · have htr : (step st .endElem).trace = (handleText st).trace := by
          rw [step_end_eq]
          by_cases hc : (handleText st).currentHandler ≠ 0
          · rw [if_pos hc]
          · rw [if_neg hc]
        rw [htr, (handleText_spec st).1, countTagLabel_append, countTagLabel_flushEvents]
        rfl
  | start n attrs =>
      have hinv₀ := c2_handleText name g ℓ st hinv
      have hres := c2_resolve_g hinv₀
      rw [step_start_eq]
      rcases hr : resolve (handleText st) n with _ | h
      · have hnn : n ≠ name := by
          intro hc
          rw [hc, hres.1] at hr
          exact Option.noConfusion hr
        rw [handleTag_eq_none attrs hr]
        refine ⟨hinv₀, ?_⟩
        rw [(handleText_spec st).1, countTagLabel_append, countTagLabel_flushEvents]
        show countTagLabel ℓ st.trace + 0 = countTagLabel ℓ st.trace + (if n = name then 1 else 0)
        rw [if_neg hnn]
      · obtain ⟨hne, hlt⟩ := resolve_range hinv₀.1 hr
        rw [handleTag_eq_some attrs hr]
        obtain ⟨hpinv, hpcount⟩ := c2_push name g ℓ (handleText st) h attrs hinv₀ hne hlt
        refine ⟨hpinv, ?_⟩
        rw [hpcount, (handleText_spec st).1, countTagLabel_append, countTagLabel_flushEvents]
        have hiff : (h = g) ↔ (n = name) := by
          constructor
          · intro hg
            exact hres.2 n h hr hg
          · intro hn
            rw [hn, hres.1] at hr
            simpa using hr.symm
        show countTagLabel ℓ st.trace + 0 + (if h = g then 1 else 0)
          = countTagLabel ℓ st.trace + (if n = name then 1 else 0)
        by_cases hg : h = g
        · rw [if_pos hg, if_pos (hiff.mp hg)]
        · rw [if_neg hg, if_neg (fun hc => hg (hiff.mpr hc))]

theorem c2_run (name : String) (g ℓ : Nat) (ts : List Token) :
    ∀ st, C2Inv name g ℓ st →
      C2Inv name g ℓ (runTokens st ts) ∧
      countTagLabel ℓ (runTokens st ts).trace
        = countTagLabel ℓ st.trace + countStarts name ts := by
  induction ts with
  | nil =>
      intro st hinv
      exact ⟨hinv, rfl⟩
  | cons t ts ih =>
      intro st hinv
      obtain ⟨hinv', hcount'⟩ := c2_step name g ℓ st t hinv
      have hrun : runTokens st (t :: ts) = runTokens (step st t) ts := rfl
      obtain ⟨hinv'', hcount''⟩ := ih (step st t) hinv'
      rw [hrun]
      refine ⟨hinv'', ?_⟩
      rw [hcount'', hcount']
      have hcs : countStarts name (t :: ts) = countStarts name ts + startDelta name t := by
        cases t with
        | start n a =>
            show countStarts name (Token.start n a :: ts)
              = countStarts name ts + (if n = name then 1 else 0)
            unfold countStarts
            rw [List.countP_cons]
            by_cases hn : n = name
            · simp [hn]
            · simp [hn]
        | chardata s =>
            show countStarts name (Token.chardata s :: ts) = countStarts name ts + 0
            unfold countStarts
            rw [List.countP_cons]
            simp
        | endElem =>
            show countStarts name (Token.endElem :: ts) = countStarts name ts + 0
            unfold countStarts
            rw [List.countP_cons]
            simp
      omega

/-- Counterexample to C2 as stated: a global handler for `"node"`
(label 1) and a scoped handler for `"node"` under `"root"` (label 2,
registered from inside root's callback).  On
`<root><node i="1"/></root>` the claim says the more specific scoped
registration intercepts and fires instead of the global one; the code
checks the global map first, so the global handler (label 1) fires and
the scoped one (label 2) never does. -/
theorem c2_counterexample :
    (runTokens (runRegs NewDecoder [.onTag "root" (.mk none [.onTag "node" (.mk (some 2) [])]),
        .onTag "node" (.mk (some 1) [])])
      [.start "root" [], .start "node" [("i", "1")], .endElem, .endElem]).trace
      = [.tag 1 [("i", "1")]] ∧
    Event.tag 2 [("i", "1")] ∉
      (runTokens (runRegs NewDecoder [.onTag "root" (.mk none [.onTag "node" (.mk (some 2) [])]),
          .onTag "node" (.mk (some 1) [])])
        [.start "root" [], .start "node" [("i", "1")], .endElem, .endElem]).trace := by
  decide

/-- The property of the amended claim C2: under the C2 invariant (a
global registration of `name` at node `g` with observation label `ℓ`
used nowhere else), the callback fires exactly once per start tag named
`name`, regardless of nesting depth; and whenever the global map has an
entry for `name`, resolution returns it — a scoped registration of the
same name under the current node never intercepts, because the global
map is checked first. -/
def C2AmendedProp (name : String) (g ℓ : Nat) (st : DState) (ts : List Token) : Prop :=
  (C2Inv name g ℓ st →
    countTagLabel ℓ (runTokens st ts).trace
      = countTagLabel ℓ st.trace + countStarts name ts) ∧
  (∀ st' : DState, lookupSub (getN st'.nodes 0).subHandlers name = some g →
    resolve st' name = some g)

/-- C2 (amended): a single-segment registration made at the top level
fires exactly once per matching element occurrence regardless of
nesting depth; the exception in the original claim is inverted — a
scoped registration of the same name never intercepts a global one,
since the dispatcher consults the global map first. -/
theorem c2_amended_global_fires_per_occurrence (name : String) (g ℓ : Nat) (st : DState)
    (ts : List Token) : C2AmendedProp name g ℓ st ts := by
  constructor
  · intro hinv
    exact (c2_run name g ℓ ts st hinv).2
  · intro st' htop
    unfold resolve
    rw [htop]

/-- Witness for the amended C2: with the global `"node"` handler of the
counterexample decoder, the global callback fires once per `node`
occurrence (twice here) even though one occurrence is nested under an
unregistered element. -/
theorem c2_amended_witness :
    countTagLabel 1 (runTokens (runRegs NewDecoder
        [.onTag "root" (.mk none [.onTag "node" (.mk (some 2) [])]),
          .onTag "node" (.mk (some 1) [])])
      [.start "root" [], .start "node" [], .start "deep" [], .start "node" [],
        .endElem, .endElem, .endElem, .endElem]).trace
    = countTagLabel 1 (runRegs NewDecoder
        [.onTag "root" (.mk none [.onTag "node" (.mk (some 2) [])]),
          .onTag "node" (.mk (some 1) [])]).trace
      + countStarts "node"
        [.start "root" [], .start "node" [], .start "deep" [], .start "node" [],
          .endElem, .endElem, .endElem, .endElem] :=
  (c2_amended_global_fires_per_occurrence "node" 2 1
    (runRegs NewDecoder [.onTag "root" (.mk none [.onTag "node" (.mk (some 2) [])]),
      .onTag "node" (.mk (some 1) [])])
    [.start "root" [], .start "node" [], .start "deep" [], .start "node" [],
      .endElem, .endElem, .endElem, .endElem]).1 (by decide)

/-! ## Claim C8: transparency of callback-free intermediate nodes -/

/-- The decoder of claim C8: only the path `"root/node/subnode"` is
registered (observation label 7); the intermediate `root` and `node`
nodes carry no callback. -/
def c8Setup : DState := runRegs NewDecoder [.onTag "root/node/subnode" (.mk (some 7) [])]

/-- The arena of `c8Setup`: sentinel, `root` (1), `node` (2),
`subnode` (3). -/
def c8Arena : List Handler := c8Setup.nodes

/-- Tokens of one `<subnode .../>` element. -/
def subTokens (sa : Attrs) : List Token := [.start "subnode" sa, .endElem]

/-- Tokens of one `<node ...>` element containing the given subnodes. -/
def nodeTokens (p : Attrs × List Attrs) : List Token :=
  .start "node" p.1 :: ((p.2.map subTokens).flatten ++ [.endElem])

/-- Tokens of a document `<root ...>` containing the given nodes. -/
def docTokens (ra : Attrs) (ns : List (Attrs × List Attrs)) : List Token :=
  .start "root" ra :: ((ns.map nodeTokens).flatten ++ [.endElem])

/-- Counterexample to C8 as stated: the document
`<root><skip/><node><subnode/></node></root>` contains a `subnode`
inside a `node` under `root`, yet the `subnode` handler never fires —
the unmatched `<skip/>` element's end tag pops the `root` frame, after
which `node` (registered only under `root`) no longer matches. -/
theorem c8_counterexample :
    (runTokens c8Setup
      [.start "root" [], .start "skip" [], .endElem, .start "node" [],
        .start "subnode" [], .endElem, .endElem, .endElem]).trace = [] := by
  decide

theorem c8_step_sub_start (tr : List Event) (sa : Attrs) :
    step ⟨c8Arena, 2, none, tr⟩ (.start "subnode" sa) = ⟨c8Arena, 3, none, tr ++ [.tag 7 sa]⟩ :=
  rfl

theorem c8_step_sub_end (tr : List Event) :
    step ⟨c8Arena, 3, none, tr⟩ .endElem = ⟨c8Arena, 2, none, tr⟩ := rfl

theorem c8_step_node_start (tr : List Event) (na : Attrs) :
    step ⟨c8Arena, 1, none, tr⟩ (.start "node" na) = ⟨c8Arena, 2, none, tr⟩ := rfl

theorem c8_step_node_end (tr : List Event) :
    step ⟨c8Arena, 2, none, tr⟩ .endElem = ⟨c8Arena, 1, none, tr⟩ := rfl

theorem c8_step_root_start (tr : List Event) (ra : Attrs) :
    step ⟨c8Arena, 0, none, tr⟩ (.start "root" ra) = ⟨c8Arena, 1, none, tr⟩ := rfl

theorem c8_step_root_end (tr : List Event) :
    step ⟨c8Arena, 1, none, tr⟩ .endElem = ⟨c8Arena, 0, none, tr⟩ := rfl

theorem runTokens_append (st : DState) (a b : List Token) :
    runTokens st (a ++ b) = runTokens (runTokens st a) b :=
  List.foldl_append _ _ _ _

theorem c8_run_subs (subs : List Attrs) :
    ∀ tr : List Event,
      runTokens ⟨c8Arena, 2, none, tr⟩ (subs.map subTokens).flatten
        = ⟨c8Arena, 2, none, tr ++ subs.map (fun sa => Event.tag 7 sa)⟩ := by
  induction subs with
  | nil =>
      intro tr
      show (⟨c8Arena, 2, none, tr⟩ : DState) = ⟨c8Arena, 2, none, tr ++ []⟩
      rw [List.append_nil]
  | cons sa rest ih =>
      intro tr
      show runTokens ⟨c8Arena, 2, none, tr⟩ (subTokens sa ++ (rest.map subTokens).flatten) = _
      rw [runTokens_append]
      have h1 : runTokens ⟨c8Arena, 2, none, tr⟩ (subTokens sa)
          = ⟨c8Arena, 2, none, tr ++ [.tag 7 sa]⟩ := by
        show step (step ⟨c8Arena, 2, none, tr⟩ (.start "subnode" sa)) .endElem = _
        rw [c8_step_sub_start, c8_step_sub_end]
      rw [h1, ih (tr ++ [Event.tag 7 sa])]
      show (⟨c8Arena, 2, none, (tr ++ [Event.tag 7 sa]) ++ rest.map (fun sa => Event.tag 7 sa)⟩ : DState) = _
      rw [List.append_assoc]
      rfl

theorem c8_run_nodes (ns : List (Attrs × List Attrs)) :
    ∀ tr : List Event,
      runTokens ⟨c8Arena, 1, none, tr⟩ (ns.map nodeTokens).flatten
        = ⟨c8Arena, 1, none,
            tr ++ (ns.map (fun p => p.2.map (fun sa => Event.tag 7 sa))).flatten⟩ := by
  induction ns with
  | nil =>
      intro tr
      show (⟨c8Arena, 1, none, tr⟩ : DState) = ⟨c8Arena, 1, none, tr ++ []⟩
      rw [List.append_nil]
  | cons p rest ih =>
      intro tr
      show runTokens ⟨c8Arena, 1, none, tr⟩ (nodeTokens p ++ (rest.map nodeTokens).flatten) = _
      rw [runTokens_append]
      have h1 : runTokens ⟨c8Arena, 1, none, tr⟩ (nodeTokens p)
          = ⟨c8Arena, 1, none, tr ++ p.2.map (fun sa => Event.tag 7 sa)⟩ := by
        show runTokens (step ⟨c8Arena, 1, none, tr⟩ (.start "node" p.1))
          ((p.2.map subTokens).flatten ++ [.endElem]) = _
        rw [c8_step_node_start, runTokens_append, c8_run_subs]
        show step ⟨c8Arena, 2, none, tr ++ p.2.map (fun sa => Event.tag 7 sa)⟩ .endElem = _
        rw [c8_step_node_end]
      rw [h1, ih (tr ++ p.2.map (fun sa => Event.tag 7 sa))]
      show (⟨c8Arena, 1, none, (tr ++ p.2.map (fun sa => Event.tag 7 sa)) ++
        (rest.map (fun p => p.2.map (fun sa => Event.tag 7 sa))).flatten⟩ : DState) = _
      rw [List.append_assoc]
      rfl

/-- C8 (amended): with only `"root/node/subnode"` registered, for every
document of exactly the registered shape — a `root` element containing
any number of `node` elements, each containing any number of `subnode`
elements, with arbitrary attributes — the `subnode` callback fires
exactly once per `subnode` occurrence, in document order: the
callback-free intermediate nodes are transparent because path
registration creates handler nodes for them, which match and keep the
stack synchronised.  (Documents containing additional unmatched
elements break the correspondence; see the counterexample.) -/
theorem c8_amended_intermediate_transparency (ra : Attrs) (ns : List (Attrs × List Attrs)) :
    (runTokens c8Setup (docTokens ra ns)).trace
      = (ns.map (fun p => p.2.map (fun sa => Event.tag 7 sa))).flatten := by
  have h0 : c8Setup = ⟨c8Arena, 0, none, []⟩ := rfl
  rw [h0]
  show (runTokens (step ⟨c8Arena, 0, none, []⟩ (.start "root" ra))
    ((ns.map nodeTokens).flatten ++ [.endElem])).trace = _
  rw [c8_step_root_start, runTokens_append, c8_run_nodes]
  show (step ⟨c8Arena, 1, none,
    [] ++ (ns.map (fun p => p.2.map (fun sa => Event.tag 7 sa))).flatten⟩ .endElem).trace = _
  rw [c8_step_root_end]
  show ([] : List Event) ++ _ = _
  rw [List.nil_append]

/-! ## The v2 variant (src/unnamed/part_003) and claim C9

The older implementation keeps a single decoder-level text buffer and
dispatches text through the reserved `"$text"` pseudo-segment at end
elements: the global (top-level) `"$text"` entry is consulted first and
the current node's `"$text"` entry only when there is no global one.
Callbacks are modelled as pure observers (`tag` or `text` label); the
`interface{}` type assertion of the Go code is modelled by invoking
only a callback of the matching kind. -/

/-- A v2 callback: an element callback or a text callback, each a pure
observation label. -/
inductive V2Cb where
  | tag : Nat → V2Cb
  | text : Nat → V2Cb
deriving DecidableEq, Repr

/-- A v2 handler node (`handler` in src/unnamed/part_003): one
`callback` slot, children map, parent back-reference. -/
structure V2Handler where
  callback : Option V2Cb := none
  subHandlers : List (String × Nat) := []
  parent : Nat := 0
deriving DecidableEq, Repr

/-- The v2 decoder state: arena (index 0 is the top handler), current
handler, the single decoder-level text buffer, error callback, trace. -/
structure V2State where
  nodes : List V2Handler
  currentHandler : Nat
  text : String := ""
  errorCallback : Option Nat := none
  trace : List Event := []

def getN2 (l : List V2Handler) (i : Nat) : V2Handler :=
  l.getD i {}

def setN2 : List V2Handler → Nat → V2Handler → List V2Handler
  | [], _, _ => []
  | _ :: xs, 0, h => h :: xs
  | x :: xs, i + 1, h => x :: setN2 xs i h

def withSub2 (nodes : List V2Handler) (h : Nat) (ev : String) (v : Nat) : List V2Handler :=
  setN2 nodes h ({ getN2 nodes h with subHandlers := setSub (getN2 nodes h).subHandlers ev v })

/-- The loop of v2's `Decoder.On`: non-terminal segments reuse an
existing child or create a callback-free one; the terminal segment
always creates a fresh node carrying the callback. -/
def v2InstallLoop (nodes : List V2Handler) (evs : List String) (i depth h : Nat)
    (cb : Option V2Cb) : List V2Handler :=
  match evs with
  | [] => nodes
  | ev :: rest =>
      match (if i < depth then lookupSub (getN2 nodes h).subHandlers ev else none) with
      | some s => v2InstallLoop (withSub2 nodes h ev s) rest (i + 1) depth s cb
      | none =>
          let idx := nodes.length
          let fresh : V2Handler :=
            if i < depth then { parent := h } else { callback := cb, parent := h }
          v2InstallLoop (withSub2 (nodes ++ [fresh]) h ev idx) rest (i + 1) depth idx cb

/-- v2 `Decoder.On`: split the path and install from the current
handler. -/
def v2On (st : V2State) (path : String) (cb : Option V2Cb) : V2State :=
  let evs := splitPath path
  { st with nodes := v2InstallLoop st.nodes evs 0 (evs.length - 1) st.currentHandler cb }

/-- v2 `NewDecoder`. -/
def v2NewDecoder : V2State := { nodes := [{}], currentHandler := 0 }

/-- The `"$text"` resolution of the v2 `Run` loop at an end element:
the global (top-level) map is consulted first, the current node's map
only when the global map has no `"$text"` entry (with no guard on the
current node being the top handler). -/
def v2TextTarget (st : V2State) : Option Nat :=
  match lookupSub (getN2 st.nodes 0).subHandlers "$text" with
  | some h => some h
  | none => lookupSub (getN2 st.nodes st.currentHandler).subHandlers "$text"

/-- Invoking the resolved `"$text"` handler with the trimmed buffer; a
handler with a `tag` callback would fail the `func(CharData)` type
assertion at runtime in the Go code and is modelled as producing no
event. -/
def v2FireText (st : V2State) : Option Nat → V2State
  | none => st
  | some h =>
      match (getN2 st.nodes h).callback with
      | some (.text ℓ) => { st with trace := st.trace ++ [.text ℓ (trimStr st.text)] }
      | _ => st

/-- The end-element text dispatch of the v2 `Run` loop: when the
trimmed decoder buffer is non-empty, resolve the `"$text"`
pseudo-segment and invoke the found text callback with the trimmed
text. -/
def v2Flush (st : V2State) : V2State :=
  if trimStr st.text ≠ "" then v2FireText st (v2TextTarget st) else st

/-- One iteration of the v2 `Run` switch (src/unnamed/part_003 lines
95-110): a start element resolves global-first and pushes/invokes; char
data appends to the decoder-level buffer; an end element dispatches the
`"$text"` flush, pops unless at the top handler, and clears the
buffer. -/
def v2step (st : V2State) : Token → V2State
  | .start name attrs =>
      match (match lookupSub (getN2 st.nodes 0).subHandlers name with
             | some h => some h
             | none =>
                 if st.currentHandler ≠ 0 then
                   lookupSub (getN2 st.nodes st.currentHandler).subHandlers name
                 else none) with
      | none => st
      | some h =>
          let st₁ : V2State := { st with
            nodes := setN2 st.nodes h ({ getN2 st.nodes h with parent := st.currentHandler }),
            currentHandler := h }
          match (getN2 st₁.nodes h).callback with
          | some (.tag ℓ) => { st₁ with trace := st₁.trace ++ [.tag ℓ attrs] }
          | _ => st₁
  | .chardata s => { st with text := st.text ++ s }
  | .endElem =>
      let st₁ := v2Flush st
      let st₂ :=
        if st₁.currentHandler ≠ 0 then
          { st₁ with currentHandler := (getN2 st₁.nodes st₁.currentHandler).parent }
        else st₁
      { st₂ with text := "" }

def v2run (st : V2State) (ts : List Token) : V2State :=
  ts.foldl v2step st

/-- Counterexample to C9 as stated: on `<a>foo<b>bar</b></a>` with a
global `$text` handler (label 1) and no element handlers, the document
has two direct text runs — `"foo"` directly in `<a>` and `"bar"`
directly in `<b>` — but the handler fires exactly once, with the merged
string `"foobar"`: the v2 run loop accumulates character data in one
decoder-level buffer and flushes it only at end tags, so the handler
does not fire once per direct text run and never receives `"foo"`. -/
theorem c9_counterexample :
    (v2run (v2On v2NewDecoder "$text" (some (.text 1)))
      [.start "a" [], .chardata "foo", .start "b" [], .chardata "bar",
        .endElem, .endElem]).trace = [.text 1 "foobar"] ∧
    Event.text 1 "foo" ∉
      (v2run (v2On v2NewDecoder "$text" (some (.text 1)))
        [.start "a" [], .chardata "foo", .start "b" [], .chardata "bar",
          .endElem, .endElem]).trace := by
  decide

theorem v2step_end_trace (st : V2State) :
    (v2step st .endElem).trace = (v2Flush st).trace := by
  show (if (v2Flush st).currentHandler ≠ 0 then
      { v2Flush st with currentHandler := (getN2 (v2Flush st).nodes
        (v2Flush st).currentHandler).parent }
    else v2Flush st).trace = (v2Flush st).trace
  by_cases hc : (v2Flush st).currentHandler ≠ 0
  · rw [if_pos hc]
  · rw [if_neg hc]

theorem v2TextTarget_global {st : V2State} {g : Nat}
    (hg : lookupSub (getN2 st.nodes 0).subHandlers "$text" = some g) :
    v2TextTarget st = some g := by
  unfold v2TextTarget
  rw [hg]

theorem v2FireText_text {st : V2State} {g ℓ : Nat}
    (hcb : (getN2 st.nodes g).callback = some (.text ℓ)) :
    v2FireText st (some g) = { st with trace := st.trace ++ [.text ℓ (trimStr st.text)] } := by
  simp only [v2FireText]
  rw [hcb]

theorem v2Flush_global {st : V2State} {g ℓ : Nat}
    (hg : lookupSub (getN2 st.nodes 0).subHandlers "$text" = some g)
    (hcb : (getN2 st.nodes g).callback = some (.text ℓ)) :
    v2Flush st = if trimStr st.text ≠ "" then
      { st with trace := st.trace ++ [.text ℓ (trimStr st.text)] }
    else st := by
  unfold v2Flush
  rw [v2TextTarget_global hg, v2FireText_text hcb]

/-- The property of the amended claim C9, against the v2 model: with a
`$text` handler registered in the global (top-level) map, every end
element whose accumulated trimmed text is non-empty delivers exactly
one text invocation with the trimmed buffer to that handler, whatever
the current node is (any depth, and irrespective of scoped `$text`
entries, which are shadowed by the global one); character data only
accumulates (there is no flush before a child start tag, which is what
merges adjacent text runs); the buffer is cleared at every end
element. -/
def C9Prop (st : V2State) (g ℓ : Nat) (s : String) : Prop :=
  (lookupSub (getN2 st.nodes 0).subHandlers "$text" = some g →
    (getN2 st.nodes g).callback = some (.text ℓ) →
    (v2step st .endElem).trace = st.trace ++
      (if trimStr st.text ≠ "" then [.text ℓ (trimStr st.text)] else [])) ∧
  ((v2step st (.chardata s)).trace = st.trace ∧
   (v2step st (.chardata s)).text = st.text ++ s) ∧
  ((v2step st .endElem).text = "")

/-- C9 (amended): in the v2 variant, a `$text` handler registered
directly under the root fires at every end-tag flush point with
non-empty trimmed text, at any depth, and is never intercepted by a
scoped `$text` handler (the global map is consulted first); text runs
not separated by an end tag are merged into a single invocation. -/
theorem c9_amended_global_text (st : V2State) (g ℓ : Nat) (s : String) :
    C9Prop st g ℓ s := by
  refine ⟨?_, ⟨rfl, rfl⟩, rfl⟩
  intro hg hcb
  rw [v2step_end_trace, v2Flush_global hg hcb]
  by_cases ht : trimStr st.text ≠ ""
  · rw [if_pos ht, if_pos ht]
  · rw [if_neg ht, if_neg ht]
    rw [List.append_nil]

/-- Witness for the amended C9: the counterexample decoder, one end
element deep inside the document, with pending text `" bar "`. -/
theorem c9_amended_global_text_witness :
    (v2step { v2On v2NewDecoder "$text" (some (.text 1)) with text := " bar " }
        .endElem).trace
      = ({ v2On v2NewDecoder "$text" (some (.text 1)) with text := " bar " } : V2State).trace ++
        (if trimStr (" bar " : String) ≠ "" then [.text 1 (trimStr " bar ")] else []) :=
  (c9_amended_global_text
    ({ v2On v2NewDecoder "$text" (some (.text 1)) with text := " bar " }) 1 1 "x").1
    (by decide) (by decide)

/-! ## Claim C5: path registration vs nested registration

The path side registers `"a/b/c"` at the top level with a terminal
callback observing label `ℓ`.  The nested side registers `"a"` at the
top level with a callback that (observing nothing) registers `"b"`,
whose callback in turn registers `"c"` with the same terminal callback.
The two decoders are related by a bisimulation: every nested-side node
beyond the sentinel and the `a` node is a copy of the `b` or `c` node
of the path side, recognisable by its stored callback, and the two runs
produce identical traces on every token list. -/

/-- The terminal callback of the registration, observing label `ℓ`. -/
def cbC (ℓ : Nat) : Cb := .mk (some ℓ) []

/-- The nested variant's `b` callback: observes nothing and registers
`"c"` with the terminal callback, as the claim's nested registration
discipline prescribes. -/
def cbB (ℓ : Nat) : Cb := .mk none [.onTag "c" (cbC ℓ)]

/-- The nested variant's `a` callback: observes nothing and registers
`"b"`. -/
def cbA (ℓ : Nat) : Cb := .mk none [.onTag "b" (cbB ℓ)]

/-- The path-side decoder: `d.On("a/b/c", terminal)` on a fresh
decoder. -/
def pathSetup (ℓ : Nat) : DState := runRegs NewDecoder [.onTag "a/b/c" (cbC ℓ)]

/-- The nested-side decoder: `d.On("a", func() { d.On("b", func() {
d.On("c", terminal) }) })` on a fresh decoder. -/
def nestedSetup (ℓ : Nat) : DState := runRegs NewDecoder [.onTag "a" (cbA ℓ)]

/-- The general shape of the path-side arena during a run: the `a/b/c`
chain is fixed; only the `a` node's parent pointer (reassigned at each
`a` push) and the text buffers vary. -/
def pArena (ℓ q1 : Nat) (t0 t1 t2 t3 : String) : List Handler :=
  [ { subHandlers := [("a", 1)], text := t0 },
    { subHandlers := [("b", 2)], parentHandler := q1, text := t1 },
    { subHandlers := [("c", 3)], parentHandler := 1, text := t2 },
    { tagCallback := some (cbC ℓ), parentHandler := 2, text := t3 } ]

theorem pathSetup_eq (ℓ : Nat) :
    pathSetup ℓ = { nodes := pArena ℓ 0 "" "" "" "", currentHandler := 0 } := rfl

theorem nestedSetup_eq (ℓ : Nat) :
    nestedSetup ℓ =
      { nodes := [ { subHandlers := [("a", 1)] },
                   { tagCallback := some (cbA ℓ) } ],
        currentHandler := 0 } := rfl

/-- The role of a nested-side node: `0` and `1` are the sentinel and
the `a` node; any other node is a copy of the path side's `c` node when
its stored callback carries an observation label, and a copy of the `b`
node otherwise. -/
def c5Role (nodes : List Handler) (j : Nat) : Nat :=
  if j = 0 then 0
  else if j = 1 then 1
  else match (getN nodes j).tagCallback with
    | some (.mk (some _) _) => 3
    | _ => 2

/-- `j` is a nested-side copy of the path `b` node. -/
def isB (ℓ : Nat) (nodes : List Handler) (j : Nat) : Prop :=
  2 ≤ j ∧ j < nodes.length ∧ (getN nodes j).tagCallback = some (cbB ℓ)

/-- `j` is a nested-side copy of the path `c` node. -/
def isC (ℓ : Nat) (nodes : List Handler) (j : Nat) : Prop :=
  2 ≤ j ∧ j < nodes.length ∧ (getN nodes j).tagCallback = some (cbC ℓ)

/-- A `b` copy whose callback has run: its children map holds exactly a
`c` copy whose parent pointer is the `b` copy itself. -/
def actB (ℓ : Nat) (nodes : List Handler) (b : Nat) : Prop :=
  ∃ c, (getN nodes b).subHandlers = [("c", c)] ∧ isC ℓ nodes c ∧
    (getN nodes c).parentHandler = b

/-- The `a` node after its callback has run at least once: its children
map holds exactly the latest `b` copy. -/
def act1 (ℓ : Nat) (nodes : List Handler) : Prop :=
  ∃ b, (getN nodes 1).subHandlers = [("b", b)] ∧ isB ℓ nodes b

/-- Activation of a node required whenever it can become current: the
`a` node must have its `b` entry installed, and a `b` copy must have
its `c` entry installed. -/
def actAt (ℓ : Nat) (nodes : List Handler) (j : Nat) : Prop :=
  (j = 1 → act1 ℓ nodes) ∧ (isB ℓ nodes j → actB ℓ nodes j)

/-- The shape invariant of the nested-side arena. -/
structure NShape (ℓ : Nat) (nodes : List Handler) : Prop where
  len2 : 2 ≤ nodes.length
  top_textCb : (getN nodes 0).textCallback = none
  top_subs : (getN nodes 0).subHandlers = [("a", 1)]
  a_tagCb : (getN nodes 1).tagCallback = some (cbA ℓ)
  a_textCb : (getN nodes 1).textCallback = none
  a_subs : (getN nodes 1).subHandlers = [] ∨ act1 ℓ nodes
  a_act : 3 ≤ nodes.length → act1 ℓ nodes
  rest : ∀ j, 2 ≤ j → j < nodes.length →
    (getN nodes j).textCallback = none ∧
    (isB ℓ nodes j ∨ isC ℓ nodes j) ∧
    (isB ℓ nodes j → (getN nodes j).parentHandler = 1 ∧
      ((getN nodes j).subHandlers = [] ∨ actB ℓ nodes j)) ∧
    (isC ℓ nodes j → (getN nodes j).subHandlers = [] ∧
      isB ℓ nodes ((getN nodes j).parentHandler) ∧
      actB ℓ nodes ((getN nodes j).parentHandler))

/-- The bisimulation between a path-side state `sp` and a nested-side
state `sn`: the path arena has its fixed shape with the `a` parent slot
holding the role of the nested `a` parent slot, the nested arena
satisfies the shape invariant, the parent of `a` and the current node
are in range, activated, and role-related, and the traces agree. -/
structure C5Inv (ℓ : Nat) (sp sn : DState) : Prop where
  pshape : ∃ t0 t1 t2 t3,
    sp.nodes = pArena ℓ (c5Role sn.nodes ((getN sn.nodes 1).parentHandler)) t0 t1 t2 t3
  nshape : NShape ℓ sn.nodes
  p1act : actAt ℓ sn.nodes ((getN sn.nodes 1).parentHandler)
  p1lt : (getN sn.nodes 1).parentHandler < sn.nodes.length
  curlt : sn.currentHandler < sn.nodes.length
  currole : c5Role sn.nodes sn.currentHandler = sp.currentHandler
  curact : actAt ℓ sn.nodes sn.currentHandler
  traceeq : sn.trace = sp.trace

theorem cbB_ne_cbC (ℓ ℓ' : Nat) : cbB ℓ ≠ cbC ℓ' := by
  intro h
  rw [cbB, cbC] at h
  injection h with h1 h2
  exact Option.noConfusion h1

theorem c5Role_zero (nodes : List Handler) : c5Role nodes 0 = 0 := rfl

theorem c5Role_one (nodes : List Handler) : c5Role nodes 1 = 1 := rfl

theorem c5Role_congr {n n' : List Handler} {j : Nat}
    (hTag : (getN n' j).tagCallback = (getN n j).tagCallback) :
    c5Role n' j = c5Role n j := by
  unfold c5Role
  rw [hTag]

theorem c5Role_of_isB {ℓ : Nat} {nodes : List Handler} {j : Nat} (hb : isB ℓ nodes j) :
    c5Role nodes j = 2 := by
  have h2 : 2 ≤ j := hb.1
  unfold c5Role
  rw [if_neg (by omega), if_neg (by omega), hb.2.2]
  rfl

theorem c5Role_of_isC {ℓ : Nat} {nodes : List Handler} {j : Nat} (hc : isC ℓ nodes j) :
    c5Role nodes j = 3 := by
  have h2 : 2 ≤ j := hc.1
  unfold c5Role
  rw [if_neg (by omega), if_neg (by omega), hc.2.2]
  rfl

theorem isB_not_isC {ℓ : Nat} {nodes : List Handler} {j : Nat}
    (hb : isB ℓ nodes j) (hc : isC ℓ nodes j) : False := by
  have h := hb.2.2.symm.trans hc.2.2
  exact cbB_ne_cbC ℓ ℓ (Option.some.inj h)

theorem isB_ne_one {ℓ : Nat} {nodes : List Handler} {j : Nat} (hb : isB ℓ nodes j) :
    j ≠ 1 := by
  have := hb.1; omega

theorem isC_ne_one {ℓ : Nat} {nodes : List Handler} {j : Nat} (hc : isC ℓ nodes j) :
    j ≠ 1 := by
  have := hc.1; omega

/-- Writing a node's own value back is the identity. -/
theorem setN_getN_self : ∀ (l : List Handler) (i : Nat), setN l i (getN l i) = l
  | [], _ => rfl
  | _ :: _, 0 => rfl
  | x :: xs, i + 1 => by
      show x :: setN xs i (getN (x :: xs) (i + 1)) = x :: xs
      rw [getN_cons_succ, setN_getN_self xs i]

theorem setPar_self {x : Handler} {p : Nat} (hp : x.parentHandler = p) :
    { x with parentHandler := p } = x := by
  rw [← hp]

theorem lookupSub_single (k : String) (v : Nat) (key : String) :
    lookupSub [(k, v)] key = if k = key then some v else none := rfl

theorem setSub_single_b (m : List (String × Nat)) (b v : Nat)
    (hm : m = [] ∨ ∃ x, m = [("b", x)] ∧ x = b) : setSub m "b" v = [("b", v)] := by
  rcases hm with hm | ⟨x, hm, _⟩ <;> rw [hm] <;> simp [setSub]

theorem setSub_single_c (m : List (String × Nat)) (v : Nat)
    (hm : m = [] ∨ ∃ x, m = [("c", x)]) : setSub m "c" v = [("c", v)] := by
  rcases hm with hm | ⟨x, hm⟩ <;> rw [hm] <;> simp [setSub]

theorem resolve_eq_global {st : DState} {name : String} {h : Nat}
    (hg : lookupSub (getN st.nodes 0).subHandlers name = some h) :
    resolve st name = some h := by
  unfold resolve
  rw [hg]

theorem resolve_eq_scoped {st : DState} {name : String}
    (hg : lookupSub (getN st.nodes 0).subHandlers name = none)
    (hc : st.currentHandler ≠ 0) :
    resolve st name = lookupSub (getN st.nodes st.currentHandler).subHandlers name := by
  unfold resolve
  rw [hg, if_pos hc]

theorem resolve_eq_top {st : DState} {name : String}
    (hg : lookupSub (getN st.nodes 0).subHandlers name = none)
    (hc : st.currentHandler = 0) :
    resolve st name = none := by
  unfold resolve
  rw [hg, if_neg (by simp [hc])]

/-- The arena produced by a single-segment `On` registration: the fresh
terminal node carrying the callback is appended and stored in the
current node's map. -/
def regSingle (nodes : List Handler) (cur : Nat) (name : String) (cb : Cb) : List Handler :=
  setN (withSub (nodes ++ [{ parentHandler := cur }]) cur name nodes.length) nodes.length
    ({ getN (withSub (nodes ++ [{ parentHandler := cur }]) cur name nodes.length) nodes.length
        with tagCallback := some cb })

theorem applyReg_onTag_single (st : DState) (name : String) (cb : Cb)
    (hs : splitPath name = [name]) :
    applyReg st (.onTag name cb) =
      { st with nodes := regSingle st.nodes st.currentHandler name cb } := by
  have hloop : installLoop st.nodes [name] 0 0 st.currentHandler =
      (withSub (st.nodes ++ [{ parentHandler := st.currentHandler }]) st.currentHandler name st.nodes.length, st.nodes.length) := by
    rw [installLoop_cons_none (by simp) []]
    rfl
  have hinst : installHandlers st name =
      ({ st with nodes := (installLoop st.nodes [name] 0 0 st.currentHandler).1 }, (installLoop st.nodes [name] 0 0 st.currentHandler).2) := by
    unfold installHandlers
    rw [hs]
    rfl
  show (let r := installHandlers st name
        { r.1 with nodes := setN r.1.nodes r.2 ({ getN r.1.nodes r.2 with tagCallback := some cb }) }) = _
  rw [hinst, hloop]
  rfl

theorem regSingle_spec (nodes : List Handler) (cur : Nat) (name : String) (cb : Cb)
    (hcur : cur < nodes.length) :
    (regSingle nodes cur name cb).length = nodes.length + 1 ∧
    getN (regSingle nodes cur name cb) nodes.length =
      { tagCallback := some cb, parentHandler := cur } ∧
    (getN (regSingle nodes cur name cb) cur).tagCallback = (getN nodes cur).tagCallback ∧
    (getN (regSingle nodes cur name cb) cur).textCallback = (getN nodes cur).textCallback ∧
    (getN (regSingle nodes cur name cb) cur).parentHandler = (getN nodes cur).parentHandler ∧
    (getN (regSingle nodes cur name cb) cur).subHandlers =
      setSub (getN nodes cur).subHandlers name nodes.length ∧
    (∀ j, j < nodes.length → j ≠ cur → getN (regSingle nodes cur name cb) j = getN nodes j) := by
  have hne : cur ≠ nodes.length := by omega
  have hlenA : (withSub (nodes ++ [{ parentHandler := cur }]) cur name nodes.length).length
      = nodes.length + 1 := by
    rw [length_withSub, List.length_append, List.length_singleton]
  have hAlen : getN (withSub (nodes ++ [{ parentHandler := cur }]) cur name nodes.length)
      nodes.length = { parentHandler := cur } := by
    rw [getN_withSub_ne _ _ hne, getN_append_len]
  have hAcur : getN (withSub (nodes ++ [{ parentHandler := cur }]) cur name nodes.length) cur
      = { getN nodes cur with subHandlers := setSub (getN nodes cur).subHandlers name nodes.length } := by
    rw [getN_withSub_self _ _ (by rw [List.length_append, List.length_singleton]; omega),
      getN_append_lt hcur]
  have hAj : ∀ j, j < nodes.length → j ≠ cur →
      getN (withSub (nodes ++ [{ parentHandler := cur }]) cur name nodes.length) j
        = getN nodes j := by
    intro j hj hjc
    rw [getN_withSub_ne _ _ (fun h => hjc h.symm), getN_append_lt hj]
  refine ⟨?_, ?_, ?_, ?_, ?_, ?_, ?_⟩
  · rw [regSingle, length_setN, hlenA]
  · rw [regSingle, getN_setN_self _ (by rw [hlenA]; omega), hAlen]
  · rw [regSingle, getN_setN_ne _ (Ne.symm hne), hAcur]
  · rw [regSingle, getN_setN_ne _ (Ne.symm hne), hAcur]
  · rw [regSingle, getN_setN_ne _ (Ne.symm hne), hAcur]
  · rw [regSingle, getN_setN_ne _ (Ne.symm hne), hAcur]
  · intro j hj hjc
    rw [regSingle, getN_setN_ne _ (by omega), hAj j hj hjc]

/-- Two handler nodes agreeing on every field except possibly the text
buffer. -/
def sameSkel (a b : Handler) : Prop :=
  a.tagCallback = b.tagCallback ∧ a.textCallback = b.textCallback ∧
    a.subHandlers = b.subHandlers ∧ a.parentHandler = b.parentHandler

theorem sameSkel_refl (a : Handler) : sameSkel a a := ⟨rfl, rfl, rfl, rfl⟩

/-- Overwriting one node's text buffer changes no length and no
skeleton. -/
theorem textChange_skel (nodes : List Handler) (i : Nat) (s : String) :
    (setN nodes i ({ getN nodes i with text := s })).length = nodes.length ∧
    ∀ j, sameSkel (getN (setN nodes i ({ getN nodes i with text := s })) j) (getN nodes j) := by
  refine ⟨length_setN _ _ _, fun j => ?_⟩
  by_cases hij : i = j
  · subst hij
    by_cases hi : i < nodes.length
    · rw [getN_setN_self _ hi]
      exact ⟨rfl, rfl, rfl, rfl⟩
    · rw [setN_ge _ _ _ (by omega)]
      exact sameSkel_refl _
  · rw [getN_setN_ne _ hij]
    exact sameSkel_refl _

theorem isB_skel {ℓ : Nat} {n n' : List Handler} {j : Nat}
    (hlen : n'.length = n.length) (hsk : ∀ k, sameSkel (getN n' k) (getN n k))
    (h : isB ℓ n j) : isB ℓ n' j :=
  ⟨h.1, by rw [hlen]; exact h.2.1, by rw [(hsk j).1]; exact h.2.2⟩

theorem isC_skel {ℓ : Nat} {n n' : List Handler} {j : Nat}
    (hlen : n'.length = n.length) (hsk : ∀ k, sameSkel (getN n' k) (getN n k))
    (h : isC ℓ n j) : isC ℓ n' j :=
  ⟨h.1, by rw [hlen]; exact h.2.1, by rw [(hsk j).1]; exact h.2.2⟩

theorem actB_skel {ℓ : Nat} {n n' : List Handler} {b : Nat}
    (hlen : n'.length = n.length) (hsk : ∀ k, sameSkel (getN n' k) (getN n k))
    (h : actB ℓ n b) : actB ℓ n' b := by
  obtain ⟨c, hsubs, hc, hpar⟩ := h
  exact ⟨c, by rw [(hsk b).2.2.1]; exact hsubs, isC_skel hlen hsk hc,
    by rw [(hsk c).2.2.2]; exact hpar⟩

theorem act1_skel {ℓ : Nat} {n n' : List Handler}
    (hlen : n'.length = n.length) (hsk : ∀ k, sameSkel (getN n' k) (getN n k))
    (h : act1 ℓ n) : act1 ℓ n' := by
  obtain ⟨b, hsubs, hb⟩ := h
  exact ⟨b, by rw [(hsk 1).2.2.1]; exact hsubs, isB_skel hlen hsk hb⟩

theorem isB_skel_rev {ℓ : Nat} {n n' : List Handler} {j : Nat}
    (hlen : n'.length = n.length) (hsk : ∀ k, sameSkel (getN n' k) (getN n k))
    (h : isB ℓ n' j) : isB ℓ n j :=
  ⟨h.1, by rw [← hlen]; exact h.2.1, by rw [← (hsk j).1]; exact h.2.2⟩

theorem actAt_skel {ℓ : Nat} {n n' : List Handler} {j : Nat}
    (hlen : n'.length = n.length) (hsk : ∀ k, sameSkel (getN n' k) (getN n k))
    (h : actAt ℓ n j) : actAt ℓ n' j :=
  ⟨fun h1 => act1_skel hlen hsk (h.1 h1),
   fun hb => actB_skel hlen hsk (h.2 (isB_skel_rev hlen hsk hb))⟩

theorem NShape_skel {ℓ : Nat} {n n' : List Handler}
    (hlen : n'.length = n.length) (hsk : ∀ k, sameSkel (getN n' k) (getN n k))
    (h : NShape ℓ n) : NShape ℓ n' := by
  refine ⟨by rw [hlen]; exact h.len2,
    by rw [(hsk 0).2.1]; exact h.top_textCb,
    by rw [(hsk 0).2.2.1]; exact h.top_subs,
    by rw [(hsk 1).1]; exact h.a_tagCb,
    by rw [(hsk 1).2.1]; exact h.a_textCb,
    ?_, fun h3 => act1_skel hlen hsk (h.a_act (by rw [← hlen]; exact h3)), ?_⟩
  · rcases h.a_subs with hs | hs
    · exact Or.inl (by rw [(hsk 1).2.2.1]; exact hs)
    · exact Or.inr (act1_skel hlen hsk hs)
  · intro j h2 hj
    obtain ⟨htc, hbc, hB, hC⟩ := h.rest j h2 (by rw [← hlen]; exact hj)
    refine ⟨by rw [(hsk j).2.1]; exact htc, ?_, ?_, ?_⟩
    · rcases hbc with hb | hc
      · exact Or.inl (isB_skel hlen hsk hb)
      · exact Or.inr (isC_skel hlen hsk hc)
    · intro hb
      obtain ⟨hp, hs⟩ := hB (isB_skel_rev hlen hsk hb)
      refine ⟨by rw [(hsk j).2.2.2]; exact hp, ?_⟩
      rcases hs with hs | hs
      · exact Or.inl (by rw [(hsk j).2.2.1]; exact hs)
      · exact Or.inr (actB_skel hlen hsk hs)
    · intro hc
      have hc₀ : isC ℓ n j :=
        ⟨hc.1, by rw [← hlen]; exact hc.2.1, by rw [← (hsk j).1]; exact hc.2.2⟩
      obtain ⟨hs, hpb, hpa⟩ := hC hc₀
      refine ⟨by rw [(hsk j).2.2.1]; exact hs, ?_, ?_⟩
      · rw [(hsk j).2.2.2]
        exact isB_skel hlen hsk hpb
      · rw [(hsk j).2.2.2]
        exact actB_skel hlen hsk hpa

/-- Transfers of the role predicates along arena extensions that keep
every old tag callback, and — where needed — old parents and maps of
non-sentinel, non-`a` nodes. -/
theorem isB_mono {ℓ : Nat} {n n' : List Handler} {j : Nat}
    (hlen : n.length ≤ n'.length)
    (hTag : ∀ k, k < n.length → (getN n' k).tagCallback = (getN n k).tagCallback)
    (h : isB ℓ n j) : isB ℓ n' j :=
  ⟨h.1, lt_of_lt_of_le h.2.1 hlen, by rw [hTag j h.2.1]; exact h.2.2⟩

theorem isC_mono {ℓ : Nat} {n n' : List Handler} {j : Nat}
    (hlen : n.length ≤ n'.length)
    (hTag : ∀ k, k < n.length → (getN n' k).tagCallback = (getN n k).tagCallback)
    (h : isC ℓ n j) : isC ℓ n' j :=
  ⟨h.1, lt_of_lt_of_le h.2.1 hlen, by rw [hTag j h.2.1]; exact h.2.2⟩

theorem actB_mono {ℓ : Nat} {n n' : List Handler} {b : Nat}
    (hlen : n.length ≤ n'.length)
    (hTag : ∀ k, k < n.length → (getN n' k).tagCallback = (getN n k).tagCallback)
    (hPar : ∀ k, k < n.length → 2 ≤ k → (getN n' k).parentHandler = (getN n k).parentHandler)
    (hbsubs : (getN n' b).subHandlers = (getN n b).subHandlers)
    (h : actB ℓ n b) : actB ℓ n' b := by
  obtain ⟨c, hsubs, hc, hpar⟩ := h
  exact ⟨c, by rw [hbsubs]; exact hsubs, isC_mono hlen hTag hc,
    by rw [hPar c hc.2.1 hc.1]; exact hpar⟩

theorem act1_mono {ℓ : Nat} {n n' : List Handler}
    (hlen : n.length ≤ n'.length)
    (hTag : ∀ k, k < n.length → (getN n' k).tagCallback = (getN n k).tagCallback)
    (h1subs : (getN n' 1).subHandlers = (getN n 1).subHandlers)
    (h : act1 ℓ n) : act1 ℓ n' := by
  obtain ⟨b, hsubs, hb⟩ := h
  exact ⟨b, by rw [h1subs]; exact hsubs, isB_mono hlen hTag hb⟩

/-- The path arena has no text callbacks anywhere. -/
theorem pArena_textCb (ℓ q1 : Nat) (t0 t1 t2 t3 : String) (j : Nat) :
    (getN (pArena ℓ q1 t0 t1 t2 t3) j).textCallback = none := by
  match j with
  | 0 => rfl
  | 1 => rfl
  | 2 => rfl
  | 3 => rfl
  | n + 4 =>
      rw [getN_default (by simp [pArena])]

/-- The nested arena has no text callbacks anywhere. -/
theorem NShape_textCb {ℓ : Nat} {nodes : List Handler} (h : NShape ℓ nodes) (j : Nat) :
    (getN nodes j).textCallback = none := by
  by_cases hj : j < nodes.length
  · match j with
    | 0 => exact h.top_textCb
    | 1 => exact h.a_textCb
    | n + 2 => exact (h.rest (n + 2) (by omega) hj).1
  · rw [getN_default (by omega)]

/-- Overwriting a text buffer in the path arena stays in the path
arena family. -/
theorem pArena_textChange (ℓ q1 : Nat) (t0 t1 t2 t3 : String) (i : Nat) (s : String) :
    ∃ u0 u1 u2 u3, setN (pArena ℓ q1 t0 t1 t2 t3) i
      ({ getN (pArena ℓ q1 t0 t1 t2 t3) i with text := s }) = pArena ℓ q1 u0 u1 u2 u3 := by
  match i with
  | 0 => exact ⟨s, t1, t2, t3, rfl⟩
  | 1 => exact ⟨t0, s, t2, t3, rfl⟩
  | 2 => exact ⟨t0, t1, s, t3, rfl⟩
  | 3 => exact ⟨t0, t1, t2, s, rfl⟩
  | n + 4 => exact ⟨t0, t1, t2, t3, setN_ge _ _ _ (by simp [pArena])⟩

/-- Rewrite the current node's text buffer through `f` (the common
form of the chardata append and the `handleText` clear). -/
def textSet (st : DState) (f : String → String) : DState :=
  { st with nodes := setN st.nodes st.currentHandler ({ getN st.nodes st.currentHandler with text := f (getN st.nodes st.currentHandler).text }) }

theorem c5_textSet (ℓ : Nat) (sp sn : DState) (h : C5Inv ℓ sp sn) (f : String → String) :
    C5Inv ℓ (textSet sp f) (textSet sn f) := by
  obtain ⟨t0, t1, t2, t3, hsp⟩ := h.pshape
  obtain ⟨hlenN, hskN⟩ := textChange_skel sn.nodes sn.currentHandler
    (f (getN sn.nodes sn.currentHandler).text)
  have hlenN' : (textSet sn f).nodes.length = sn.nodes.length := hlenN
  have hskN' : ∀ k, sameSkel (getN (textSet sn f).nodes k) (getN sn.nodes k) := hskN
  have hp1' : (getN (textSet sn f).nodes 1).parentHandler
      = (getN sn.nodes 1).parentHandler := (hskN' 1).2.2.2
  have hrole1 : c5Role (textSet sn f).nodes ((getN (textSet sn f).nodes 1).parentHandler)
      = c5Role sn.nodes ((getN sn.nodes 1).parentHandler) := by
    rw [hp1']
    exact c5Role_congr (hskN' _).1
  refine ⟨?_, NShape_skel hlenN' hskN' h.nshape, ?_, ?_, ?_, ?_, ?_, ?_⟩
  · obtain ⟨u0, u1, u2, u3, hu⟩ := pArena_textChange ℓ
      (c5Role sn.nodes ((getN sn.nodes 1).parentHandler)) t0 t1 t2 t3 sp.currentHandler
      (f (getN (pArena ℓ (c5Role sn.nodes ((getN sn.nodes 1).parentHandler)) t0 t1 t2 t3) sp.currentHandler).text)
    refine ⟨u0, u1, u2, u3, ?_⟩
    show setN sp.nodes sp.currentHandler ({ getN sp.nodes sp.currentHandler with text := f (getN sp.nodes sp.currentHandler).text }) = _
    rw [hrole1, hsp]
    exact hu
  · rw [hp1']
    exact actAt_skel hlenN' hskN' h.p1act
  · rw [hp1', hlenN']
    exact h.p1lt
  · show sn.currentHandler < (textSet sn f).nodes.length
    rw [hlenN']
    exact h.curlt
  · exact (c5Role_congr (hskN' sn.currentHandler).1).trans h.currole
  · exact actAt_skel hlenN' hskN' h.curact
  · exact h.traceeq

theorem c5_handleText (ℓ : Nat) (sp sn : DState) (h : C5Inv ℓ sp sn) :
    C5Inv ℓ (handleText sp) (handleText sn) := by
  have hp : (getN sp.nodes sp.currentHandler).textCallback = none := by
    obtain ⟨t0, t1, t2, t3, hsp⟩ := h.pshape
    rw [hsp]
    exact pArena_textCb _ _ _ _ _ _ _
  have hn : (getN sn.nodes sn.currentHandler).textCallback = none :=
    NShape_textCb h.nshape _
  rw [handleText_eq_none hp, handleText_eq_none hn]
  exact c5_textSet ℓ sp sn h (fun _ => "")

theorem c5_chardata (ℓ : Nat) (sp sn : DState) (h : C5Inv ℓ sp sn) (s : String) :
    C5Inv ℓ (step sp (.chardata s)) (step sn (.chardata s)) := by
  rw [step_chardata_eq, step_chardata_eq]
  exact c5_textSet ℓ sp sn h (fun t => t ++ s)

theorem c5Role_pos {nodes : List Handler} {j : Nat} (hj : j ≠ 0) : c5Role nodes j ≠ 0 := by
  by_cases h1 : j = 1
  · rw [h1, c5Role_one]; omega
  · unfold c5Role
    rw [if_neg hj, if_neg h1]
    rcases (getN nodes j).tagCallback with _ | ⟨_ | _, _⟩
    · show (2 : Nat) ≠ 0
      omega
    · show (2 : Nat) ≠ 0
      omega
    · show (3 : Nat) ≠ 0
      omega

theorem c5_pop (ℓ : Nat) (sp sn : DState) (h : C5Inv ℓ sp sn) :
    C5Inv ℓ
      (if sp.currentHandler ≠ 0 then
        { sp with currentHandler := (getN sp.nodes sp.currentHandler).parentHandler }
      else sp)
      (if sn.currentHandler ≠ 0 then
        { sn with currentHandler := (getN sn.nodes sn.currentHandler).parentHandler }
      else sn) := by
  by_cases h0 : sn.currentHandler = 0
  · have hspc : sp.currentHandler = 0 := by
      rw [← h.currole, h0, c5Role_zero]
    rw [if_neg (fun hc => hc hspc), if_neg (fun hc => hc h0)]
    exact h
  · have hspc0 : sp.currentHandler ≠ 0 := by
      rw [← h.currole]
      exact c5Role_pos h0
    rw [if_pos hspc0, if_pos h0]
    obtain ⟨t0, t1, t2, t3, hsp⟩ := h.pshape
    by_cases h1 : sn.currentHandler = 1
    · have hspc : sp.currentHandler = 1 := by
        rw [← h.currole, h1, c5Role_one]
      refine ⟨⟨t0, t1, t2, t3, hsp⟩, h.nshape, h.p1act, h.p1lt, ?_, ?_, ?_, h.traceeq⟩
      · rw [h1]
        exact h.p1lt
      · rw [h1]
        show c5Role sn.nodes ((getN sn.nodes 1).parentHandler)
          = (getN sp.nodes sp.currentHandler).parentHandler
        rw [hspc, hsp]
        rfl
      · rw [h1]
        exact h.p1act
    · have h2 : 2 ≤ sn.currentHandler := by omega
      obtain ⟨htc, hbc, hB, hC⟩ := h.nshape.rest sn.currentHandler h2 h.curlt
      rcases hbc with hb | hc
      · have hspc : sp.currentHandler = 2 := by
          rw [← h.currole, c5Role_of_isB hb]
        have hpar : (getN sn.nodes sn.currentHandler).parentHandler = 1 := (hB hb).1
        refine ⟨⟨t0, t1, t2, t3, hsp⟩, h.nshape, h.p1act, h.p1lt, ?_, ?_, ?_, h.traceeq⟩
        · show (getN sn.nodes sn.currentHandler).parentHandler < sn.nodes.length
          rw [hpar]
          have := h.nshape.len2
          omega
        · show c5Role sn.nodes ((getN sn.nodes sn.currentHandler).parentHandler)
            = (getN sp.nodes sp.currentHandler).parentHandler
          rw [hpar, c5Role_one, hspc, hsp]
          rfl
        · show actAt ℓ sn.nodes ((getN sn.nodes sn.currentHandler).parentHandler)
          rw [hpar]
          refine ⟨fun _ => h.nshape.a_act ?_, fun hb1 => absurd hb1.1 (by omega)⟩
          have := hb.1
          have := hb.2.1
          omega
      · have hspc : sp.currentHandler = 3 := by
          rw [← h.currole, c5Role_of_isC hc]
        obtain ⟨hsubs, hpb, hpa⟩ := hC hc
        refine ⟨⟨t0, t1, t2, t3, hsp⟩, h.nshape, h.p1act, h.p1lt, ?_, ?_, ?_, h.traceeq⟩
        · show (getN sn.nodes sn.currentHandler).parentHandler < sn.nodes.length
          exact hpb.2.1
        · show c5Role sn.nodes ((getN sn.nodes sn.currentHandler).parentHandler)
            = (getN sp.nodes sp.currentHandler).parentHandler
          rw [c5Role_of_isB hpb, hspc, hsp]
          rfl
        · exact ⟨fun hb1 => absurd hb1 (isB_ne_one hpb), fun _ => hpa⟩

theorem c5_end (ℓ : Nat) (sp sn : DState) (h : C5Inv ℓ sp sn) :
    C5Inv ℓ (step sp .endElem) (step sn .endElem) := by
  rw [step_end_eq, step_end_eq]
  exact c5_pop ℓ (handleText sp) (handleText sn) (c5_handleText ℓ sp sn h)

theorem pushAndInvoke_eq (st : DState) (h : Nat) (attrs : Attrs) :
    pushAndInvoke st h attrs = invokeCb { st with nodes := setN st.nodes h ({ getN st.nodes h with parentHandler := st.currentHandler }), currentHandler := h } (getN (setN st.nodes h ({ getN st.nodes h with parentHandler := st.currentHandler })) h).tagCallback attrs := rfl

theorem c5_push_a (ℓ : Nat) (sp sn : DState) (h : C5Inv ℓ sp sn) (attrs : Attrs) :
    C5Inv ℓ (handleTag sp "a" attrs) (handleTag sn "a" attrs) := by
  obtain ⟨t0, t1, t2, t3, hsp⟩ := h.pshape
  have hlen2 := h.nshape.len2
  have hrp : resolve sp "a" = some 1 := resolve_eq_global (by rw [hsp]; rfl)
  have hrn : resolve sn "a" = some 1 :=
    resolve_eq_global (by rw [h.nshape.top_subs]; rfl)
  rw [handleTag_eq_some attrs hrp, handleTag_eq_some attrs hrn]
  have hsetp : setN sp.nodes 1 ({ getN sp.nodes 1 with parentHandler := sp.currentHandler }) = pArena ℓ sp.currentHandler t0 t1 t2 t3 := by
    rw [hsp]
    rfl
  have hppush : pushAndInvoke sp 1 attrs = { sp with nodes := pArena ℓ sp.currentHandler t0 t1 t2 t3, currentHandler := 1 } := by
    rw [pushAndInvoke_eq, hsetp]
    rfl
  obtain ⟨n₁, hn₁⟩ : ∃ x, setN sn.nodes 1 ({ getN sn.nodes 1 with parentHandler := sn.currentHandler }) = x := ⟨_, rfl⟩
  have hlen₁ : n₁.length = sn.nodes.length := by rw [← hn₁, length_setN]
  have hg11 : getN n₁ 1 = { getN sn.nodes 1 with parentHandler := sn.currentHandler } := by
    rw [← hn₁]
    exact getN_setN_self _ (by omega)
  have hg1ne : ∀ j, j ≠ 1 → getN n₁ j = getN sn.nodes j := by
    intro j hj
    rw [← hn₁]
    exact getN_setN_ne _ (fun hc => hj hc.symm)
  have hcb1 : (getN n₁ 1).tagCallback = some (cbA ℓ) := by
    rw [hg11]
    exact h.nshape.a_tagCb
  have hnpush : pushAndInvoke sn 1 attrs = applyReg { sn with nodes := n₁, currentHandler := 1 } (.onTag "b" (cbB ℓ)) := by
    rw [pushAndInvoke_eq, hn₁, hcb1]
    rfl
  obtain ⟨n₂, hn₂⟩ : ∃ x, regSingle n₁ 1 "b" (cbB ℓ) = x := ⟨_, rfl⟩
  have happ : applyReg { sn with nodes := n₁, currentHandler := 1 } (.onTag "b" (cbB ℓ)) = { sn with nodes := n₂, currentHandler := 1 } := by
    rw [applyReg_onTag_single _ _ _ (by decide)]
    show { sn with nodes := regSingle n₁ 1 "b" (cbB ℓ), currentHandler := 1 } = _
    rw [hn₂]
  rw [hppush, hnpush, happ]
  have hspec := regSingle_spec n₁ 1 "b" (cbB ℓ) (by rw [hlen₁]; omega)
  rw [hn₂, hlen₁] at hspec
  obtain ⟨r1, r2, r3, r4, r5, r6, r7⟩ := hspec
  have heq : ∀ j, j < sn.nodes.length → j ≠ 1 → getN n₂ j = getN sn.nodes j := by
    intro j hj hj1
    rw [r7 j hj hj1, hg1ne j hj1]
  have hTag : ∀ k, k < sn.nodes.length → (getN n₂ k).tagCallback = (getN sn.nodes k).tagCallback := by
    intro k hk
    by_cases hk1 : k = 1
    · subst hk1
      rw [r3, hg11]
    · rw [heq k hk hk1]
  have hlenle : sn.nodes.length ≤ n₂.length := by rw [r1]; omega
  have hPar2 : ∀ k, k < sn.nodes.length → 2 ≤ k → (getN n₂ k).parentHandler = (getN sn.nodes k).parentHandler := by
    intro k hk h2
    rw [heq k hk (by omega)]
  have ha1tag : (getN n₂ 1).tagCallback = some (cbA ℓ) := by
    rw [r3, hg11]
    exact h.nshape.a_tagCb
  have ha1text : (getN n₂ 1).textCallback = none := by
    rw [r4, hg11]
    exact h.nshape.a_textCb
  have ha1par : (getN n₂ 1).parentHandler = sn.currentHandler := by
    rw [r5, hg11]
  have ha1subs : (getN n₂ 1).subHandlers = [("b", sn.nodes.length)] := by
    rw [r6, hg11]
    rcases h.nshape.a_subs with hs | ⟨b, hsubs, _⟩
    · exact setSub_single_b _ 0 _ (Or.inl hs)
    · exact setSub_single_b _ b _ (Or.inr ⟨b, hsubs, rfl⟩)
  have hBL : isB ℓ n₂ sn.nodes.length :=
    ⟨by omega, by rw [r1]; omega, by rw [r2]⟩
  have hact1 : act1 ℓ n₂ := ⟨sn.nodes.length, ha1subs, hBL⟩
  have hnsh : NShape ℓ n₂ := by
    refine ⟨by rw [r1]; omega, ?_, ?_, ha1tag, ha1text, Or.inr hact1, fun _ => hact1, ?_⟩
    · rw [heq 0 (by omega) (by omega)]
      exact h.nshape.top_textCb
    · rw [heq 0 (by omega) (by omega)]
      exact h.nshape.top_subs
    · intro j h2 hj
      by_cases hjL : j = sn.nodes.length
      · subst hjL
        refine ⟨by rw [r2], Or.inl hBL, fun _ => ⟨by rw [r2], Or.inl (by rw [r2])⟩,
          fun hcj => (isB_not_isC hBL hcj).elim⟩
      · have hjlt : j < sn.nodes.length := by rw [r1] at hj; omega
        have hne1 : j ≠ 1 := by omega
        obtain ⟨htc, hbc, hB, hC⟩ := h.nshape.rest j h2 hjlt
        refine ⟨by rw [heq j hjlt hne1]; exact htc, ?_, ?_, ?_⟩
        · rcases hbc with hb | hc
          · exact Or.inl (isB_mono hlenle hTag hb)
          · exact Or.inr (isC_mono hlenle hTag hc)
        · intro hb'
          have hb : isB ℓ sn.nodes j :=
            ⟨hb'.1, hjlt, by rw [← hTag j hjlt]; exact hb'.2.2⟩
          obtain ⟨hp, hs⟩ := hB hb
          refine ⟨by rw [heq j hjlt hne1]; exact hp, ?_⟩
          rcases hs with hs | hs
          · exact Or.inl (by rw [heq j hjlt hne1]; exact hs)
          · exact Or.inr (actB_mono hlenle hTag hPar2 (by rw [heq j hjlt hne1]) hs)
        · intro hc'
          have hc : isC ℓ sn.nodes j :=
            ⟨hc'.1, hjlt, by rw [← hTag j hjlt]; exact hc'.2.2⟩
          obtain ⟨hsubs, hpb, hpa⟩ := hC hc
          refine ⟨by rw [heq j hjlt hne1]; exact hsubs, ?_, ?_⟩
          · rw [heq j hjlt hne1]
            exact isB_mono hlenle hTag hpb
          · rw [heq j hjlt hne1]
            exact actB_mono hlenle hTag hPar2
              (by rw [heq _ hpb.2.1 (isB_ne_one hpb)]) hpa
  have hcuract : actAt ℓ n₂ sn.currentHandler := by
    refine ⟨fun _ => hact1, fun hb' => ?_⟩
    have hb : isB ℓ sn.nodes sn.currentHandler :=
      ⟨hb'.1, h.curlt, by rw [← hTag _ h.curlt]; exact hb'.2.2⟩
    exact actB_mono hlenle hTag hPar2
      (by rw [heq _ h.curlt (isB_ne_one hb)]) (h.curact.2 hb)
  have hrole : c5Role n₂ ((getN n₂ 1).parentHandler) = sp.currentHandler := by
    rw [ha1par]
    exact (c5Role_congr (hTag _ h.curlt)).trans h.currole
  refine ⟨⟨t0, t1, t2, t3, ?_⟩, hnsh, ?_, ?_, ?_, ?_, ?_, ?_⟩
  · show pArena ℓ sp.currentHandler t0 t1 t2 t3
      = pArena ℓ (c5Role n₂ ((getN n₂ 1).parentHandler)) t0 t1 t2 t3
    rw [hrole]
  · show actAt ℓ n₂ ((getN n₂ 1).parentHandler)
    rw [ha1par]
    exact hcuract
  · show (getN n₂ 1).parentHandler < n₂.length
    rw [ha1par, r1]
    have := h.curlt
    omega
  · show (1 : Nat) < n₂.length
    rw [r1]
    omega
  · show c5Role n₂ 1 = 1
    exact c5Role_one n₂
  · show actAt ℓ n₂ 1
    exact ⟨fun _ => hact1, fun hb => absurd hb.1 (by omega)⟩
  · exact h.traceeq

theorem c5_push_b (ℓ : Nat) (sp sn : DState) (h : C5Inv ℓ sp sn) (attrs : Attrs)
    (h1 : sn.currentHandler = 1) :
    C5Inv ℓ (handleTag sp "b" attrs) (handleTag sn "b" attrs) := by
  obtain ⟨t0, t1, t2, t3, hsp⟩ := h.pshape
  obtain ⟨q1, hq1⟩ : ∃ x, c5Role sn.nodes ((getN sn.nodes 1).parentHandler) = x := ⟨_, rfl⟩
  rw [hq1] at hsp
  have hlen2 := h.nshape.len2
  have hspc : sp.currentHandler = 1 := by
    rw [← h.currole, h1, c5Role_one]
  obtain ⟨b, hbsubs, hb⟩ := h.curact.1 h1
  have hblt : b < sn.nodes.length := hb.2.1
  have hb2 : 2 ≤ b := hb.1
  obtain ⟨hbtc, _, hB, _⟩ := h.nshape.rest b hb2 hblt
  have hpar_b : (getN sn.nodes b).parentHandler = 1 := (hB hb).1
  have hcn : sn.currentHandler ≠ 0 := by rw [h1]; omega
  have hcp : sp.currentHandler ≠ 0 := by rw [hspc]; omega
  have hgn : lookupSub (getN sn.nodes 0).subHandlers "b" = none := by
    rw [h.nshape.top_subs]
    rfl
  have hgp : lookupSub (getN sp.nodes 0).subHandlers "b" = none := by
    rw [hsp]
    rfl
  have hrn : resolve sn "b" = some b := by
    rw [resolve_eq_scoped hgn hcn, h1, hbsubs]
    rfl
  have hrp : resolve sp "b" = some 2 := by
    rw [resolve_eq_scoped hgp hcp, hspc, hsp]
    rfl
  rw [handleTag_eq_some attrs hrp, handleTag_eq_some attrs hrn]
  have hsetp : setN sp.nodes 2 ({ getN sp.nodes 2 with parentHandler := sp.currentHandler }) = pArena ℓ q1 t0 t1 t2 t3 := by
    rw [hspc, hsp]
    rfl
  have hppush : pushAndInvoke sp 2 attrs = { sp with nodes := pArena ℓ q1 t0 t1 t2 t3, currentHandler := 2 } := by
    rw [pushAndInvoke_eq, hsetp]
    rfl
  have hsetn : setN sn.nodes b ({ getN sn.nodes b with parentHandler := sn.currentHandler }) = sn.nodes := by
    rw [h1, setPar_self hpar_b, setN_getN_self]
  have hnpush : pushAndInvoke sn b attrs = applyReg { sn with nodes := sn.nodes, currentHandler := b } (.onTag "c" (cbC ℓ)) := by
    rw [pushAndInvoke_eq, hsetn, hb.2.2]
    rfl
  obtain ⟨n₂, hn₂⟩ : ∃ x, regSingle sn.nodes b "c" (cbC ℓ) = x := ⟨_, rfl⟩
  have happ : applyReg { sn with nodes := sn.nodes, currentHandler := b } (.onTag "c" (cbC ℓ)) = { sn with nodes := n₂, currentHandler := b } := by
    rw [applyReg_onTag_single _ _ _ (by decide)]
    show { sn with nodes := regSingle sn.nodes b "c" (cbC ℓ), currentHandler := b } = _
    rw [hn₂]
  rw [hppush, hnpush, happ]
  have hspec := regSingle_spec sn.nodes b "c" (cbC ℓ) hblt
  rw [hn₂] at hspec
  obtain ⟨r1, r2, r3, r4, r5, r6, r7⟩ := hspec
  have hTag : ∀ k, k < sn.nodes.length → (getN n₂ k).tagCallback = (getN sn.nodes k).tagCallback := by
    intro k hk
    by_cases hkb : k = b
    · subst hkb
      exact r3
    · rw [r7 k hk hkb]
  have hlenle : sn.nodes.length ≤ n₂.length := by rw [r1]; omega
  have hPar2 : ∀ k, k < sn.nodes.length → 2 ≤ k → (getN n₂ k).parentHandler = (getN sn.nodes k).parentHandler := by
    intro k hk h2
    by_cases hkb : k = b
    · subst hkb
      exact r5
    · rw [r7 k hk hkb]
  have hCL : isC ℓ n₂ sn.nodes.length :=
    ⟨by omega, by rw [r1]; omega, by rw [r2]⟩
  have hbsubs₂ : (getN n₂ b).subHandlers = [("c", sn.nodes.length)] := by
    rw [r6]
    rcases (hB hb).2 with hs | ⟨c, hcs, _, _⟩
    · exact setSub_single_c _ _ (Or.inl hs)
    · exact setSub_single_c _ _ (Or.inr ⟨c, hcs⟩)
  have hparL : (getN n₂ sn.nodes.length).parentHandler = b := by rw [r2]
  have hb₂ : isB ℓ n₂ b := isB_mono hlenle hTag hb
  have hactb₂ : actB ℓ n₂ b := ⟨sn.nodes.length, hbsubs₂, hCL, hparL⟩
  have hactB_other : ∀ p, p < sn.nodes.length → 2 ≤ p → actB ℓ sn.nodes p → actB ℓ n₂ p := by
    intro p hp hp2 hpa
    by_cases hpb : p = b
    · subst hpb
      exact hactb₂
    · exact actB_mono hlenle hTag hPar2 (by rw [r7 p hp hpb]) hpa
  have hne1b : (1 : Nat) ≠ b := fun hc => (isB_ne_one hb) hc.symm
  have hg1 : getN n₂ 1 = getN sn.nodes 1 := r7 1 (by omega) hne1b
  have hact1₂ : act1 ℓ n₂ := ⟨b, by rw [hg1]; exact hbsubs, hb₂⟩
  have hnsh : NShape ℓ n₂ := by
    refine ⟨by rw [r1]; omega, ?_, ?_, ?_, ?_, Or.inr hact1₂, fun _ => hact1₂, ?_⟩
    · rw [r7 0 (by omega) (by omega)]
      exact h.nshape.top_textCb
    · rw [r7 0 (by omega) (by omega)]
      exact h.nshape.top_subs
    · rw [hg1]
      exact h.nshape.a_tagCb
    · rw [hg1]
      exact h.nshape.a_textCb
    · intro j h2 hj
      by_cases hjL : j = sn.nodes.length
      · subst hjL
        refine ⟨by rw [r2], Or.inr hCL, fun hbj => (isB_not_isC hbj hCL).elim, fun _ => ?_⟩
        refine ⟨by rw [r2], ?_, ?_⟩
        · rw [hparL]
          exact hb₂
        · rw [hparL]
          exact hactb₂
      · have hjlt : j < sn.nodes.length := by rw [r1] at hj; omega
        by_cases hjb : j = b
        · subst hjb
          refine ⟨by rw [r4]; exact hbtc, Or.inl hb₂,
            fun _ => ⟨by rw [r5]; exact hpar_b, Or.inr hactb₂⟩,
            fun hcj => (isB_not_isC hb₂ hcj).elim⟩
        · obtain ⟨htc, hbc, hBj, hCj⟩ := h.nshape.rest j h2 hjlt
          refine ⟨by rw [r7 j hjlt hjb]; exact htc, ?_, ?_, ?_⟩
          · rcases hbc with hbj | hcj
            · exact Or.inl (isB_mono hlenle hTag hbj)
            · exact Or.inr (isC_mono hlenle hTag hcj)
          · intro hb'
            have hbj : isB ℓ sn.nodes j :=
              ⟨hb'.1, hjlt, by rw [← hTag j hjlt]; exact hb'.2.2⟩
            obtain ⟨hp, hs⟩ := hBj hbj
            refine ⟨by rw [r7 j hjlt hjb]; exact hp, ?_⟩
            rcases hs with hs | hs
            · exact Or.inl (by rw [r7 j hjlt hjb]; exact hs)
            · exact Or.inr (hactB_other j hjlt h2 hs)
          · intro hc'
            have hcj : isC ℓ sn.nodes j :=
              ⟨hc'.1, hjlt, by rw [← hTag j hjlt]; exact hc'.2.2⟩
            obtain ⟨hsubs, hpb, hpa⟩ := hCj hcj
            refine ⟨by rw [r7 j hjlt hjb]; exact hsubs, ?_, ?_⟩
            · rw [r7 j hjlt hjb]
              exact isB_mono hlenle hTag hpb
            · rw [r7 j hjlt hjb]
              exact hactB_other _ hpb.2.1 hpb.1 hpa
  have hrole1 : c5Role n₂ ((getN n₂ 1).parentHandler) = q1 := by
    rw [hg1, ← hq1]
    exact c5Role_congr (hTag _ h.p1lt)
  refine ⟨⟨t0, t1, t2, t3, ?_⟩, hnsh, ?_, ?_, ?_, ?_, ?_, ?_⟩
  · show pArena ℓ q1 t0 t1 t2 t3
      = pArena ℓ (c5Role n₂ ((getN n₂ 1).parentHandler)) t0 t1 t2 t3
    rw [hrole1]
  · show actAt ℓ n₂ ((getN n₂ 1).parentHandler)
    rw [hg1]
    refine ⟨fun hp1 => hact1₂, fun hb' => ?_⟩
    have hbp : isB ℓ sn.nodes ((getN sn.nodes 1).parentHandler) :=
      ⟨hb'.1, h.p1lt, by rw [← hTag _ h.p1lt]; exact hb'.2.2⟩
    exact hactB_other _ h.p1lt hbp.1 (h.p1act.2 hbp)
  · show (getN n₂ 1).parentHandler < n₂.length
    rw [hg1, r1]
    have := h.p1lt
    omega
  · show b < n₂.length
    rw [r1]
    omega
  · show c5Role n₂ b = 2
    exact c5Role_of_isB hb₂
  · show actAt ℓ n₂ b
    exact ⟨fun hb1 => absurd hb1 (isB_ne_one hb), fun _ => hactb₂⟩
  · exact h.traceeq

theorem c5_push_c (ℓ : Nat) (sp sn : DState) (h : C5Inv ℓ sp sn) (attrs : Attrs)
    (hbcur : isB ℓ sn.nodes sn.currentHandler) :
    C5Inv ℓ (handleTag sp "c" attrs) (handleTag sn "c" attrs) := by
  obtain ⟨t0, t1, t2, t3, hsp⟩ := h.pshape
  obtain ⟨q1, hq1⟩ : ∃ x, c5Role sn.nodes ((getN sn.nodes 1).parentHandler) = x := ⟨_, rfl⟩
  rw [hq1] at hsp
  have hspc : sp.currentHandler = 2 := by
    rw [← h.currole, c5Role_of_isB hbcur]
  obtain ⟨c, hcsubs, hc, hcpar⟩ := h.curact.2 hbcur
  have hcn : sn.currentHandler ≠ 0 := by
    have := hbcur.1
    omega
  have hcp : sp.currentHandler ≠ 0 := by rw [hspc]; omega
  have hgn : lookupSub (getN sn.nodes 0).subHandlers "c" = none := by
    rw [h.nshape.top_subs]
    rfl
  have hgp : lookupSub (getN sp.nodes 0).subHandlers "c" = none := by
    rw [hsp]
    rfl
  have hrn : resolve sn "c" = some c := by
    rw [resolve_eq_scoped hgn hcn, hcsubs]
    rfl
  have hrp : resolve sp "c" = some 3 := by
    rw [resolve_eq_scoped hgp hcp, hspc, hsp]
    rfl
  rw [handleTag_eq_some attrs hrp, handleTag_eq_some attrs hrn]
  have hsetp : setN sp.nodes 3 ({ getN sp.nodes 3 with parentHandler := sp.currentHandler }) = pArena ℓ q1 t0 t1 t2 t3 := by
    rw [hspc, hsp]
    rfl
  have hppush : pushAndInvoke sp 3 attrs = { sp with nodes := pArena ℓ q1 t0 t1 t2 t3, currentHandler := 3, trace := sp.trace ++ [.tag ℓ attrs] } := by
    rw [pushAndInvoke_eq, hsetp]
    rfl
  have hsetn : setN sn.nodes c ({ getN sn.nodes c with parentHandler := sn.currentHandler }) = sn.nodes := by
    rw [setPar_self hcpar, setN_getN_self]
  have hnpush : pushAndInvoke sn c attrs = { sn with nodes := sn.nodes, currentHandler := c, trace := sn.trace ++ [.tag ℓ attrs] } := by
    rw [pushAndInvoke_eq, hsetn, hc.2.2]
    rfl
  rw [hppush, hnpush]
  refine ⟨⟨t0, t1, t2, t3, ?_⟩, h.nshape, h.p1act, h.p1lt, hc.2.1, ?_, ?_, ?_⟩
  · show pArena ℓ q1 t0 t1 t2 t3
      = pArena ℓ (c5Role sn.nodes ((getN sn.nodes 1).parentHandler)) t0 t1 t2 t3
    rw [hq1]
  · show c5Role sn.nodes c = 3
    exact c5Role_of_isC hc
  · exact ⟨fun h1 => absurd h1 (isC_ne_one hc), fun hbc' => (isB_not_isC hbc' hc).elim⟩
  · show sn.trace ++ [Event.tag ℓ attrs] = sp.trace ++ [Event.tag ℓ attrs]
    rw [h.traceeq]

theorem c5_handleTag (ℓ : Nat) (sp sn : DState) (h : C5Inv ℓ sp sn)
    (name : String) (attrs : Attrs) :
    C5Inv ℓ (handleTag sp name attrs) (handleTag sn name attrs) := by
  by_cases ha : name = "a"
  · subst ha
    exact c5_push_a ℓ sp sn h attrs
  · obtain ⟨t0, t1, t2, t3, hsp⟩ := h.pshape
    have hgn : lookupSub (getN sn.nodes 0).subHandlers name = none := by
      rw [h.nshape.top_subs, lookupSub_single, if_neg (fun hc => ha hc.symm)]
    have hgp : lookupSub (getN sp.nodes 0).subHandlers name = none := by
      rw [hsp]
      show lookupSub [("a", 1)] name = none
      rw [lookupSub_single, if_neg (fun hc => ha hc.symm)]
    by_cases h0 : sn.currentHandler = 0
    · have hsp0 : sp.currentHandler = 0 := by rw [← h.currole, h0, c5Role_zero]
      rw [handleTag_eq_none attrs (resolve_eq_top hgp hsp0),
        handleTag_eq_none attrs (resolve_eq_top hgn h0)]
      exact h
    · have hsp0 : sp.currentHandler ≠ 0 := by
        rw [← h.currole]
        exact c5Role_pos h0
      by_cases h1 : sn.currentHandler = 1
      · by_cases hb : name = "b"
        · subst hb
          exact c5_push_b ℓ sp sn h attrs h1
        · obtain ⟨b, hbsubs, _⟩ := h.curact.1 h1
          have hspc : sp.currentHandler = 1 := by rw [← h.currole, h1, c5Role_one]
          have hrn : resolve sn name = none := by
            rw [resolve_eq_scoped hgn h0, h1, hbsubs, lookupSub_single,
              if_neg (fun hc => hb hc.symm)]
          have hrp : resolve sp name = none := by
            rw [resolve_eq_scoped hgp hsp0, hspc, hsp]
            show lookupSub [("b", 2)] name = none
            rw [lookupSub_single, if_neg (fun hc => hb hc.symm)]
          rw [handleTag_eq_none attrs hrp, handleTag_eq_none attrs hrn]
          exact h
      · have h2 : 2 ≤ sn.currentHandler := by omega
        obtain ⟨_, hbc, _, hC⟩ := h.nshape.rest sn.currentHandler h2 h.curlt
        rcases hbc with hbcur | hccur
        · by_cases hcname : name = "c"
          · subst hcname
            exact c5_push_c ℓ sp sn h attrs hbcur
          · obtain ⟨c, hcsubs, _, _⟩ := h.curact.2 hbcur
            have hspc : sp.currentHandler = 2 := by
              rw [← h.currole, c5Role_of_isB hbcur]
            have hrn : resolve sn name = none := by
              rw [resolve_eq_scoped hgn h0, hcsubs, lookupSub_single,
                if_neg (fun hc => hcname hc.symm)]
            have hrp : resolve sp name = none := by
              rw [resolve_eq_scoped hgp hsp0, hspc, hsp]
              show lookupSub [("c", 3)] name = none
              rw [lookupSub_single, if_neg (fun hc => hcname hc.symm)]
            rw [handleTag_eq_none attrs hrp, handleTag_eq_none attrs hrn]
            exact h
        · have hcsubs := (hC hccur).1
          have hspc : sp.currentHandler = 3 := by
            rw [← h.currole, c5Role_of_isC hccur]
          have hrn : resolve sn name = none := by
            rw [resolve_eq_scoped hgn h0, hcsubs]
            rfl
          have hrp : resolve sp name = none := by
            rw [resolve_eq_scoped hgp hsp0, hspc, hsp]
            rfl
          rw [handleTag_eq_none attrs hrp, handleTag_eq_none attrs hrn]
          exact h

theorem c5_step (ℓ : Nat) (sp sn : DState) (t : Token) (h : C5Inv ℓ sp sn) :
    C5Inv ℓ (step sp t) (step sn t) := by
  cases t with
  | start name attrs =>
      rw [step_start_eq, step_start_eq]
      exact c5_handleTag ℓ (handleText sp) (handleText sn) (c5_handleText ℓ sp sn h) name attrs
  | chardata s => exact c5_chardata ℓ sp sn h s
  | endElem => exact c5_end ℓ sp sn h

theorem c5_run (ℓ : Nat) (ts : List Token) :
    ∀ sp sn, C5Inv ℓ sp sn → C5Inv ℓ (runTokens sp ts) (runTokens sn ts) := by
  induction ts with
  | nil => intro sp sn h; exact h
  | cons t rest ih =>
      intro sp sn h
      show C5Inv ℓ (runTokens (step sp t) rest) (runTokens (step sn t) rest)
      exact ih _ _ (c5_step ℓ sp sn t h)

theorem c5_init (ℓ : Nat) : C5Inv ℓ (pathSetup ℓ) (nestedSetup ℓ) := by
  rw [pathSetup_eq, nestedSetup_eq]
  refine ⟨⟨"", "", "", "", rfl⟩, ?_, ?_, ?_, ?_, rfl, ?_, rfl⟩
  · refine ⟨le_refl 2, rfl, rfl, rfl, rfl, Or.inl rfl,
      fun h3 => absurd (show (3 : Nat) ≤ 2 from h3) (by omega), ?_⟩
    intro j h2 hj
    have hj2 : j < 2 := hj
    exact absurd h2 (by omega)
  · exact ⟨fun h01 => absurd (show (0 : Nat) = 1 from h01) (by omega),
      fun hb => absurd (show (2 : Nat) ≤ 0 from hb.1) (by omega)⟩
  · show (0 : Nat) < 2
    omega
  · show (0 : Nat) < 2
    omega
  · exact ⟨fun h01 => absurd (show (0 : Nat) = 1 from h01) (by omega),
      fun hb => absurd (show (2 : Nat) ≤ 0 from hb.1) (by omega)⟩

theorem Run_of_no_err {st : DState} (ts : List Token) (e : String)
    (he : st.errorCallback = none) : Run st ts e = runTokens st ts := by
  have h2 : (runTokens st ts).errorCallback = none := by
    rw [runTokens_err ts st]
    exact he
  simp only [Run]
  rw [h2]

/-- C5: for every label, every token list and every terminal error, the
run of the decoder holding the top-level path registration `"a/b/c"`
(the claim's canonical multi-segment path) produces exactly the same
sequence of callback invocations as the run of the decoder holding the
nested registrations — `"a"` at the top level, `"b"` registered from
inside `a`'s callback and `"c"` with the terminal callback registered
from inside `b`'s callback, the intermediate callbacks observing
nothing.  The terminal callback is modelled as a pure observer of label
`ℓ`. -/
theorem c5_path_equivalent_nested (ℓ : Nat) (ts : List Token) (e : String) :
    (Run (pathSetup ℓ) ts e).trace = (Run (nestedSetup ℓ) ts e).trace := by
  rw [Run_of_no_err ts e (by rw [pathSetup_eq]),
    Run_of_no_err ts e (by rw [nestedSetup_eq])]
  exact (c5_run ℓ ts (pathSetup ℓ) (nestedSetup ℓ) (c5_init ℓ)).traceeq.symm

end Exml
